import Mathlib

/-!
# DICOM parser (`source/data/DICOM.cpp`): shallow embedding and verification

The C++ class `DICOM` reads a DICOM file from a `QDataStream` and keeps the decoded
data elements in the vector `data`.  This file embeds the decoder as pure functions:

* a `QDataStream` over a file is the list of bytes that have not been read yet;
* a byte (`unsigned char`) is a `Fin 256`; wider machine integers are `Nat` / `Int`
  (every sum of shifted bytes below fits its C++ type, so no wrap-around occurs there);
* a `QString` is the list of its code units; a string built with `QString(dat[0]) + dat[1]`
  has one code unit per byte;
* `while` loops whose iterations each consume input carry a step bound as first argument;
  the bound handed over by the callers is the number of unread bytes, and the unfolding
  lemmas (`binSearch_eq`, `parseLoop_eq`, `parseSequence_eq`, `readSequenceLoop_fuel`,
  `readDefinedSequenceLoop_fuel`) show that with this bound the functions satisfy the loop
  equations of the source.

The dictionary class `database` is not part of the sources at hand: its table and VR lists
are fields of a structure and its lookup method is a parameter of that structure.

Where a statement is about a value that the functions do not return (the indices that
`binSearch` reads, the counter `depth` of the sequence readers after each byte), a trace
function with the control flow of the embedded function lists these values
(`binSearchReads`, `itemBodyDepths`, `readDefinedSequenceDepths`).
-/

/-! ## Bytes, strings, streams -/

/-- An `unsigned char`. -/
abbrev Byte := Fin 256

/-- A `QString`, as the list of its code units. -/
abbrev QString := List Nat

/-- The `QString` made from a string literal of the source, such as `"SQ"`. -/
def QString.lit (s : String) : QString := s.toList.map Char.toNat

/-- The two-character string `QString(dat[0]) + dat[1]`. -/
def QString.ofBytes2 (b0 b1 : Byte) : QString := [b0.val, b1.val]

/-- The value `((unsigned short int)(hi) << 8) + (unsigned short int)lo`. -/
def le16 (lo hi : Byte) : Nat := hi.val * 256 + lo.val

/-- The value `((unsigned int)(b3) << 24) + ((unsigned int)(b2) << 16) +
((unsigned int)(b1) << 8) + (unsigned int)b0`. -/
def le32 (b0 b1 b2 b3 : Byte) : Nat :=
  b3.val * 16777216 + b2.val * 65536 + b1.val * 256 + b0.val

/-- The constant `INT_MAX` of a 32-bit `int`. -/
def INT_MAX : Nat := 2147483647

/-- A `QDataStream` on a file opened for reading: the bytes not read yet. -/
abbrev QDataStream := List Byte

/-- The test `in.readRawData((char*)dat, 4) != 4` together with the four bytes read:
`none` when fewer than four bytes are left. -/
def read4 : QDataStream → Option ((Byte × Byte × Byte × Byte) × QDataStream)
  | d0 :: d1 :: d2 :: d3 :: rest => some ((d0, d1, d2, d3), rest)
  | _ => none

/-- The test `in.readRawData(buf, n) != n` together with the bytes read:
`none` when fewer than `n` bytes are left. -/
def readN (n : Nat) (s : QDataStream) : Option (List Byte × QDataStream) :=
  if s.length < n then none else some (s.take n, s.drop n)

/-! ## Data model -/

/-- An entry of the tag dictionary (`Reference` of the `database` class). -/
structure Reference where
  tag0 : Nat
  tag1 : Nat
  vr : QString
  title : QString
  deriving DecidableEq, Repr, Inhabited

/-- The dictionary `database`, as far as `DICOM.cpp` uses it: the table `lib`, the string
lists `validVR` and `implicitVR` (the VRs with a 4-byte length field in explicit
encoding), and the lookup method `binSearch(one, two, min, max)`, which is a parameter
here because its code is not among the sources. -/
structure database where
  lib : List Reference
  validVR : List QString
  implicitVR : List QString
  binSearch : Nat → Nat → Int → Int → Reference

/-- The call `lib->binSearch(one, two, 0, lib->lib.size()-1)`. -/
def database.closest (lib : database) (one two : Nat) : Reference :=
  lib.binSearch one two 0 ((lib.lib.length : Int) - 1)

/-- Class `SequenceItem`: the constructor stores `size` in `vl` and `data` in `vf`. -/
structure SequenceItem where
  vl : Nat
  vf : List Byte
  deriving DecidableEq, Repr, Inhabited

/-- Class `Attribute`.  `vf` is `none` for the `NULL` pointer the constructor sets, and
`seq` is the item list `seq.items`. -/
structure Attribute where
  tag0 : Nat
  tag1 : Nat
  desc : QString
  vl : Nat
  vf : Option (List Byte)
  seq : List SequenceItem
  deriving DecidableEq, Repr, Inhabited

/-- The state of a `DICOM` object that the parser reads or writes.  `z` holds the text
whose `toDouble()` the source stores in the member `z`. -/
structure DICOM where
  data : List Attribute
  isImplicit : Bool
  isBigEndian : Bool
  z : Option QString
  deriving DecidableEq, Repr, Inhabited

namespace DICOM

/-- The constructors `DICOM::DICOM()` and `DICOM::DICOM(database*)`:
`isImplicit = isBigEndian = false`, and `data` is empty. -/
def new : DICOM := { data := [], isImplicit := false, isBigEndian := false, z := none }

/-! ## Binary search in the element store (lines 965-1015) -/

/-- The element `data[mid]` that `binSearch` reads. -/
def dataAt (data : List Attribute) (mid : Int) : Attribute := data.getD mid.toNat default

/-- Body of `DICOM::binSearch(one, two, min, max)` on the member `data`, with a bound on
the recursion depth as first argument; `(max+min)/2` is C++ integer division. -/
def binSearchAux (data : List Attribute) (one two : Nat) : Nat → Int → Int → Int
  | 0, min, _ => min
  | fuel + 1, min, max =>
    if min ≥ max then min
    else
      let mid := (max + min).tdiv 2
      if (dataAt data mid).tag0 > one then binSearchAux data one two fuel min (mid - 1)
      else if (dataAt data mid).tag0 < one then binSearchAux data one two fuel (mid + 1) max
      else if (dataAt data mid).tag1 > two then binSearchAux data one two fuel min (mid - 1)
      else if (dataAt data mid).tag1 < two then binSearchAux data one two fuel (mid + 1) max
      else mid

/-- The method `DICOM::binSearch(one, two, min, max)` (lines 965-989). -/
def binSearch (data : List Attribute) (one two : Nat) (min max : Int) : Int :=
  binSearchAux data one two (max - min).toNat min max

/-- Body of the overload `DICOM::binSearch(att, one, two, min, max)` on an explicit list,
with a bound on the recursion depth as first argument. -/
def binSearchAttAux (att : List Attribute) (one two : Nat) : Nat → Int → Int → Int
  | 0, min, _ => min
  | fuel + 1, min, max =>
    if min ≥ max then min
    else
      let mid := (max + min).tdiv 2
      if (dataAt att mid).tag0 > one then binSearchAttAux att one two fuel min (mid - 1)
      else if (dataAt att mid).tag0 < one then binSearchAttAux att one two fuel (mid + 1) max
      else if (dataAt att mid).tag1 > two then binSearchAttAux att one two fuel min (mid - 1)
      else if (dataAt att mid).tag1 < two then binSearchAttAux att one two fuel (mid + 1) max
      else (max + min).tdiv 2

/-- The overload `DICOM::binSearch(att, one, two, min, max)` (lines 991-1015). -/
def binSearchAtt (att : List Attribute) (one two : Nat) (min max : Int) : Int :=
  binSearchAttAux att one two (max - min).toNat min max

/-- The strict order of two elements by `(group, element)`. -/
def tagLt (a b : Attribute) : Prop :=
  a.tag0 < b.tag0 ∨ (a.tag0 = b.tag0 ∧ a.tag1 < b.tag1)

instance (a b : Attribute) : Decidable (tagLt a b) :=
  inferInstanceAs (Decidable (a.tag0 < b.tag0 ∨ (a.tag0 = b.tag0 ∧ a.tag1 < b.tag1)))

/-- The order `≤` of two elements by `(group, element)`. -/
def tagLe (a b : Attribute) : Prop :=
  a.tag0 < b.tag0 ∨ (a.tag0 = b.tag0 ∧ a.tag1 ≤ b.tag1)

instance (a b : Attribute) : Decidable (tagLe a b) :=
  inferInstanceAs (Decidable (a.tag0 < b.tag0 ∨ (a.tag0 = b.tag0 ∧ a.tag1 ≤ b.tag1)))

/-! ## Sequence readers (lines 488-772) -/

/-- The compile-time switch `ALLOW_LOOSE_CUSTOM_TAGS` (line 41). -/
def ALLOW_LOOSE_CUSTOM_TAGS : Bool := true

/-- The call `QByteArray::right(n)`: the last `n` bytes, or the whole array when it is shorter. -/
def right (n : Nat) (buffer : List Byte) : List Byte := buffer.drop (buffer.length - n)

/-- The call `QByteArray::left(n)`: the first `n` bytes, or the whole array when it is shorter. -/
def left (n : Nat) (buffer : List Byte) : List Byte := buffer.take n

/-- The call `QByteArray::chop(n)`: the array without its last `n` bytes. -/
def chop (n : Nat) (buffer : List Byte) : List Byte := buffer.take (buffer.length - n)

/-- The value `*(unsigned int*)(a.data())` on a little-endian host.  The data of a
`QByteArray` is followed by a zero byte; what lies behind that byte is taken as zero too
(the source compares the value only with constants that have no zero byte). -/
def asUInt (a : List Byte) : Nat := le32 (a.getD 0 0) (a.getD 1 0) (a.getD 2 0) (a.getD 3 0)

/-- The value `*(unsigned short int*)(a.data())` on a little-endian host. -/
def asUShort (a : List Byte) : Nat := le16 (a.getD 0 0) (a.getD 1 0)

/-- Lines 556-591 (and 693-728): the value of `depth` after the test whether the buffer
ends in the header of a subsequence of undefined length. -/
def depthAfterMarker (lib : database) (isImplicit : Bool) (buffer : List Byte)
    (depth : Int) : Int :=
  if asUInt (right 4 buffer) = 0xFFFFFFFF then
    if !isImplicit then
      if asUInt (left 4 (right 8 buffer)) = 0x00005351 then depth + 1 else depth
    else
      let tag0 := asUShort (left 2 (right 8 buffer))
      let tag1 := asUShort (left 2 (right 6 buffer))
      let nearest := lib.closest tag0 tag1
      if nearest.tag0 = tag0 ∧ nearest.tag1 = tag1 then
        if nearest.vr = QString.lit "SQ" then depth + 1 else depth
      else if ALLOW_LOOSE_CUSTOM_TAGS then depth + 1 else depth
  else depth

/-- The loop `while (true)` of lines 543-628 (and 680-766), which appends one byte at a time
to `buffer` until the item delimiter is met at depth 0.  Arguments: the stream, `buffer`,
`depth`.  Result: the buffer after `chop(4)`, `depth`, and the stream behind the four
bytes that follow the delimiter; `none` where the source returns 0. -/
def readItemBody (lib : database) (isImplicit : Bool) :
    QDataStream → List Byte → Int → Option (List Byte × Int × QDataStream)
  | [], _, _ => none
  | b :: s, buffer, depth =>
    let buffer1 := buffer ++ [b]
    let depth1 := depthAfterMarker lib isImplicit buffer1 depth
    if asUInt (right 4 buffer1) = 0xE00DFFFE ∧ depth1 = 0 then
      match read4 s with
      | none => none
      | some (_, s1) => some (chop 4 buffer1, depth1, s1)
    else if asUInt (right 4 buffer1) = 0xE0DDFFFE then
      readItemBody lib isImplicit s buffer1 (depth1 - 1)
    else readItemBody lib isImplicit s buffer1 depth1

/-- The loop `while (flag)` of `DICOM::readSequence` (lines 493-632) with a bound on the
number of iterations as first argument.  Arguments: the stream and `att->seq.items`.
`none` stands for `return 0`.  A length of `2^31` or more is a negative `int` for
`readRawData`, which then returns -1. -/
def readSequenceLoop (lib : database) (isImplicit : Bool) :
    Nat → QDataStream → List SequenceItem → Option (List SequenceItem × QDataStream)
  | 0, _, _ => none
  | fuel + 1, s, items =>
    match read4 s with
    | none => none
    | some ((t0, t1, t2, t3), s1) =>
      match read4 s1 with
      | none => none
      | some ((z0, z1, z2, z3), s2) =>
        if le32 t0 t1 t2 t3 = 0xE0DDFFFE then some (items, s2)
        else if le32 z0 z1 z2 z3 ≠ 0xFFFFFFFF then
          if le32 z0 z1 z2 z3 ≥ 2147483648 then none
          else
            match readN (le32 z0 z1 z2 z3) s2 with
            | none => none
            | some (dat, s3) =>
              readSequenceLoop lib isImplicit fuel s3 (items ++ [⟨le32 z0 z1 z2 z3, dat⟩])
        else
          match readItemBody lib isImplicit s2 [] 0 with
          | none => none
          | some (buffer, _, s3) =>
            readSequenceLoop lib isImplicit fuel s3 (items ++ [⟨buffer.length, buffer⟩])

/-- The method `DICOM::readSequence(in, att)` (lines 488-634): the attribute with the items
read and the stream behind the sequence, or `none` for the return value 0. -/
def readSequence (lib : database) (isImplicit : Bool) (s : QDataStream) (att : Attribute) :
    Option (Attribute × QDataStream) :=
  match readSequenceLoop lib isImplicit s.length s att.seq with
  | none => none
  | some (items, s1) => some ({ att with seq := items }, s1)

/-- The number of values of an `unsigned long int` (64 bits). -/
def ULONG_RANGE : Nat := 18446744073709551616

/-- The statement `n -= k` on the `unsigned long int n`: subtraction modulo `2^64`. -/
def subULong (n k : Nat) : Nat := (n + ULONG_RANGE - k % ULONG_RANGE) % ULONG_RANGE

/-- The loop `while (n > 0)` of `DICOM::readDefinedSequence` (lines 640-770) with a bound on
the number of iterations as first argument.  Arguments: the stream, `att->seq.items`, `n`
and `depth` (declared once, before the loop). -/
def readDefinedSequenceLoop (lib : database) (isImplicit : Bool) :
    Nat → QDataStream → List SequenceItem → Nat → Int →
      Option (List SequenceItem × QDataStream)
  | 0, s, items, n, _ => if n > 0 then none else some (items, s)
  | fuel + 1, s, items, n, depth =>
    if n > 0 then
      match read4 s with
      | none => none
      | some (_, s1) =>
        match read4 s1 with
        | none => none
        | some ((z0, z1, z2, z3), s2) =>
          if le32 z0 z1 z2 z3 ≠ 0xFFFFFFFF then
            if le32 z0 z1 z2 z3 ≥ 2147483648 then none
            else
              match readN (le32 z0 z1 z2 z3) s2 with
              | none => none
              | some (dat, s3) =>
                readDefinedSequenceLoop lib isImplicit fuel s3
                  (items ++ [⟨le32 z0 z1 z2 z3, dat⟩])
                  (subULong (subULong n 8) (le32 z0 z1 z2 z3)) depth
          else
            match readItemBody lib isImplicit s2 [] depth with
            | none => none
            | some (buffer, depth1, s3) =>
              readDefinedSequenceLoop lib isImplicit fuel s3
                (items ++ [⟨buffer.length, buffer⟩])
                (subULong (subULong n 8) buffer.length) depth1
    else some (items, s)

/-- The method `DICOM::readDefinedSequence(in, att, n)` (lines 636-772). -/
def readDefinedSequence (lib : database) (isImplicit : Bool) (s : QDataStream)
    (att : Attribute) (n : Nat) : Option (Attribute × QDataStream) :=
  match readDefinedSequenceLoop lib isImplicit s.length s att.seq n 0 with
  | none => none
  | some (items, s1) => some ({ att with seq := items }, s1)

/-! ## The top-level decoder `DICOM::parse` (lines 95-486) -/

/-- The result of decoding one data element: the attribute `temp`, the local `VR`, the
flag `nested` and the stream behind the element. -/
structure Decoded where
  temp : Attribute
  VR : QString
  nested : Bool
  rest : QDataStream
  deriving DecidableEq, Repr

/-- Lines 206-255: the local `VR` and the flag `readVR`, from the transfer syntax, the tag,
the description found for it and the four bytes `dat` read behind the tag. -/
def selectVR (lib : database) (isImplicit : Bool) (tag0 tag1 : Nat) (desc : QString)
    (dat : Byte × Byte × Byte × Byte) : QString × Bool :=
  if !isImplicit ∨ tag0 = 0x0002 then (QString.ofBytes2 dat.1 dat.2.1, true)
  else if ALLOW_LOOSE_CUSTOM_TAGS ∧ isImplicit ∧ desc = QString.lit "Unknown Tag" then
    if QString.ofBytes2 dat.1 dat.2.1 ∈ lib.validVR then (QString.ofBytes2 dat.1 dat.2.1, true)
    else if le32 dat.1 dat.2.1 dat.2.2.1 dat.2.2.2 = 0xFFFFFFFF then (QString.lit "SQ", false)
    else ((lib.closest tag0 tag1).vr, false)
  else ((lib.closest tag0 tag1).vr, false)

/-- Lines 195-279: reads the four bytes behind the tag, and four more when the VR has a
4-byte length in explicit encoding; yields `VR`, `temp->vl` and the stream behind the
header, or the error code 204. -/
def readHeader (lib : database) (isImplicit : Bool) (tag0 tag1 : Nat) (desc : QString)
    (s : QDataStream) : Except Nat (QString × Nat × QDataStream) :=
  match read4 s with
  | none => .error 204
  | some (dat, s1) =>
    if (selectVR lib isImplicit tag0 tag1 desc dat).1 ∈ lib.implicitVR ∧ !isImplicit then
      match read4 s1 with
      | none => .error 204
      | some ((e0, e1, e2, e3), s2) =>
        .ok ((selectVR lib isImplicit tag0 tag1 desc dat).1, le32 e0 e1 e2 e3, s2)
    else if (selectVR lib isImplicit tag0 tag1 desc dat).2 then
      .ok ((selectVR lib isImplicit tag0 tag1 desc dat).1, le16 dat.2.2.1 dat.2.2.2, s1)
    else
      .ok ((selectVR lib isImplicit tag0 tag1 desc dat).1,
        le32 dat.1 dat.2.1 dat.2.2.1 dat.2.2.2, s1)

/-- The loop of lines 317-325: `k` reads of `INT_MAX` bytes each. -/
def readChunks : Nat → QDataStream → Option (List Byte × QDataStream)
  | 0, s => some ([], s)
  | k + 1, s =>
    match readN INT_MAX s with
    | none => none
    | some (c, s1) =>
      match readChunks k s1 with
      | none => none
      | some (cs, s2) => some (c ++ cs, s2)

/-- Lines 306-326: fills `temp->vf` for a value of `size` bytes.  The result holds the
bytes that were read into the array (its part that no read fills is left out), or the
error code 301 or 302. -/
def readValue (size : Nat) (s : QDataStream) : Except Nat (List Byte × QDataStream) :=
  if 0 < size ∧ size < INT_MAX then
    match readN size s with
    | none => .error 301
    | some r => .ok r
  else if 0 < size then
    match readChunks (size / INT_MAX) s with
    | none => .error 302
    | some r => .ok r
  else .ok ([], s)

/-- Lines 290-326: reads the value of the element whose header gave `VR` and `temp->vl`:
a sequence through `readSequence` or `readDefinedSequence`, anything else as raw bytes. -/
def readBody (lib : database) (isImplicit : Bool) (temp : Attribute) (VR : QString)
    (s : QDataStream) : Except Nat Decoded :=
  if VR = QString.lit "SQ" ∧ temp.vl = 0xFFFFFFFF then
    match readSequence lib isImplicit s temp with
    | none => .error 208
    | some (temp1, s1) => .ok { temp := temp1, VR := VR, nested := true, rest := s1 }
  else if VR = QString.lit "SQ" then
    match readDefinedSequence lib isImplicit s temp temp.vl with
    | none => .error 209
    | some (temp1, s1) => .ok { temp := temp1, VR := VR, nested := true, rest := s1 }
  else
    match readValue temp.vl s with
    | .error e => .error e
    | .ok (vf, s1) =>
      .ok { temp := { temp with vf := some vf }, VR := VR, nested := false, rest := s1 }

/-- Lines 139-326: decodes one data element from the stream: tag, dictionary lookup,
header, value.  The error codes are those `parse` returns from inside the loop. -/
def decodeElement (lib : database) (isImplicit : Bool) (s : QDataStream) :
    Except Nat Decoded :=
  match read4 s with
  | none => .error 201
  | some ((d0, d1, d2, d3), s1) =>
    if le16 d0 d1 = 0xFFFE ∧ (le16 d2 d3 = 0xE0DD ∨ le16 d2 d3 = 0xE00D) then .error 202
    else
      let closest := lib.closest (le16 d0 d1) (le16 d2 d3)
      let desc :=
        if closest.tag0 = le16 d0 d1 ∧ closest.tag1 = le16 d2 d3 then closest.title
        else QString.lit "Unknown Tag"
      match readHeader lib isImplicit (le16 d0 d1) (le16 d2 d3) desc s1 with
      | .error e => .error e
      | .ok (VR, vl, s2) =>
        readBody lib isImplicit
          { tag0 := le16 d0 d1, tag1 := le16 d2 d3, desc := desc, vl := vl, vf := none,
            seq := [] } VR s2

/-- The string `QString TransSyntax((char*)temp->vf)`: the characters before the first
zero byte, one code unit per byte (an array without a zero byte is read to its end). -/
def cString (vf : List Byte) : QString := (vf.takeWhile (fun b => b ≠ 0)).map Fin.val

/-- Lines 424-444: sets the transfer syntax when the element is `(0002,0010)`. -/
def saveTransferUID (self : DICOM) (temp : Attribute) : DICOM :=
  if temp.tag0 = 0x0002 ∧ temp.tag1 = 0x0010 then
    if cString (temp.vf.getD []) = QString.lit "1.2.840.10008.1.2.1" then
      { self with isImplicit := false, isBigEndian := false }
    else if cString (temp.vf.getD []) = QString.lit "1.2.840.10008.1.2.2" then
      { self with isImplicit := false, isBigEndian := true }
    else if cString (temp.vf.getD []) = QString.lit "1.2.840.10008.1.2" then
      { self with isImplicit := true, isBigEndian := false }
    else
      { self with isImplicit := false, isBigEndian := false }
  else self

/-- Lines 446-454: keeps the text of the slice height when the element is `(0020,1041)`. -/
def saveSliceHeight (self : DICOM) (temp : Attribute) : DICOM :=
  if temp.tag0 = 0x0020 ∧ temp.tag1 = 0x1041 then
    { self with z := some (((temp.vf.getD []).take temp.vl).map Fin.val) }
  else self

/-- Lines 474-478: `data.insert(i, temp)` with `i = binSearch(tag, 0, data.size()-1)`, or
`i = 0` for an empty vector. -/
def insertSorted (data : List Attribute) (temp : Attribute) : List Attribute :=
  let i : Int :=
    if data.length ≠ 0 then binSearch data temp.tag0 temp.tag1 0 ((data.length : Int) - 1)
    else 0
  data.take i.toNat ++ temp :: data.drop i.toNat

/-- One iteration of the loop of `parse` (lines 139-478): decodes an element, updates the
transfer syntax and the slice height when it is not a sequence, and inserts it. -/
def parseElement (lib : database) (self : DICOM) (s : QDataStream) :
    Except Nat (DICOM × QDataStream) :=
  match decodeElement lib self.isImplicit s with
  | .error e => .error e
  | .ok r =>
    let self1 := if r.nested then self else saveSliceHeight (saveTransferUID self r.temp) r.temp
    .ok ({ self1 with data := insertSorted self1.data r.temp }, r.rest)

/-- The loop `while (!in.atEnd())` of `parse` (lines 138-481) with a bound on the number of
iterations as first argument.  Result: the return code, the state of the object, and the
stream where the loop was left (for a nonzero code: at the start of the element that was
being decoded). -/
def parseLoop (lib : database) : Nat → DICOM → QDataStream → Nat × DICOM × QDataStream
  | 0, self, s => (0, self, s)
  | fuel + 1, self, s =>
    if s = [] then (0, self, s)
    else
      match parseElement lib self s with
      | .error e => (e, self, s)
      | .ok (self1, s1) => parseLoop lib fuel self1 s1

/-- The method `DICOM::parse(p)` (lines 95-486).  `file` is the content of the file at `p`,
or `none` when it cannot be opened.  Result: the return code, the state of the object
afterwards and the unread rest of the stream. -/
def parse (lib : database) (self : DICOM) (file : Option (List Byte)) :
    Nat × DICOM × QDataStream :=
  match file with
  | none => (501, self, [])
  | some bytes =>
    match readN 128 bytes with
    | none => (101, self, [])
    | some (_, s1) =>
      match read4 s1 with
      | none => (102, self, [])
      | some ((d0, d1, d2, d3), s2) =>
        if [d0.val, d1.val, d2.val, d3.val] ≠ QString.lit "DICM" then (103, self, s2)
        else parseLoop lib s2.length self s2

/-! ## A concrete dictionary for the examples -/

/-- Modelled from the spec: the recursion of the lookup method `database::binSearch`, whose
code is not among the sources, with a bound on the recursion depth as first argument.
The spec describes it as a binary search by `(group, element)` over the sorted table that
returns the record found or the nearest neighbour: "when `min > max` returns `min`
(a neighbour index, not a hit)". -/
def specBinSearchAux (table : List Reference) (one two : Nat) : Nat → Int → Int → Reference
  | 0, min, _ => table.getD min.toNat default
  | fuel + 1, min, max =>
    if min > max then table.getD min.toNat default
    else
      let mid := (max + min).tdiv 2
      if (table.getD mid.toNat default).tag0 > one then
        specBinSearchAux table one two fuel min (mid - 1)
      else if (table.getD mid.toNat default).tag0 < one then
        specBinSearchAux table one two fuel (mid + 1) max
      else if (table.getD mid.toNat default).tag1 > two then
        specBinSearchAux table one two fuel min (mid - 1)
      else if (table.getD mid.toNat default).tag1 < two then
        specBinSearchAux table one two fuel (mid + 1) max
      else table.getD mid.toNat default

/-- Modelled from the spec: the lookup method `database::binSearch(one, two, min, max)` on
a table (see `specBinSearchAux`). -/
def specBinSearch (table : List Reference) (one two : Nat) (min max : Int) : Reference :=
  specBinSearchAux table one two (max - min + 1).toNat min max

/-- Modelled from the spec: a dictionary with four entries of the DICOM data dictionary,
the standard VR codes as `validVR`, and the extended set `OB, OW, OF, SQ, UT, UN` of the
spec as `implicitVR`. -/
def sampleLib : database where
  lib :=
    [ { tag0 := 0x0002, tag1 := 0x0010, vr := QString.lit "UI",
        title := QString.lit "Transfer Syntax UID" },
      { tag0 := 0x0008, tag1 := 0x0005, vr := QString.lit "CS",
        title := QString.lit "Specific Character Set" },
      { tag0 := 0x0010, tag1 := 0x0010, vr := QString.lit "PN",
        title := QString.lit "Patient Name" },
      { tag0 := 0x3006, tag1 := 0x0039, vr := QString.lit "SQ",
        title := QString.lit "ROI Contour Sequence" } ]
  validVR :=
    [ "AE", "AS", "AT", "CS", "DA", "DS", "DT", "FL", "FD", "IS", "LO", "LT", "OB", "OF",
      "OW", "PN", "SH", "SL", "SQ", "SS", "ST", "TM", "UI", "UL", "UN", "US", "UT"
    ].map QString.lit
  implicitVR := [ "OB", "OW", "OF", "SQ", "UT", "UN" ].map QString.lit
  binSearch := fun one two min max =>
    specBinSearch
      [ { tag0 := 0x0002, tag1 := 0x0010, vr := QString.lit "UI",
          title := QString.lit "Transfer Syntax UID" },
        { tag0 := 0x0008, tag1 := 0x0005, vr := QString.lit "CS",
          title := QString.lit "Specific Character Set" },
        { tag0 := 0x0010, tag1 := 0x0010, vr := QString.lit "PN",
          title := QString.lit "Patient Name" },
        { tag0 := 0x3006, tag1 := 0x0039, vr := QString.lit "SQ",
          title := QString.lit "ROI Contour Sequence" } ] one two min max

/-- The bytes of an ASCII string literal. -/
def asciiBytes (s : String) : List Byte := s.toList.map (fun c => Fin.ofNat c.toNat)

/-- The 128 zero bytes of a preamble followed by the magic `DICM`. -/
def preamble : List Byte := List.replicate 128 0 ++ asciiBytes "DICM"

/-! ## Example inputs -/

/-- A store with three elements in strictly ascending order of their tags. -/
def sampleStore : List Attribute :=
  [ { tag0 := 0x0008, tag1 := 0x0005, desc := [], vl := 0, vf := some [], seq := [] },
    { tag0 := 0x0008, tag1 := 0x0008, desc := [], vl := 0, vf := some [], seq := [] },
    { tag0 := 0x0010, tag1 := 0x0010, desc := [], vl := 0, vf := some [], seq := [] } ]

/-- The element `(0008,0005)` in explicit encoding: VR `CS`, length 10, value `ISO_IR 100`. -/
def charsetElement : List Byte :=
  [0x08, 0x00, 0x05, 0x00] ++ asciiBytes "CS" ++ [10, 0] ++ asciiBytes "ISO_IR 100"

/-- A file with two elements in explicit encoding, in ascending order of their tags:
`(0008,0005)` and `(0010,0010)` (VR `PN`, length 6). -/
def twoElementFile : List Byte :=
  preamble ++ charsetElement ++
    [0x10, 0x00, 0x10, 0x00] ++ asciiBytes "PN" ++ [6, 0] ++ asciiBytes "Doe^J "

/-- The element `(0002,0010)` in explicit encoding: VR `UI`, length 18, value the UID
`1.2.840.10008.1.2` of implicit VR little endian and one zero byte of padding. -/
def implicitSyntaxElement : List Byte :=
  [0x02, 0x00, 0x10, 0x00] ++ asciiBytes "UI" ++ [18, 0] ++ asciiBytes "1.2.840.10008.1.2" ++ [0]

/-- The element `(0002,0102)` in explicit encoding with the 12-byte header of VR `OB`:
`OB`, two reserved bytes, the 4-byte length 4, and four value bytes. -/
def metaOBElement : List Byte :=
  [0x02, 0x00, 0x02, 0x01] ++ asciiBytes "OB" ++ [0, 0] ++ [4, 0, 0, 0] ++ [1, 2, 3, 4]

/-- A file whose meta group announces implicit VR little endian and then holds the
element `(0002,0102)` with VR `OB`. -/
def metaOBFile : List Byte := preamble ++ implicitSyntaxElement ++ metaOBElement

/-- The element `(3006,0038)`, a tag `sampleLib` does not hold, in implicit encoding:
length 8 and eight value bytes (which happen to read as an item header of length 0). -/
def unknownTagElement : List Byte :=
  [0x06, 0x30, 0x38, 0x00] ++ [8, 0, 0, 0] ++ [0xFE, 0xFF, 0x00, 0xE0, 0, 0, 0, 0]

/-- A file in implicit VR little endian whose only data element is `unknownTagElement`. -/
def unknownTagFile : List Byte := preamble ++ implicitSyntaxElement ++ unknownTagElement

/-- The element `(0010,0010)` in implicit encoding: length 6 and six value bytes. -/
def patientNameElement : List Byte :=
  [0x10, 0x00, 0x10, 0x00] ++ [6, 0, 0, 0] ++ asciiBytes "Doe^J" ++ [0]

/-- The element `(3F3F,1001)`, a tag `sampleLib` does not hold, in implicit encoding with
the length `FF FF FF FF`, followed by a sequence delimiter with its length field. -/
def vendorSequenceElement : List Byte :=
  [0x3F, 0x3F, 0x01, 0x10] ++ [255, 255, 255, 255] ++ [0xFE, 0xFF, 0xDD, 0xE0, 0, 0, 0, 0]

/-- The element `(0009,1001)`, a private tag that `sampleLib` does not hold (it lies
between the entries `(0008,0005)` and `(0010,0010)` of the table), in implicit encoding
with the length `FF FF FF FF`, followed by a sequence delimiter with its length field. -/
def privateSequenceElement : List Byte :=
  [0x09, 0x00, 0x01, 0x10] ++ [255, 255, 255, 255] ++ [0xFE, 0xFF, 0xDD, 0xE0, 0, 0, 0, 0]

/-! ## The decoder for the bytes of a sequence item, `DICOM::parseSequence` (lines 774-963) -/

/-- Lines 809-897 of `parseSequence`: the local `VR`, the length `temp->vl` as read from the
stream, and the stream behind the header; `none` stands for `return 0`.  The array `dat`
is not initialised when the VR comes from the dictionary (it is shown as four zero bytes);
the test of line 832 then holds, so that `dat` is read into before it is used. -/
def readSequenceHeader (lib : database) (isImplicit : Bool) (tag0 tag1 : Nat)
    (s : QDataStream) : Option (QString × Nat × QDataStream) :=
  match (if !isImplicit ∨ tag0 = 0x0002 then
      match read4 s with
      | none => none
      | some (dat, s1) => some (QString.ofBytes2 dat.1 dat.2.1, dat, s1)
    else some ((lib.closest tag0 tag1).vr, ((0 : Byte), (0 : Byte), (0 : Byte), (0 : Byte)), s))
  with
  | none => none
  | some (VR, dat, s1) =>
    if (tag0 ≠ 0x0002 ∧ isImplicit) ∨ VR ∈ lib.implicitVR then
      match read4 s1 with
      | none => none
      | some ((e0, e1, e2, e3), s2) => some (VR, le32 e0 e1 e2 e3, s2)
    else
      match (if isImplicit ∧ tag0 ≠ 0x0002 then read4 s1 else some (dat, s1)) with
      | none => none
      | some (dat1, s2) =>
        if VR ∈ lib.validVR then some (VR, le16 dat1.2.2.1 dat1.2.2.2, s2)
        else some (VR, le32 dat1.1 dat1.2.1 dat1.2.2.1 dat1.2.2.2, s2)

/-- Lines 844-860 (and 880-896) of `parseSequence`: a sequence is read by `readSequence` or
`readDefinedSequence`; the result holds the attribute, the flag `nested` and the stream,
and `none` stands for `return 0`. -/
def readSequenceBody (lib : database) (isImplicit : Bool) (temp : Attribute) (VR : QString)
    (s : QDataStream) : Option (Attribute × Bool × QDataStream) :=
  if VR = QString.lit "SQ" ∧ temp.vl = 0xFFFFFFFF then
    match readSequence lib isImplicit s temp with
    | none => none
    | some (temp1, s1) => some (temp1, true, s1)
  else if VR = QString.lit "SQ" then
    match readDefinedSequence lib isImplicit s temp temp.vl with
    | none => none
    | some (temp1, s1) => some (temp1, true, s1)
  else some (temp, false, s)

/-- Lines 786-937 of `parseSequence`: decodes one data element of an item.  The error
value is the return value of `parseSequence`: 1 when the tag cannot be read, 0 for every
other failure. -/
def decodeSequenceElement (lib : database) (isImplicit : Bool) (s : QDataStream) :
    Except Nat Decoded :=
  match read4 s with
  | none => .error 1
  | some ((d0, d1, d2, d3), s1) =>
    match readSequenceHeader lib isImplicit (le16 d0 d1) (le16 d2 d3) s1 with
    | none => .error 0
    | some (VR, vl, s2) =>
      match readSequenceBody lib isImplicit
          { tag0 := le16 d0 d1, tag1 := le16 d2 d3, desc := [], vl := vl, vf := none,
            seq := [] } VR s2 with
      | none => .error 0
      | some (temp1, nested, s3) =>
        let closest := lib.closest (le16 d0 d1) (le16 d2 d3)
        let desc :=
          if closest.tag0 = le16 d0 d1 ∧ closest.tag1 = le16 d2 d3 then closest.title
          else QString.lit "Unknown Tag"
        let size := if temp1.vl = 0xFFFFFFFF then 0 else temp1.vl
        if nested then
          .ok { temp := { temp1 with vl := size, desc := desc }, VR := VR, nested := true,
                rest := s3 }
        else
          match readValue size s3 with
          | .error _ => .error 0
          | .ok (vf, s4) =>
            .ok { temp := { temp1 with vl := size, desc := desc, vf := some vf }, VR := VR,
                  nested := false, rest := s4 }

/-- Lines 956-960: `att->insert(i, temp)` with `i = binSearch(att, tag, 0, att->size()-1)`,
or `i = 0` for an empty list. -/
def insertSortedAtt (att : List Attribute) (temp : Attribute) : List Attribute :=
  let i : Int :=
    if att.length ≠ 0 then binSearchAtt att temp.tag0 temp.tag1 0 ((att.length : Int) - 1)
    else 0
  att.take i.toNat ++ temp :: att.drop i.toNat

/-- The loop `while (!in->atEnd())` of `parseSequence` (lines 784-961) with a bound on the
number of iterations as first argument.  Arguments: the object, the stream and the list
`*att`.  Result: the return value, the object, the list and the stream where the loop was
left (at the start of the element that failed, when one did). -/
def parseSequenceLoop (lib : database) :
    Nat → DICOM → QDataStream → List Attribute →
      Nat × DICOM × List Attribute × QDataStream
  | 0, self, s, att => (att.length, self, att, s)
  | fuel + 1, self, s, att =>
    if s = [] then (att.length, self, att, s)
    else
      match decodeSequenceElement lib self.isImplicit s with
      | .error e => (e, self, att, s)
      | .ok r => parseSequenceLoop lib fuel self r.rest (insertSortedAtt att r.temp)

/-- The method `DICOM::parseSequence(in, att)` (lines 774-963): the return value, the state
of the object afterwards, the list `*att` and the unread rest of the stream. -/
def parseSequence (lib : database) (self : DICOM) (s : QDataStream) (att : List Attribute) :
    Nat × DICOM × List Attribute × QDataStream :=
  parseSequenceLoop lib s.length self s att

/-! ## Wire forms used to state the claims on sequences -/

/-- An item of defined length as it stands in the stream: four tag bytes, four length
bytes and the value bytes. -/
structure WireItem where
  tag : Byte × Byte × Byte × Byte
  len : Byte × Byte × Byte × Byte
  payload : List Byte

/-- The bytes of an item of defined length. -/
def WireItem.bytes (it : WireItem) : List Byte :=
  it.tag.1 :: it.tag.2.1 :: it.tag.2.2.1 :: it.tag.2.2.2 ::
    it.len.1 :: it.len.2.1 :: it.len.2.2.1 :: it.len.2.2.2 :: it.payload

/-- The `SequenceItem` that the readers make of an item of defined length. -/
def WireItem.item (it : WireItem) : SequenceItem :=
  { vl := le32 it.len.1 it.len.2.1 it.len.2.2.1 it.len.2.2.2, vf := it.payload }

/-- The bytes of a series of items of defined length, in order. -/
def wireItems : List WireItem → List Byte
  | [] => []
  | it :: its => it.bytes ++ wireItems its

/-- The four bytes `FF FF FF FF` of an undefined length. -/
def undefinedLength : List Byte := [0xFF, 0xFF, 0xFF, 0xFF]

/-- The four bytes `FE FF 0D E0` of the item delimiter tag `(FFFE,E00D)`. -/
def itemDelimiter : List Byte := [0xFE, 0xFF, 0x0D, 0xE0]

/-- The four bytes `FE FF DD E0` of the sequence delimiter tag `(FFFE,E0DD)`. -/
def sequenceDelimiter : List Byte := [0xFE, 0xFF, 0xDD, 0xE0]

/-- The four bytes `FE FF 00 E0` of the item tag `(FFFE,E000)`. -/
def itemTag : List Byte := [0xFE, 0xFF, 0x00, 0xE0]

/-- The element `(7FE0,0010)` in explicit encoding with VR `OB` and the 4-byte length
`2^31 = INT_MAX + 1`, followed by its `2^31` value bytes (all zero). -/
def bigValueElement : List Byte :=
  0xE0 :: 0x7F :: 0x10 :: 0x00 :: 79 :: 66 :: 0 :: 0 :: 0 :: 0 :: 0 :: 0x80 ::
    List.replicate 2147483648 0

/-- A file in explicit encoding whose only element is `bigValueElement`. -/
def bigValueFile : List Byte := preamble ++ bigValueElement

/-- The body of an item that holds one nested sequence element in explicit encoding:
the header `(3006,0039)`, `SQ`, `00 00`, `FF FF FF FF` of a sequence of undefined length,
one item of defined length 4 whose value is the four bytes `FE FF 0D E0` of the item
delimiter tag, and the sequence delimiter with its length field. -/
def nestedSequenceBody : List Byte :=
  [0x06, 0x30, 0x39, 0x00] ++ asciiBytes "SQ" ++ [0, 0] ++ undefinedLength ++
    itemTag ++ [4, 0, 0, 0] ++ itemDelimiter ++ sequenceDelimiter ++ [0, 0, 0, 0]

/-- The value of a sequence of undefined length with one item of undefined length whose
body is `nestedSequenceBody`: item header, body, item delimiter, sequence delimiter. -/
def nestedSequenceStream : List Byte :=
  itemTag ++ undefinedLength ++ nestedSequenceBody ++ itemDelimiter ++ [0, 0, 0, 0] ++
    sequenceDelimiter ++ [0, 0, 0, 0]

/-- A file in explicit encoding whose only element is the sequence `(3006,0039)` of
undefined length with the value `nestedSequenceStream`. -/
def nestedSequenceFile : List Byte :=
  preamble ++ [0x06, 0x30, 0x39, 0x00] ++ asciiBytes "SQ" ++ [0, 0] ++ undefinedLength ++
    nestedSequenceStream

/-- The value of a sequence of defined length 24: one item of undefined length whose body
is the element `(0010,0020)` of length 0 in implicit encoding, and the item delimiter. -/
def definedSequenceValue : List Byte :=
  itemTag ++ undefinedLength ++ [0x10, 0x00, 0x20, 0x00, 0, 0, 0, 0] ++ itemDelimiter ++
    [0, 0, 0, 0]

/-- The element `(7FE0,0000)` of length 0 in implicit encoding. -/
def emptyElement : List Byte := [0xE0, 0x7F, 0x00, 0x00, 0, 0, 0, 0]

/-- A file in implicit VR little endian with the sequence `(3006,0039)` of defined length
24 (the value `definedSequenceValue`) followed by the element `(7FE0,0000)`. -/
def definedSequenceFile : List Byte :=
  preamble ++ implicitSyntaxElement ++ [0x06, 0x30, 0x39, 0x00] ++ [24, 0, 0, 0] ++
    definedSequenceValue ++ emptyElement

/-- The element `(0002,0010)` in explicit encoding: VR `UI`, length 20, value the UID
`1.2.840.10008.1.2.1` of explicit VR little endian and one zero byte of padding. -/
def explicitSyntaxElement : List Byte :=
  [0x02, 0x00, 0x10, 0x00] ++ asciiBytes "UI" ++ [20, 0] ++
    asciiBytes "1.2.840.10008.1.2.1" ++ [0]

/-- A file with two elements `(0002,0010)`: the UID of implicit VR little endian, then the
UID of explicit VR little endian. -/
def twoSyntaxFile : List Byte := preamble ++ implicitSyntaxElement ++ explicitSyntaxElement

/-- An empty attribute, as the constructor `Attribute()` leaves it before `parse` fills it
(the tag and the length are not initialised; they are shown as zero). -/
def emptyAttribute : Attribute :=
  { tag0 := 0, tag1 := 0, desc := [], vl := 0, vf := none, seq := [] }

/-! ## Traces of the loops, and further example inputs -/

/-- The indices `mid` at which `DICOM::binSearch(one, two, min, max)` reads `data[mid]`
(lines 972-982), in the order of the recursion of `binSearchAux`. -/
def binSearchReads (data : List Attribute) (one two : Nat) : Nat → Int → Int → List Int
  | 0, _, _ => []
  | fuel + 1, min, max =>
    if min ≥ max then []
    else
      let mid := (max + min).tdiv 2
      mid ::
        (if (dataAt data mid).tag0 > one then binSearchReads data one two fuel min (mid - 1)
        else if (dataAt data mid).tag0 < one then binSearchReads data one two fuel (mid + 1) max
        else if (dataAt data mid).tag1 > two then binSearchReads data one two fuel min (mid - 1)
        else if (dataAt data mid).tag1 < two then binSearchReads data one two fuel (mid + 1) max
        else [])

/-- The values of `depth` at line 680, each time `readDefinedSequence` enters the loop
`while (true)` for an item of undefined length, in order.  The control flow is that of
`readDefinedSequenceLoop`; the first argument bounds the number of iterations. -/
def readDefinedSequenceDepths (lib : database) (isImplicit : Bool) :
    Nat → QDataStream → Nat → Int → List Int
  | 0, _, _, _ => []
  | fuel + 1, s, n, depth =>
    if n > 0 then
      match read4 s with
      | none => []
      | some (_, s1) =>
        match read4 s1 with
        | none => []
        | some ((z0, z1, z2, z3), s2) =>
          if le32 z0 z1 z2 z3 ≠ 0xFFFFFFFF then
            if le32 z0 z1 z2 z3 ≥ 2147483648 then []
            else
              match readN (le32 z0 z1 z2 z3) s2 with
              | none => []
              | some (_, s3) =>
                readDefinedSequenceDepths lib isImplicit fuel s3
                  (subULong (subULong n 8) (le32 z0 z1 z2 z3)) depth
          else
            depth ::
              match readItemBody lib isImplicit s2 [] depth with
              | none => []
              | some (buffer, depth1, s3) =>
                readDefinedSequenceDepths lib isImplicit fuel s3
                  (subULong (subULong n 8) buffer.length) depth1
    else []

/-- The values of `depth` at the end of each iteration of the loop `while (true)` of lines
543-628 (and 680-766), that is after each byte read, in order.  The control flow is that of
`readItemBody`; the trace ends where the loop is left or the stream ends. -/
def itemBodyDepths (lib : database) (isImplicit : Bool) :
    QDataStream → List Byte → Int → List Int
  | [], _, _ => []
  | b :: s, buffer, depth =>
    let buffer1 := buffer ++ [b]
    let depth1 := depthAfterMarker lib isImplicit buffer1 depth
    if asUInt (right 4 buffer1) = 0xE00DFFFE ∧ depth1 = 0 then [depth1]
    else if asUInt (right 4 buffer1) = 0xE0DDFFFE then
      (depth1 - 1) :: itemBodyDepths lib isImplicit s buffer1 (depth1 - 1)
    else depth1 :: itemBodyDepths lib isImplicit s buffer1 depth1

/-- The body of an item that holds one nested sequence element in explicit encoding:
the header `(3006,0040)`, `SQ`, `00 00`, `FF FF FF FF` of a sequence of undefined length,
one item of defined length 10 that holds the element `(0010,0020)` (VR `LO`, length 2,
value `ID`), and the sequence delimiter with its length field. -/
def explicitNestedBody : List Byte :=
  [0x06, 0x30, 0x40, 0x00] ++ asciiBytes "SQ" ++ [0, 0] ++ undefinedLength ++
    itemTag ++ [10, 0, 0, 0] ++
    ([0x10, 0x00, 0x20, 0x00] ++ asciiBytes "LO" ++ [2, 0] ++ asciiBytes "ID") ++
    sequenceDelimiter ++ [0, 0, 0, 0]

/-- One item of undefined length whose body is `explicitNestedBody`: item header, body,
item delimiter with its length field. -/
def explicitNestedItem : List Byte :=
  itemTag ++ undefinedLength ++ explicitNestedBody ++ itemDelimiter ++ [0, 0, 0, 0]

/-- A file in explicit encoding whose only element is the sequence `(3006,0039)` of
undefined length with the one item `explicitNestedItem`. -/
def explicitNestedFile : List Byte :=
  preamble ++ [0x06, 0x30, 0x39, 0x00] ++ asciiBytes "SQ" ++ [0, 0] ++ undefinedLength ++
    explicitNestedItem ++ sequenceDelimiter ++ [0, 0, 0, 0]

/-- The tag `(tag[0], tag[1])` of an attribute. -/
def tagOf (a : Attribute) : Nat × Nat := (a.tag0, a.tag1)

/-- The body of an item that holds one nested sequence element in implicit encoding: the
four bytes of a tag, the length `FF FF FF FF`, one item with the length bytes `l0 .. l3` and
the payload `P`, and the sequence delimiter with its length field of four zero bytes. -/
def implicitNestedBody (t0 t1 t2 t3 l0 l1 l2 l3 : Byte) (P : List Byte) : List Byte :=
  [t0, t1, t2, t3] ++ undefinedLength ++ itemTag ++ [l0, l1, l2, l3] ++ P ++
    sequenceDelimiter ++ [0, 0, 0, 0]

/-- Modelled from the spec: a dictionary whose table has the one entry `(FFFA,FFFA)`, VR
`SQ`, of the DICOM data dictionary, with the VR lists of `sampleLib` and the lookup
`specBinSearch` (the code of `database` is not among the sources). -/
def signatureLib : database where
  lib :=
    [ { tag0 := 0xFFFA, tag1 := 0xFFFA, vr := QString.lit "SQ",
        title := QString.lit "Digital Signatures Sequence" } ]
  validVR := sampleLib.validVR
  implicitVR := sampleLib.implicitVR
  binSearch := fun one two min max =>
    specBinSearch
      [ { tag0 := 0xFFFA, tag1 := 0xFFFA, vr := QString.lit "SQ",
          title := QString.lit "Digital Signatures Sequence" } ] one two min max

end DICOM

/-! ## Lemmas on reading from the stream -/

theorem read4_some {s s1 : QDataStream} {d : Byte × Byte × Byte × Byte}
    (h : read4 s = some (d, s1)) : s = d.1 :: d.2.1 :: d.2.2.1 :: d.2.2.2 :: s1 := by
  match s, h with
  | d0 :: d1 :: d2 :: d3 :: rest, h =>
    simp only [read4, Option.some.injEq, Prod.mk.injEq] at h
    obtain ⟨h1, h2⟩ := h
    subst h1 h2
    rfl

theorem read4_length {s s1 : QDataStream} {d : Byte × Byte × Byte × Byte}
    (h : read4 s = some (d, s1)) : s1.length + 4 = s.length := by
  rw [read4_some h]; simp

theorem read4_none {s : QDataStream} (h : read4 s = none) : s.length < 4 := by
  match s, h with
  | [], _ => simp
  | [_], _ => simp
  | [_, _], _ => simp
  | [_, _, _], _ => simp

theorem read4_of_short {s : QDataStream} (h : s.length < 4) : read4 s = none := by
  match s, h with
  | [], _ => rfl
  | [_], _ => rfl
  | [_, _], _ => rfl
  | [_, _, _], _ => rfl
  | _ :: _ :: _ :: _ :: _, h => simp at h; omega

theorem readN_some {n : Nat} {s s1 : QDataStream} {x : List Byte}
    (h : readN n s = some (x, s1)) : x = s.take n ∧ s1 = s.drop n ∧ n ≤ s.length := by
  unfold readN at h
  split at h
  · simp at h
  · simp only [Option.some.injEq, Prod.mk.injEq] at h
    exact ⟨h.1.symm, h.2.symm, by omega⟩

theorem readN_length {n : Nat} {s s1 : QDataStream} {x : List Byte}
    (h : readN n s = some (x, s1)) : s1.length + n = s.length := by
  obtain ⟨_, h2, h3⟩ := readN_some h
  subst h2
  simp; omega

theorem readN_append (x s : List Byte) : readN x.length (x ++ s) = some (x, s) := by
  simp [readN]

theorem read4_cons (d0 d1 d2 d3 : Byte) (rest : QDataStream) :
    read4 (d0 :: d1 :: d2 :: d3 :: rest) = some ((d0, d1, d2, d3), rest) := rfl

namespace DICOM

/-! ## The recursion of `binSearch` -/

theorem tdiv_two_bounds (a b : Int) (h : a < b) :
    a ≤ (b + a).tdiv 2 ∧ (b + a).tdiv 2 ≤ b := by
  rcases le_or_lt 0 (b + a) with h0 | h0
  · rw [Int.tdiv_eq_ediv h0 (by decide)]
    omega
  · have h1 : (b + a).tdiv 2 = -((-(b + a)).tdiv 2) := by
      rw [Int.neg_tdiv, neg_neg]
    rw [h1, Int.tdiv_eq_ediv (by omega) (by decide)]
    omega

theorem binSearchAux_fuel (data : List Attribute) (one two : Nat) :
    ∀ (fuel : Nat) (min max : Int), (max - min).toNat ≤ fuel →
      binSearchAux data one two fuel min max =
        binSearchAux data one two (max - min).toNat min max := by
  intro fuel
  induction fuel using Nat.strong_induction_on with
  | _ fuel ih =>
    intro min max hf
    by_cases hmm : min ≥ max
    · have h0 : (max - min).toNat = 0 := by omega
      rw [h0]
      cases fuel with
      | zero => rfl
      | succ n => simp [binSearchAux, hmm]
    · have hb := tdiv_two_bounds min max (by omega)
      obtain ⟨k, hk⟩ : ∃ k, (max - min).toNat = k + 1 := ⟨(max - min).toNat - 1, by omega⟩
      cases fuel with
      | zero => omega
      | succ n =>
        rw [hk]
        have e1 := ih n (by omega) min ((max + min).tdiv 2 - 1) (by omega)
        have e2 := ih n (by omega) ((max + min).tdiv 2 + 1) max (by omega)
        have e3 := ih k (by omega) min ((max + min).tdiv 2 - 1) (by omega)
        have e4 := ih k (by omega) ((max + min).tdiv 2 + 1) max (by omega)
        simp only [binSearchAux, hmm, if_false]
        rw [e1, e2, e3, e4]

/-- The function `binSearch` satisfies the recursion of the source. -/
theorem binSearch_eq (data : List Attribute) (one two : Nat) (min max : Int) :
    binSearch data one two min max =
      if min ≥ max then min
      else
        if (dataAt data ((max + min).tdiv 2)).tag0 > one then
          binSearch data one two min ((max + min).tdiv 2 - 1)
        else if (dataAt data ((max + min).tdiv 2)).tag0 < one then
          binSearch data one two ((max + min).tdiv 2 + 1) max
        else if (dataAt data ((max + min).tdiv 2)).tag1 > two then
          binSearch data one two min ((max + min).tdiv 2 - 1)
        else if (dataAt data ((max + min).tdiv 2)).tag1 < two then
          binSearch data one two ((max + min).tdiv 2 + 1) max
        else (max + min).tdiv 2 := by
  unfold binSearch
  by_cases hmm : min ≥ max
  · have h0 : (max - min).toNat = 0 := by omega
    rw [h0]; simp [binSearchAux, hmm]
  · have hb := tdiv_two_bounds min max (by omega)
    obtain ⟨k, hk⟩ : ∃ k, (max - min).toNat = k + 1 := ⟨(max - min).toNat - 1, by omega⟩
    rw [hk]
    simp only [binSearchAux, hmm, if_false]
    rw [binSearchAux_fuel data one two k min ((max + min).tdiv 2 - 1) (by omega),
      binSearchAux_fuel data one two k ((max + min).tdiv 2 + 1) max (by omega)]

theorem binSearchAttAux_eq (att : List Attribute) (one two : Nat) :
    ∀ (fuel : Nat) (min max : Int),
      binSearchAttAux att one two fuel min max = binSearchAux att one two fuel min max := by
  intro fuel
  induction fuel with
  | zero => intro min max; rfl
  | succ n ih =>
    intro min max
    simp only [binSearchAttAux, binSearchAux, ih]

/-- The overload on an explicit list computes the same index as the member function. -/
theorem binSearchAtt_eq (att : List Attribute) (one two : Nat) (min max : Int) :
    binSearchAtt att one two min max = binSearch att one two min max := by
  unfold binSearchAtt binSearch
  exact binSearchAttAux_eq att one two _ min max


/-! ## Input consumed by the readers, and their step bounds -/

theorem readItemBody_length (lib : database) (isImplicit : Bool) :
    ∀ (s buffer : List Byte) (depth : Int) (b : List Byte) (d : Int) (s1 : QDataStream),
      readItemBody lib isImplicit s buffer depth = some (b, d, s1) →
        s1.length + 5 ≤ s.length := by
  intro s
  induction s with
  | nil => intro buffer depth b d s1 h; simp [readItemBody] at h
  | cons x s ih =>
    intro buffer depth b d s1 h
    simp only [readItemBody] at h
    split_ifs at h with h1 h2
    · cases h4 : read4 s with
      | none => simp [h4] at h
      | some p =>
        obtain ⟨dd, s2⟩ := p
        simp only [h4, Option.some.injEq, Prod.mk.injEq] at h
        have := read4_length h4
        obtain ⟨_, _, h3⟩ := h
        subst h3
        simp; omega
    · have := ih _ _ _ _ _ h
      simp; omega
    · have := ih _ _ _ _ _ h
      simp; omega

theorem readSequenceLoop_length (lib : database) (isImplicit : Bool) :
    ∀ (fuel : Nat) (s : QDataStream) (items items1 : List SequenceItem) (s1 : QDataStream),
      readSequenceLoop lib isImplicit fuel s items = some (items1, s1) →
        s1.length + 8 ≤ s.length := by
  intro fuel
  induction fuel with
  | zero => intro s items items1 s1 h; simp [readSequenceLoop] at h
  | succ n ih =>
    intro s items items1 s1 h
    simp only [readSequenceLoop] at h
    cases ha : read4 s with
    | none => simp [ha] at h
    | some p =>
      obtain ⟨⟨t0, t1, t2, t3⟩, sa⟩ := p
      simp only [ha] at h
      cases hb : read4 sa with
      | none => simp [hb] at h
      | some q =>
        obtain ⟨⟨z0, z1, z2, z3⟩, sb⟩ := q
        simp only [hb] at h
        have la := read4_length ha
        have lb := read4_length hb
        split_ifs at h with h1 h2 h3
        · simp only [Option.some.injEq, Prod.mk.injEq] at h
          obtain ⟨_, h⟩ := h
          subst h
          omega
        · cases hc : readN (le32 z0 z1 z2 z3) sb with
          | none => simp [hc] at h
          | some r =>
            obtain ⟨dat, sc⟩ := r
            simp only [hc] at h
            have := ih _ _ _ _ h
            have := readN_length hc
            omega
        · cases hc : readItemBody lib isImplicit sb [] 0 with
          | none => simp [hc] at h
          | some r =>
            obtain ⟨buffer, dd, sc⟩ := r
            simp only [hc] at h
            have := ih _ _ _ _ h
            have := readItemBody_length lib isImplicit _ _ _ _ _ _ hc
            omega

theorem readDefinedSequenceLoop_length (lib : database) (isImplicit : Bool) :
    ∀ (fuel : Nat) (s : QDataStream) (items : List SequenceItem) (n : Nat) (depth : Int)
      (items1 : List SequenceItem) (s1 : QDataStream),
      readDefinedSequenceLoop lib isImplicit fuel s items n depth = some (items1, s1) →
        s1.length ≤ s.length := by
  intro fuel
  induction fuel with
  | zero =>
    intro s items n depth items1 s1 h
    simp only [readDefinedSequenceLoop] at h
    split_ifs at h
    simp only [Option.some.injEq, Prod.mk.injEq] at h
    rw [h.2]
  | succ k ih =>
    intro s items n depth items1 s1 h
    simp only [readDefinedSequenceLoop] at h
    split_ifs at h with h0
    · cases ha : read4 s with
      | none => simp [ha] at h
      | some p =>
        obtain ⟨dd, sa⟩ := p
        simp only [ha] at h
        cases hb : read4 sa with
        | none => simp [hb] at h
        | some q =>
          obtain ⟨⟨z0, z1, z2, z3⟩, sb⟩ := q
          simp only [hb] at h
          have la := read4_length ha
          have lb := read4_length hb
          split_ifs at h with h2 h3
          · cases hc : readN (le32 z0 z1 z2 z3) sb with
            | none => simp [hc] at h
            | some r =>
              obtain ⟨dat, sc⟩ := r
              simp only [hc] at h
              have := ih _ _ _ _ _ _ h
              have := readN_length hc
              omega
          · cases hc : readItemBody lib isImplicit sb [] depth with
            | none => simp [hc] at h
            | some r =>
              obtain ⟨buffer, d1, sc⟩ := r
              simp only [hc] at h
              have := ih _ _ _ _ _ _ h
              have := readItemBody_length lib isImplicit _ _ _ _ _ _ hc
              omega
    · simp only [Option.some.injEq, Prod.mk.injEq] at h
      rw [h.2]


theorem readSequenceLoop_fuel (lib : database) (isImplicit : Bool) :
    ∀ (fuel : Nat) (s : QDataStream) (items : List SequenceItem), s.length ≤ fuel →
      readSequenceLoop lib isImplicit fuel s items =
        readSequenceLoop lib isImplicit s.length s items := by
  intro fuel
  induction fuel using Nat.strong_induction_on with
  | _ fuel ih =>
    intro s items hf
    cases ha : read4 s with
    | none =>
      have e : ∀ k, readSequenceLoop lib isImplicit k s items = none := by
        intro k; cases k <;> simp [readSequenceLoop, ha]
      rw [e, e]
    | some p =>
      obtain ⟨⟨t0, t1, t2, t3⟩, sa⟩ := p
      have la := read4_length ha
      obtain ⟨m, hm⟩ : ∃ m, s.length = m + 1 := ⟨s.length - 1, by omega⟩
      cases fuel with
      | zero => omega
      | succ n =>
        rw [hm]
        simp only [readSequenceLoop, ha]
        cases hb : read4 sa with
        | none => rfl
        | some q =>
          obtain ⟨⟨z0, z1, z2, z3⟩, sb⟩ := q
          have lb := read4_length hb
          simp only []
          split_ifs with h1 h2 h3
          · rfl
          · rfl
          · cases hc : readN (le32 z0 z1 z2 z3) sb with
            | none => rfl
            | some r =>
              obtain ⟨dat, sc⟩ := r
              have := readN_length hc
              simp only []
              rw [ih n (by omega) sc _ (by omega), ih m (by omega) sc _ (by omega)]
          · cases hc : readItemBody lib isImplicit sb [] 0 with
            | none => rfl
            | some r =>
              obtain ⟨buffer, dd, sc⟩ := r
              have := readItemBody_length lib isImplicit _ _ _ _ _ _ hc
              simp only []
              rw [ih n (by omega) sc _ (by omega), ih m (by omega) sc _ (by omega)]

theorem readDefinedSequenceLoop_fuel (lib : database) (isImplicit : Bool) :
    ∀ (fuel : Nat) (s : QDataStream) (items : List SequenceItem) (n : Nat) (depth : Int),
      s.length ≤ fuel →
      readDefinedSequenceLoop lib isImplicit fuel s items n depth =
        readDefinedSequenceLoop lib isImplicit s.length s items n depth := by
  intro fuel
  induction fuel using Nat.strong_induction_on with
  | _ fuel ih =>
    intro s items n depth hf
    by_cases h0 : n > 0
    · cases ha : read4 s with
      | none =>
        have e : ∀ k, readDefinedSequenceLoop lib isImplicit k s items n depth = none := by
          intro k; cases k <;> simp [readDefinedSequenceLoop, ha, h0]
        rw [e, e]
      | some p =>
        obtain ⟨dd, sa⟩ := p
        have la := read4_length ha
        obtain ⟨m, hm⟩ : ∃ m, s.length = m + 1 := ⟨s.length - 1, by omega⟩
        cases fuel with
        | zero => omega
        | succ k =>
          rw [hm]
          simp only [readDefinedSequenceLoop, ha, h0, if_true]
          cases hb : read4 sa with
          | none => rfl
          | some q =>
            obtain ⟨⟨z0, z1, z2, z3⟩, sb⟩ := q
            have lb := read4_length hb
            simp only []
            split_ifs with h2 h3
            · rfl
            · cases hc : readN (le32 z0 z1 z2 z3) sb with
              | none => rfl
              | some r =>
                obtain ⟨dat, sc⟩ := r
                have := readN_length hc
                simp only []
                rw [ih k (by omega) sc _ _ _ (by omega), ih m (by omega) sc _ _ _ (by omega)]
            · cases hc : readItemBody lib isImplicit sb [] depth with
              | none => rfl
              | some r =>
                obtain ⟨buffer, d1, sc⟩ := r
                have := readItemBody_length lib isImplicit _ _ _ _ _ _ hc
                simp only []
                rw [ih k (by omega) sc _ _ _ (by omega), ih m (by omega) sc _ _ _ (by omega)]
    · have e : ∀ k, readDefinedSequenceLoop lib isImplicit k s items n depth =
          some (items, s) := by
        intro k; cases k <;> simp [readDefinedSequenceLoop, h0]
      rw [e, e]

theorem readChunks_length :
    ∀ (k : Nat) (s : QDataStream) (x : List Byte) (s1 : QDataStream),
      readChunks k s = some (x, s1) → s1.length ≤ s.length := by
  intro k
  induction k with
  | zero =>
    intro s x s1 h
    simp only [readChunks, Option.some.injEq, Prod.mk.injEq] at h
    rw [h.2]
  | succ k ih =>
    intro s x s1 h
    simp only [readChunks] at h
    cases ha : readN INT_MAX s with
    | none => simp [ha] at h
    | some p =>
      obtain ⟨c, sa⟩ := p
      simp only [ha] at h
      cases hb : readChunks k sa with
      | none => simp [hb] at h
      | some q =>
        obtain ⟨cs, sb⟩ := q
        simp only [hb, Option.some.injEq, Prod.mk.injEq] at h
        have := ih _ _ _ hb
        have := readN_length ha
        rw [← h.2]
        omega

theorem readValue_length {size : Nat} {s s1 : QDataStream} {x : List Byte}
    (h : readValue size s = .ok (x, s1)) : s1.length ≤ s.length := by
  unfold readValue at h
  split_ifs at h with h1 h2
  · cases ha : readN size s with
    | none => simp [ha] at h
    | some p =>
      obtain ⟨c, sa⟩ := p
      simp only [ha, Except.ok.injEq, Prod.mk.injEq] at h
      have := readN_length ha
      rw [← h.2]; omega
  · cases ha : readChunks (size / INT_MAX) s with
    | none => simp [ha] at h
    | some p =>
      obtain ⟨c, sa⟩ := p
      simp only [ha, Except.ok.injEq, Prod.mk.injEq] at h
      have := readChunks_length _ _ _ _ ha
      rw [← h.2]; omega
  · simp only [Except.ok.injEq, Prod.mk.injEq] at h
    rw [h.2]

theorem readValue_error {size : Nat} {s : QDataStream} {e : Nat}
    (h : readValue size s = .error e) : e = 301 ∨ e = 302 := by
  unfold readValue at h
  split_ifs at h with h1 h2
  · cases ha : readN size s with
    | none => simp [ha] at h; omega
    | some p => simp [ha] at h
  · cases ha : readChunks (size / INT_MAX) s with
    | none => simp [ha] at h; omega
    | some p => simp [ha] at h


theorem readHeader_ok {lib : database} {isImplicit : Bool} {tag0 tag1 : Nat} {desc : QString}
    {s s1 : QDataStream} {VR : QString} {vl : Nat}
    (h : readHeader lib isImplicit tag0 tag1 desc s = .ok (VR, vl, s1)) :
    s1.length + 4 ≤ s.length := by
  unfold readHeader at h
  cases ha : read4 s with
  | none => simp [ha] at h
  | some p =>
    obtain ⟨dat, sa⟩ := p
    have la := read4_length ha
    simp only [ha] at h
    split_ifs at h with h1 h2
    · cases hb : read4 sa with
      | none => simp [hb] at h
      | some q =>
        obtain ⟨⟨e0, e1, e2, e3⟩, sb⟩ := q
        have lb := read4_length hb
        simp only [hb, Except.ok.injEq, Prod.mk.injEq] at h
        rw [← h.2.2]; omega
    · simp only [Except.ok.injEq, Prod.mk.injEq] at h
      rw [← h.2.2]; omega
    · simp only [Except.ok.injEq, Prod.mk.injEq] at h
      rw [← h.2.2]; omega

theorem readHeader_error {lib : database} {isImplicit : Bool} {tag0 tag1 : Nat}
    {desc : QString} {s : QDataStream} {e : Nat}
    (h : readHeader lib isImplicit tag0 tag1 desc s = .error e) : e = 204 := by
  unfold readHeader at h
  cases ha : read4 s with
  | none => simp [ha] at h; omega
  | some p =>
    obtain ⟨dat, sa⟩ := p
    simp only [ha] at h
    split_ifs at h with h1 h2
    cases hb : read4 sa with
    | none => simp [hb] at h; omega
    | some q => simp [hb] at h

/-- What `readBody` leaves of the attribute it is given: tag, description and length are
kept, a sequence gets no value array, and anything else gets no items. -/
theorem readBody_ok {lib : database} {isImplicit : Bool} {temp : Attribute} {VR : QString}
    {s : QDataStream} {r : Decoded} (h : readBody lib isImplicit temp VR s = .ok r) :
    r.VR = VR ∧ r.temp.tag0 = temp.tag0 ∧ r.temp.tag1 = temp.tag1 ∧
      r.temp.desc = temp.desc ∧
      r.temp.vl = temp.vl ∧ r.rest.length ≤ s.length ∧
      (r.nested = true → VR = QString.lit "SQ" ∧ r.temp.vf = temp.vf) ∧
      (r.nested = false → VR ≠ QString.lit "SQ" ∧ r.temp.seq = temp.seq) := by
  unfold readBody at h
  split_ifs at h with h1 h2
  · unfold readSequence at h
    cases ha : readSequenceLoop lib isImplicit s.length s temp.seq with
    | none => simp [ha] at h
    | some p =>
      obtain ⟨items, sa⟩ := p
      have := readSequenceLoop_length lib isImplicit _ _ _ _ _ ha
      simp only [ha, Except.ok.injEq] at h
      subst h
      simp [h1.1]; omega
  · unfold readDefinedSequence at h
    cases ha : readDefinedSequenceLoop lib isImplicit s.length s temp.seq temp.vl 0 with
    | none => simp [ha] at h
    | some p =>
      obtain ⟨items, sa⟩ := p
      have := readDefinedSequenceLoop_length lib isImplicit _ _ _ _ _ _ _ ha
      simp only [ha, Except.ok.injEq] at h
      subst h
      simp [h2]; omega
  · cases ha : readValue temp.vl s with
    | error e => simp [ha] at h
    | ok p =>
      obtain ⟨vf, sa⟩ := p
      have := readValue_length ha
      simp only [ha, Except.ok.injEq] at h
      subst h
      simp [h2]; omega

theorem readBody_error {lib : database} {isImplicit : Bool} {temp : Attribute} {VR : QString}
    {s : QDataStream} {e : Nat} (h : readBody lib isImplicit temp VR s = .error e) :
    e = 208 ∨ e = 209 ∨ e = 301 ∨ e = 302 := by
  unfold readBody at h
  split_ifs at h with h1 h2
  · cases ha : readSequence lib isImplicit s temp with
    | none => simp [ha] at h; omega
    | some p => simp [ha] at h
  · cases ha : readDefinedSequence lib isImplicit s temp temp.vl with
    | none => simp [ha] at h; omega
    | some p => simp [ha] at h
  · cases ha : readValue temp.vl s with
    | error e1 =>
      simp only [ha, Except.error.injEq] at h
      have := readValue_error ha
      omega
    | ok p => simp [ha] at h

theorem decodeElement_length {lib : database} {isImplicit : Bool} {s : QDataStream}
    {r : Decoded} (h : decodeElement lib isImplicit s = .ok r) :
    r.rest.length + 8 ≤ s.length := by
  unfold decodeElement at h
  cases ha : read4 s with
  | none => simp [ha] at h
  | some p =>
    obtain ⟨⟨d0, d1, d2, d3⟩, sa⟩ := p
    have la := read4_length ha
    simp only [ha] at h
    split_ifs at h with h1
    all_goals
      first
      | (cases hb : readHeader lib isImplicit (le16 d0 d1) (le16 d2 d3)
            (lib.closest (le16 d0 d1) (le16 d2 d3)).title sa with
          | error e => simp [hb] at h
          | ok q =>
            obtain ⟨VR, vl, sb⟩ := q
            simp only [hb] at h
            have := readHeader_ok hb
            have := (readBody_ok h).2.2.2.2.2.1
            omega)
      | (cases hb : readHeader lib isImplicit (le16 d0 d1) (le16 d2 d3)
            (QString.lit "Unknown Tag") sa with
          | error e => simp [hb] at h
          | ok q =>
            obtain ⟨VR, vl, sb⟩ := q
            simp only [hb] at h
            have := readHeader_ok hb
            have := (readBody_ok h).2.2.2.2.2.1
            omega)

theorem decodeElement_error {lib : database} {isImplicit : Bool} {s : QDataStream} {e : Nat}
    (h : decodeElement lib isImplicit s = .error e) :
    e = 201 ∨ e = 202 ∨ e = 204 ∨ e = 208 ∨ e = 209 ∨ e = 301 ∨ e = 302 := by
  unfold decodeElement at h
  cases ha : read4 s with
  | none => simp [ha] at h; omega
  | some p =>
    obtain ⟨⟨d0, d1, d2, d3⟩, sa⟩ := p
    simp only [ha] at h
    split_ifs at h with h1
    · simp at h; omega
    all_goals
      first
      | (cases hb : readHeader lib isImplicit (le16 d0 d1) (le16 d2 d3)
            (lib.closest (le16 d0 d1) (le16 d2 d3)).title sa with
          | error e1 =>
            simp only [hb, Except.error.injEq] at h
            have := readHeader_error hb
            omega
          | ok q =>
            obtain ⟨VR, vl, sb⟩ := q
            simp only [hb] at h
            have := readBody_error h
            omega)
      | (cases hb : readHeader lib isImplicit (le16 d0 d1) (le16 d2 d3)
            (QString.lit "Unknown Tag") sa with
          | error e1 =>
            simp only [hb, Except.error.injEq] at h
            have := readHeader_error hb
            omega
          | ok q =>
            obtain ⟨VR, vl, sb⟩ := q
            simp only [hb] at h
            have := readBody_error h
            omega)

theorem parseElement_length {lib : database} {self self1 : DICOM} {s s1 : QDataStream}
    (h : parseElement lib self s = .ok (self1, s1)) : s1.length + 8 ≤ s.length := by
  unfold parseElement at h
  cases ha : decodeElement lib self.isImplicit s with
  | error e => simp [ha] at h
  | ok r =>
    simp only [ha, Except.ok.injEq, Prod.mk.injEq] at h
    have := decodeElement_length ha
    rw [← h.2]; exact this

theorem parseElement_error {lib : database} {self : DICOM} {s : QDataStream} {e : Nat}
    (h : parseElement lib self s = .error e) :
    e = 201 ∨ e = 202 ∨ e = 204 ∨ e = 208 ∨ e = 209 ∨ e = 301 ∨ e = 302 := by
  unfold parseElement at h
  cases ha : decodeElement lib self.isImplicit s with
  | error e1 =>
    simp only [ha, Except.error.injEq] at h
    have := decodeElement_error ha
    omega
  | ok r => simp [ha] at h

theorem parseLoop_fuel (lib : database) :
    ∀ (fuel : Nat) (self : DICOM) (s : QDataStream), s.length ≤ fuel →
      parseLoop lib fuel self s = parseLoop lib s.length self s := by
  intro fuel
  induction fuel using Nat.strong_induction_on with
  | _ fuel ih =>
    intro self s hf
    by_cases hs : s = []
    · subst hs
      cases fuel <;> simp [parseLoop]
    · have hpos : 0 < s.length := List.length_pos.mpr hs
      obtain ⟨m, hm⟩ : ∃ m, s.length = m + 1 := ⟨s.length - 1, by omega⟩
      cases fuel with
      | zero => omega
      | succ n =>
        rw [hm]
        simp only [parseLoop, hs, if_false]
        cases ha : parseElement lib self s with
        | error e => rfl
        | ok p =>
          obtain ⟨self1, s1⟩ := p
          have := parseElement_length ha
          simp only []
          rw [ih n (by omega) self1 s1 (by omega), ih m (by omega) self1 s1 (by omega)]

/-- The loop of `parse`, started with the number of unread bytes as bound, satisfies the
equation of the `while` loop of the source. -/
theorem parseLoop_eq (lib : database) (self : DICOM) (s : QDataStream) :
    parseLoop lib s.length self s =
      if s = [] then (0, self, s)
      else
        match parseElement lib self s with
        | .error e => (e, self, s)
        | .ok (self1, s1) => parseLoop lib s1.length self1 s1 := by
  by_cases hs : s = []
  · subst hs; simp [parseLoop]
  · have hpos : 0 < s.length := List.length_pos.mpr hs
    obtain ⟨m, hm⟩ : ∃ m, s.length = m + 1 := ⟨s.length - 1, by omega⟩
    rw [hm]
    simp only [parseLoop, hs, if_false]
    cases ha : parseElement lib self s with
    | error e => rfl
    | ok p =>
      obtain ⟨self1, s1⟩ := p
      have := parseElement_length ha
      simp only []
      rw [parseLoop_fuel lib m self1 s1 (by omega)]

theorem parseLoop_code (lib : database) :
    ∀ (fuel : Nat) (self : DICOM) (s : QDataStream),
      (parseLoop lib fuel self s).1 = 0 ∨ (parseLoop lib fuel self s).1 = 201 ∨
      (parseLoop lib fuel self s).1 = 202 ∨ (parseLoop lib fuel self s).1 = 204 ∨
      (parseLoop lib fuel self s).1 = 208 ∨ (parseLoop lib fuel self s).1 = 209 ∨
      (parseLoop lib fuel self s).1 = 301 ∨ (parseLoop lib fuel self s).1 = 302 := by
  intro fuel
  induction fuel with
  | zero => intro self s; simp [parseLoop]
  | succ n ih =>
    intro self s
    simp only [parseLoop]
    split_ifs with hs
    · simp
    · cases ha : parseElement lib self s with
      | error e =>
        simp only []
        have := parseElement_error ha
        omega
      | ok p =>
        obtain ⟨self1, s1⟩ := p
        exact ih self1 s1


/-! ## Claims on the element store and the file header -/

theorem tagLt_trans {a b c : Attribute} (h1 : tagLt a b) (h2 : tagLt b c) : tagLt a c := by
  unfold tagLt at *
  omega

theorem dataAt_eq (data : List Attribute) (i : Nat) (hi : i < data.length) :
    dataAt data (i : Int) = data[i] := by
  simp [dataAt, List.getD_eq_getElem, hi]

theorem pairwise_of_chain {data : List Attribute} (hs : List.Chain' tagLt data) :
    data.Pairwise tagLt := by
  haveI : IsTrans Attribute tagLt := ⟨fun _ _ _ => tagLt_trans⟩
  exact List.chain'_iff_pairwise.mp hs

theorem binSearch_of_mem (data : List Attribute) (hs : data.Pairwise tagLt) (p : Nat)
    (hp : p < data.length) :
    ∀ (n : Nat) (min max : Int), (max - min).toNat = n → 0 ≤ min → max < data.length →
      min ≤ p → (p : Int) ≤ max →
      binSearch data data[p].tag0 data[p].tag1 min max = p := by
  intro n
  induction n using Nat.strong_induction_on with
  | _ n ih =>
    intro min max hn h0 hmax hlo hhi
    rw [binSearch_eq]
    by_cases hmm : min ≥ max
    · rw [if_pos hmm]; omega
    · rw [if_neg hmm]
      have hb := tdiv_two_bounds min max (by omega)
      obtain ⟨m, hm⟩ : ∃ m : Nat, (max + min).tdiv 2 = (m : Int) :=
        ⟨((max + min).tdiv 2).toNat, by omega⟩
      rw [hm] at hb ⊢
      have hml : m < data.length := by omega
      rw [dataAt_eq data m hml]
      have hlt : m < p → tagLt data[m] data[p] := fun h =>
        List.pairwise_iff_getElem.mp hs m p hml hp h
      have hgt : p < m → tagLt data[p] data[m] := fun h =>
        List.pairwise_iff_getElem.mp hs p m hp hml h
      unfold tagLt at hlt hgt
      rcases Nat.lt_trichotomy m p with h | h | h
      · have := hlt h
        have e := ih ((max - ((m : Int) + 1)).toNat) (by omega) ((m : Int) + 1) max rfl
          (by omega) hmax (by omega) hhi
        split_ifs <;> omega
      · subst h
        simp
      · have := hgt h
        have e := ih (((m : Int) - 1 - min).toNat) (by omega) min ((m : Int) - 1) rfl
          h0 (by omega) hlo (by omega)
        split_ifs <;> omega

/-- C2: in a store that is strictly ascending by `(group, element)`, the search for the key
of the element at index `p` over the whole store returns `p`, for the member function
`binSearch` and for the overload on an explicit list. -/
theorem binSearch_returns_position (data : List Attribute) (hs : List.Chain' tagLt data)
    (p : Nat) (hp : p < data.length) :
    binSearch data data[p].tag0 data[p].tag1 0 ((data.length : Int) - 1) = p ∧
      binSearchAtt data data[p].tag0 data[p].tag1 0 ((data.length : Int) - 1) = p := by
  have h := binSearch_of_mem data (pairwise_of_chain hs) p hp _ 0 ((data.length : Int) - 1) rfl
    (le_refl 0) (by omega) (by omega) (by omega)
  exact ⟨h, by rw [binSearchAtt_eq]; exact h⟩

theorem lit_DICM : QString.lit "DICM" = [68, 73, 67, 77] := by decide

theorem asciiBytes_DICM : asciiBytes "DICM" = [68, 73, 67, 77] := by decide

theorem magic_iff (d0 d1 d2 d3 : Byte) :
    [d0.val, d1.val, d2.val, d3.val] = QString.lit "DICM" ↔
      [d0, d1, d2, d3] = asciiBytes "DICM" := by
  rw [lit_DICM, asciiBytes_DICM]
  simp only [List.cons.injEq, and_true, Fin.ext_iff]
  constructor <;> intro h <;> simpa using h

/-- C3: on a file that can be opened, `parse` returns 101 exactly when the file has fewer
than 128 bytes, 102 exactly when it has at least 128 and fewer than 132 bytes, and 103
exactly when it has at least 132 bytes and bytes 128..131 are not `DICM`; on a file of 128
bytes followed by `DICM` and nothing else it returns 0. -/
theorem parse_header_codes (lib : database) (self : DICOM) (bytes : List Byte) :
    ((parse lib self (some bytes)).1 = 101 ↔ bytes.length < 128) ∧
    ((parse lib self (some bytes)).1 = 102 ↔ 128 ≤ bytes.length ∧ bytes.length < 132) ∧
    ((parse lib self (some bytes)).1 = 103 ↔
      132 ≤ bytes.length ∧ (bytes.drop 128).take 4 ≠ asciiBytes "DICM") ∧
    (bytes.length = 132 → bytes.drop 128 = asciiBytes "DICM" →
      (parse lib self (some bytes)).1 = 0) := by
  by_cases h1 : bytes.length < 128
  · have hp : parse lib self (some bytes) = (101, self, []) := by
      simp only [parse, readN, h1, if_true]
    rw [hp]
    exact ⟨⟨fun _ => h1, fun _ => rfl⟩, ⟨fun h => absurd h (by simp), fun h => by omega⟩,
      ⟨fun h => absurd h (by simp), fun h => by omega⟩, fun h => by omega⟩
  · cases ha : read4 (bytes.drop 128) with
    | none =>
      have hshort := read4_none ha
      simp only [List.length_drop] at hshort
      have hp : parse lib self (some bytes) = (102, self, []) := by
        simp only [parse, readN, h1, if_false, ha]
      rw [hp]
      exact ⟨⟨fun h => absurd h (by simp), fun h => absurd h h1⟩,
        ⟨fun _ => by omega, fun _ => rfl⟩,
        ⟨fun h => absurd h (by simp), fun h => by omega⟩, fun h => by omega⟩
    | some p =>
      obtain ⟨⟨d0, d1, d2, d3⟩, s2⟩ := p
      have hl := read4_length ha
      have hd := read4_some ha
      simp only [List.length_drop] at hl
      simp only [] at hd
      have ht : (bytes.drop 128).take 4 = [d0, d1, d2, d3] := by rw [hd]; rfl
      by_cases hm : [d0.val, d1.val, d2.val, d3.val] = QString.lit "DICM"
      · have hm2 := (magic_iff d0 d1 d2 d3).mp hm
        have hp : parse lib self (some bytes) = parseLoop lib s2.length self s2 := by
          simp only [parse, readN, h1, if_false, ha, hm, ne_eq, not_true_eq_false]
        have hc := parseLoop_code lib s2.length self s2
        have h4 : bytes.length = 132 → (parseLoop lib s2.length self s2).1 = 0 := by
          intro h132
          have hnil : s2 = [] := List.length_eq_zero.mp (by omega)
          rw [hnil]
          rfl
        rw [hp, ht]
        generalize (parseLoop lib s2.length self s2).1 = c at hc h4
        exact ⟨⟨fun h => by omega, fun h => absurd h h1⟩,
          ⟨fun h => by omega, fun h => by omega⟩,
          ⟨fun h => by omega, fun h => absurd hm2 h.2⟩, fun h132 _ => h4 h132⟩
      · have hm2 : [d0, d1, d2, d3] ≠ asciiBytes "DICM" := fun h =>
          hm ((magic_iff d0 d1 d2 d3).mpr h)
        have hp : parse lib self (some bytes) = (103, self, s2) := by
          simp only [parse, readN, h1, if_false, ha, hm, ne_eq, not_false_eq_true, if_true]
        rw [hp, ht]
        refine ⟨⟨fun h => absurd h (by simp), fun h => absurd h h1⟩,
          ⟨fun h => absurd h (by simp), fun h => by omega⟩,
          ⟨fun _ => ⟨by omega, hm2⟩, fun _ => rfl⟩, fun h132 hdr => ?_⟩
        exfalso
        apply hm2
        rw [← ht, hdr]
        decide

theorem parseLoop_nil (lib : database) (fuel : Nat) (self : DICOM) :
    parseLoop lib fuel self [] = (0, self, []) := by
  cases fuel <;> simp [parseLoop]

theorem readValue_exact (payload s : List Byte) (h : payload.length < INT_MAX) :
    readValue payload.length (payload ++ s) = .ok (payload, s) := by
  unfold readValue
  by_cases h0 : 0 < payload.length
  · rw [if_pos ⟨h0, h⟩, readN_append]
  · have : payload = [] := List.length_eq_zero.mp (by omega)
    subst this
    simp

theorem le16_lt (lo hi : Byte) : le16 lo hi < 65536 := by
  unfold le16; omega

/-- C4: a file made of 128 preamble bytes, `DICM` and one element in explicit encoding (a
tag that is not a delimiter, a VR outside `implicitVR` and other than `SQ`, a 2-byte length
and exactly that many value bytes) makes `parse` on a fresh object return 0 with the whole
file read, and the store then holds exactly this element: its tag, its length, its value
bytes, and no items. -/
theorem parse_minimal_file (lib : database) (pre : List Byte) (t0 t1 t2 t3 v0 v1 l0 l1 : Byte)
    (payload : List Byte) (hpre : pre.length = 128)
    (hdelim : ¬(le16 t0 t1 = 0xFFFE ∧ (le16 t2 t3 = 0xE0DD ∨ le16 t2 t3 = 0xE00D)))
    (hext : QString.ofBytes2 v0 v1 ∉ lib.implicitVR)
    (hsq : QString.ofBytes2 v0 v1 ≠ QString.lit "SQ")
    (hlen : payload.length = le16 l0 l1) :
    (parse lib DICOM.new
        (some (pre ++ asciiBytes "DICM" ++ [t0, t1, t2, t3, v0, v1, l0, l1] ++ payload))).1 = 0 ∧
    (parse lib DICOM.new
        (some (pre ++ asciiBytes "DICM" ++ [t0, t1, t2, t3, v0, v1, l0, l1] ++ payload))).2.2 =
      [] ∧
    (parse lib DICOM.new
        (some (pre ++ asciiBytes "DICM" ++ [t0, t1, t2, t3, v0, v1, l0, l1] ++ payload))).2.1.data =
      [{ tag0 := le16 t0 t1, tag1 := le16 t2 t3,
         desc := if (lib.closest (le16 t0 t1) (le16 t2 t3)).tag0 = le16 t0 t1 ∧
                    (lib.closest (le16 t0 t1) (le16 t2 t3)).tag1 = le16 t2 t3
                 then (lib.closest (le16 t0 t1) (le16 t2 t3)).title
                 else QString.lit "Unknown Tag",
         vl := le16 l0 l1, vf := some payload, seq := [] }] := by
  have hfile : pre ++ asciiBytes "DICM" ++ [t0, t1, t2, t3, v0, v1, l0, l1] ++ payload =
      pre ++ (68 :: 73 :: 67 :: 77 :: t0 :: t1 :: t2 :: t3 :: v0 :: v1 :: l0 :: l1 :: payload) := by
    rw [asciiBytes_DICM]; simp
  have hL : payload.length < INT_MAX := by
    have := le16_lt l0 l1
    unfold INT_MAX; omega
  have hval := readValue_exact payload [] hL
  rw [List.append_nil, hlen] at hval
  have hdec : decodeElement lib false
      (t0 :: t1 :: t2 :: t3 :: v0 :: v1 :: l0 :: l1 :: payload) =
      .ok { temp := { tag0 := le16 t0 t1, tag1 := le16 t2 t3,
                      desc := if (lib.closest (le16 t0 t1) (le16 t2 t3)).tag0 = le16 t0 t1 ∧
                                (lib.closest (le16 t0 t1) (le16 t2 t3)).tag1 = le16 t2 t3
                              then (lib.closest (le16 t0 t1) (le16 t2 t3)).title
                              else QString.lit "Unknown Tag",
                      vl := le16 l0 l1, vf := some payload, seq := [] },
            VR := QString.ofBytes2 v0 v1, nested := false, rest := [] } := by
    simp only [decodeElement, read4, hdelim, if_false, readHeader, selectVR, Bool.not_false,
      true_or, if_true, hext, false_and, readBody, hsq, hval]
  have hdata : ∀ a : Attribute,
      insertSorted (saveSliceHeight (saveTransferUID DICOM.new a) a).data a = [a] := by
    intro a
    have : (saveSliceHeight (saveTransferUID DICOM.new a) a).data = [] := by
      unfold saveSliceHeight saveTransferUID DICOM.new
      split_ifs <;> rfl
    rw [this]
    simp [insertSorted]
  have hstep : ∀ fuel,
      (parseLoop lib (fuel + 1) DICOM.new
        (t0 :: t1 :: t2 :: t3 :: v0 :: v1 :: l0 :: l1 :: payload)).1 = 0 ∧
      (parseLoop lib (fuel + 1) DICOM.new
        (t0 :: t1 :: t2 :: t3 :: v0 :: v1 :: l0 :: l1 :: payload)).2.2 = [] ∧
      (parseLoop lib (fuel + 1) DICOM.new
        (t0 :: t1 :: t2 :: t3 :: v0 :: v1 :: l0 :: l1 :: payload)).2.1.data =
        [{ tag0 := le16 t0 t1, tag1 := le16 t2 t3,
           desc := if (lib.closest (le16 t0 t1) (le16 t2 t3)).tag0 = le16 t0 t1 ∧
                      (lib.closest (le16 t0 t1) (le16 t2 t3)).tag1 = le16 t2 t3
                   then (lib.closest (le16 t0 t1) (le16 t2 t3)).title
                   else QString.lit "Unknown Tag",
           vl := le16 l0 l1, vf := some payload, seq := [] }] := by
    intro fuel
    have hd2 : decodeElement lib DICOM.new.isImplicit
      (t0 :: t1 :: t2 :: t3 :: v0 :: v1 :: l0 :: l1 :: payload) = _ := hdec
    simp only [parseLoop, parseElement, hd2, parseLoop_nil]
    simp [hdata]
  rw [hfile]
  have hr : readN 128 (pre ++ (68 :: 73 :: 67 :: 77 :: t0 :: t1 :: t2 :: t3 :: v0 :: v1 ::
      l0 :: l1 :: payload)) = some (pre, 68 :: 73 :: 67 :: 77 :: t0 :: t1 :: t2 :: t3 :: v0 ::
      v1 :: l0 :: l1 :: payload) := by
    rw [← hpre]; exact readN_append pre _
  have hmagic : [(68 : Byte).val, (73 : Byte).val, (67 : Byte).val, (77 : Byte).val] =
      QString.lit "DICM" := by decide
  simp only [parse, hr, read4, hmagic, ne_eq, not_true_eq_false, if_false, List.length_cons]
  exact hstep _


/-! ## Claims on the transfer syntax and the element header -/

theorem cString_append (S pad : List Byte) (hS : ∀ b ∈ S, b ≠ 0) :
    cString (S ++ 0 :: pad) = S.map Fin.val := by
  unfold cString
  induction S with
  | nil => simp
  | cons x S ih =>
    have hx : x ≠ 0 := hS x (List.mem_cons_self x S)
    have := ih (fun b hb => hS b (List.mem_cons_of_mem x hb))
    simp only [List.cons_append, List.takeWhile_cons, ne_eq, hx, not_false_eq_true,
      decide_True, if_true, List.map_cons]
    rw [this]

theorem map_val_eq_iff (S T : List Byte) : S.map Fin.val = T.map Fin.val ↔ S = T :=
  (List.map_injective_iff.mpr Fin.val_injective).eq_iff

theorem lit_uid1 : QString.lit "1.2.840.10008.1.2.1" =
    (asciiBytes "1.2.840.10008.1.2.1").map Fin.val := by decide

theorem lit_uid2 : QString.lit "1.2.840.10008.1.2.2" =
    (asciiBytes "1.2.840.10008.1.2.2").map Fin.val := by decide

theorem lit_uid3 : QString.lit "1.2.840.10008.1.2" =
    (asciiBytes "1.2.840.10008.1.2").map Fin.val := by decide

/-- The transfer syntax that `saveTransferUID` sets for the element `(0002,0010)` whose
value array holds the characters `S`, a zero byte and anything behind it. -/
theorem saveTransferUID_table (self : DICOM) (temp : Attribute) (S pad : List Byte)
    (htag : temp.tag0 = 0x0002 ∧ temp.tag1 = 0x0010) (hvf : temp.vf = some (S ++ 0 :: pad))
    (hS : ∀ b ∈ S, b ≠ 0) :
    ((saveTransferUID self temp).isImplicit, (saveTransferUID self temp).isBigEndian) =
      if S = asciiBytes "1.2.840.10008.1.2.1" then (false, false)
      else if S = asciiBytes "1.2.840.10008.1.2.2" then (false, true)
      else if S = asciiBytes "1.2.840.10008.1.2" then (true, false)
      else (false, false) := by
  unfold saveTransferUID
  rw [if_pos htag, hvf]
  simp only [Option.getD_some, cString_append S pad hS, lit_uid1, lit_uid2, lit_uid3,
    map_val_eq_iff]
  split_ifs <;> rfl

theorem saveSliceHeight_frame (self : DICOM) (temp : Attribute) :
    (saveSliceHeight self temp).isImplicit = self.isImplicit ∧
      (saveSliceHeight self temp).isBigEndian = self.isBigEndian := by
  unfold saveSliceHeight
  split_ifs <;> exact ⟨rfl, rfl⟩

/-- C5: when `parse` decodes a leaf element `(0002,0010)` whose value array holds the
characters `S` of a UID (7-bit, none of them zero) followed by a zero byte, the iteration
succeeds and leaves `(isImplicit, isBigEndian)` at `(false, false)` for
`1.2.840.10008.1.2.1`, `(false, true)` for `1.2.840.10008.1.2.2`, `(true, false)` for
`1.2.840.10008.1.2` and `(false, false)` for every other `S`; a fresh object has
`(false, false)`. -/
theorem transfer_syntax_after_uid (lib : database) (self : DICOM) (s : QDataStream)
    (r : Decoded) (S pad : List Byte)
    (hdec : decodeElement lib self.isImplicit s = .ok r) (hleaf : r.nested = false)
    (htag : r.temp.tag0 = 0x0002 ∧ r.temp.tag1 = 0x0010)
    (hvf : r.temp.vf = some (S ++ 0 :: pad)) (hS : ∀ b ∈ S, b ≠ 0 ∧ b.val < 128) :
    (∃ self1, parseElement lib self s = .ok (self1, r.rest) ∧
      (S = asciiBytes "1.2.840.10008.1.2.1" →
        (self1.isImplicit, self1.isBigEndian) = (false, false)) ∧
      (S = asciiBytes "1.2.840.10008.1.2.2" →
        (self1.isImplicit, self1.isBigEndian) = (false, true)) ∧
      (S = asciiBytes "1.2.840.10008.1.2" →
        (self1.isImplicit, self1.isBigEndian) = (true, false)) ∧
      (S ≠ asciiBytes "1.2.840.10008.1.2.1" → S ≠ asciiBytes "1.2.840.10008.1.2.2" →
        S ≠ asciiBytes "1.2.840.10008.1.2" →
        (self1.isImplicit, self1.isBigEndian) = (false, false))) ∧
    (DICOM.new.isImplicit, DICOM.new.isBigEndian) = (false, false) := by
  refine ⟨⟨{ saveSliceHeight (saveTransferUID self r.temp) r.temp with
      data := insertSorted (saveSliceHeight (saveTransferUID self r.temp) r.temp).data r.temp },
    ?_, ?_⟩, rfl⟩
  · simp only [parseElement, hdec, hleaf]
    rfl
  · have h1 := saveTransferUID_table self r.temp S pad htag hvf (fun b hb => (hS b hb).1)
    have h2 := saveSliceHeight_frame (saveTransferUID self r.temp) r.temp
    simp only [Bool.false_eq_true, if_false, h2.1, h2.2, h1]
    refine ⟨?_, ?_, ?_, ?_⟩
    · intro h; rw [if_pos h]
    · intro h
      have : S ≠ asciiBytes "1.2.840.10008.1.2.1" := by rw [h]; decide
      rw [if_neg this, if_pos h]
    · intro h
      have h1 : S ≠ asciiBytes "1.2.840.10008.1.2.1" := by rw [h]; decide
      have h2 : S ≠ asciiBytes "1.2.840.10008.1.2.2" := by rw [h]; decide
      rw [if_neg h1, if_neg h2, if_pos h]
    · intro h1 h2 h3
      rw [if_neg h1, if_neg h2, if_neg h3]


/-- C6: for an element decoded while `isImplicit` is false (tag not a delimiter), with `B`
the four bytes behind the tag, the VR is `B[0..2]`.  If it is in `implicitVR`, the length
is the little-endian 32-bit value of the next four bytes and the value starts behind
them, 12 bytes after the start of the element (error 204 if fewer than four bytes are
left); otherwise the length is `B[2] + 256 * B[3]`, below 65536, and the value starts 8
bytes after the start of the element.  A decoded element carries this VR and length. -/
theorem explicit_header (lib : database) (t0 t1 t2 t3 b0 b1 b2 b3 : Byte) (s : QDataStream)
    (hdelim : ¬(le16 t0 t1 = 0xFFFE ∧ (le16 t2 t3 = 0xE0DD ∨ le16 t2 t3 = 0xE00D))) :
    (QString.ofBytes2 b0 b1 ∈ lib.implicitVR →
      (∀ n0 n1 n2 n3 s1, s = n0 :: n1 :: n2 :: n3 :: s1 →
        decodeElement lib false (t0 :: t1 :: t2 :: t3 :: b0 :: b1 :: b2 :: b3 :: s) =
          readBody lib false
            { tag0 := le16 t0 t1, tag1 := le16 t2 t3,
              desc := if (lib.closest (le16 t0 t1) (le16 t2 t3)).tag0 = le16 t0 t1 ∧
                         (lib.closest (le16 t0 t1) (le16 t2 t3)).tag1 = le16 t2 t3
                      then (lib.closest (le16 t0 t1) (le16 t2 t3)).title
                      else QString.lit "Unknown Tag",
              vl := le32 n0 n1 n2 n3, vf := none, seq := [] }
            (QString.ofBytes2 b0 b1) s1) ∧
      (s.length < 4 →
        decodeElement lib false (t0 :: t1 :: t2 :: t3 :: b0 :: b1 :: b2 :: b3 :: s) =
          .error 204)) ∧
    (QString.ofBytes2 b0 b1 ∉ lib.implicitVR →
      decodeElement lib false (t0 :: t1 :: t2 :: t3 :: b0 :: b1 :: b2 :: b3 :: s) =
        readBody lib false
          { tag0 := le16 t0 t1, tag1 := le16 t2 t3,
            desc := if (lib.closest (le16 t0 t1) (le16 t2 t3)).tag0 = le16 t0 t1 ∧
                       (lib.closest (le16 t0 t1) (le16 t2 t3)).tag1 = le16 t2 t3
                    then (lib.closest (le16 t0 t1) (le16 t2 t3)).title
                    else QString.lit "Unknown Tag",
            vl := b2.val + 256 * b3.val, vf := none, seq := [] }
          (QString.ofBytes2 b0 b1) s ∧
      b2.val + 256 * b3.val < 65536) ∧
    (∀ r, decodeElement lib false (t0 :: t1 :: t2 :: t3 :: b0 :: b1 :: b2 :: b3 :: s) = .ok r →
      r.VR = QString.ofBytes2 b0 b1 ∧
      (QString.ofBytes2 b0 b1 ∈ lib.implicitVR →
        ∃ n0 n1 n2 n3 s1, s = n0 :: n1 :: n2 :: n3 :: s1 ∧ r.temp.vl = le32 n0 n1 n2 n3) ∧
      (QString.ofBytes2 b0 b1 ∉ lib.implicitVR → r.temp.vl = b2.val + 256 * b3.val)) := by
  have hvl : le16 b2 b3 = b2.val + 256 * b3.val := by unfold le16; omega
  have hA : QString.ofBytes2 b0 b1 ∈ lib.implicitVR →
      ∀ n0 n1 n2 n3 s1, s = n0 :: n1 :: n2 :: n3 :: s1 →
        decodeElement lib false (t0 :: t1 :: t2 :: t3 :: b0 :: b1 :: b2 :: b3 :: s) =
          readBody lib false
            { tag0 := le16 t0 t1, tag1 := le16 t2 t3,
              desc := if (lib.closest (le16 t0 t1) (le16 t2 t3)).tag0 = le16 t0 t1 ∧
                         (lib.closest (le16 t0 t1) (le16 t2 t3)).tag1 = le16 t2 t3
                      then (lib.closest (le16 t0 t1) (le16 t2 t3)).title
                      else QString.lit "Unknown Tag",
              vl := le32 n0 n1 n2 n3, vf := none, seq := [] }
            (QString.ofBytes2 b0 b1) s1 := by
    intro hext n0 n1 n2 n3 s1 hs
    subst hs
    simp only [decodeElement, read4_cons, hdelim, if_false, readHeader, selectVR, Bool.not_false,
      true_or, if_true, hext, and_self]
  have hB : QString.ofBytes2 b0 b1 ∈ lib.implicitVR → s.length < 4 →
      decodeElement lib false (t0 :: t1 :: t2 :: t3 :: b0 :: b1 :: b2 :: b3 :: s) =
        .error 204 := by
    intro hext hs
    have h4 : read4 s = none := read4_of_short hs
    simp only [decodeElement, read4_cons, hdelim, if_false, readHeader, selectVR, Bool.not_false,
      true_or, if_true, hext, and_self, h4]
  have hC : QString.ofBytes2 b0 b1 ∉ lib.implicitVR →
      decodeElement lib false (t0 :: t1 :: t2 :: t3 :: b0 :: b1 :: b2 :: b3 :: s) =
        readBody lib false
          { tag0 := le16 t0 t1, tag1 := le16 t2 t3,
            desc := if (lib.closest (le16 t0 t1) (le16 t2 t3)).tag0 = le16 t0 t1 ∧
                       (lib.closest (le16 t0 t1) (le16 t2 t3)).tag1 = le16 t2 t3
                    then (lib.closest (le16 t0 t1) (le16 t2 t3)).title
                    else QString.lit "Unknown Tag",
            vl := b2.val + 256 * b3.val, vf := none, seq := [] }
          (QString.ofBytes2 b0 b1) s := by
    intro hext
    simp only [decodeElement, read4_cons, hdelim, if_false, readHeader, selectVR, Bool.not_false,
      true_or, if_true, hext, false_and, hvl]
  refine ⟨fun hext => ⟨hA hext, hB hext⟩, fun hext => ⟨hC hext, by omega⟩, ?_⟩
  intro r hr
  by_cases hext : QString.ofBytes2 b0 b1 ∈ lib.implicitVR
  · by_cases hs : s.length < 4
    · rw [hB hext hs] at hr
      cases hr
    · obtain ⟨n0, n1, n2, n3, s1, hs1⟩ :
          ∃ n0 n1 n2 n3 s1, s = n0 :: n1 :: n2 :: n3 :: s1 := by
        match s, hs with
        | n0 :: n1 :: n2 :: n3 :: s1, _ => exact ⟨n0, n1, n2, n3, s1, rfl⟩
        | [], h => simp at h
        | [_], h => simp at h
        | [_, _], h => simp at h
        | [_, _, _], h => simp at h
      rw [hA hext n0 n1 n2 n3 s1 hs1] at hr
      have hb := readBody_ok hr
      exact ⟨hb.1, fun _ => ⟨n0, n1, n2, n3, s1, hs1, hb.2.2.2.2.1⟩, fun h => absurd hext h⟩
  · rw [hC hext] at hr
    have hb := readBody_ok hr
    exact ⟨hb.1, fun h => absurd h hext, fun _ => hb.2.2.2.2.1⟩



/-- C8: for an element decoded while `isImplicit` is true, with a group other than 0x0002
and a tag the dictionary holds (and describes otherwise than as `Unknown Tag`) with a VR
other than `SQ`: the length is the little-endian 32-bit value of the four bytes `B` behind
the tag, the header has 8 bytes, and for `0 < vl < INT_MAX` the value is the next `vl`
bytes of the stream (error 301 when fewer are left). -/
theorem implicit_known_tag (lib : database) (t0 t1 t2 t3 b0 b1 b2 b3 : Byte)
    (s : QDataStream)
    (hdelim : ¬(le16 t0 t1 = 0xFFFE ∧ (le16 t2 t3 = 0xE0DD ∨ le16 t2 t3 = 0xE00D)))
    (hgroup : le16 t0 t1 ≠ 0x0002)
    (hhit : (lib.closest (le16 t0 t1) (le16 t2 t3)).tag0 = le16 t0 t1 ∧
      (lib.closest (le16 t0 t1) (le16 t2 t3)).tag1 = le16 t2 t3)
    (htitle : (lib.closest (le16 t0 t1) (le16 t2 t3)).title ≠ QString.lit "Unknown Tag")
    (hvr : (lib.closest (le16 t0 t1) (le16 t2 t3)).vr ≠ QString.lit "SQ") :
    decodeElement lib true (t0 :: t1 :: t2 :: t3 :: b0 :: b1 :: b2 :: b3 :: s) =
      readBody lib true
        { tag0 := le16 t0 t1, tag1 := le16 t2 t3,
          desc := (lib.closest (le16 t0 t1) (le16 t2 t3)).title,
          vl := le32 b0 b1 b2 b3, vf := none, seq := [] }
        (lib.closest (le16 t0 t1) (le16 t2 t3)).vr s ∧
    (0 < le32 b0 b1 b2 b3 → le32 b0 b1 b2 b3 < INT_MAX →
      (le32 b0 b1 b2 b3 ≤ s.length →
        decodeElement lib true (t0 :: t1 :: t2 :: t3 :: b0 :: b1 :: b2 :: b3 :: s) =
          .ok { temp := { tag0 := le16 t0 t1, tag1 := le16 t2 t3,
                          desc := (lib.closest (le16 t0 t1) (le16 t2 t3)).title,
                          vl := le32 b0 b1 b2 b3,
                          vf := some (s.take (le32 b0 b1 b2 b3)), seq := [] },
                VR := (lib.closest (le16 t0 t1) (le16 t2 t3)).vr, nested := false,
                rest := s.drop (le32 b0 b1 b2 b3) }) ∧
      (s.length < le32 b0 b1 b2 b3 →
        decodeElement lib true (t0 :: t1 :: t2 :: t3 :: b0 :: b1 :: b2 :: b3 :: s) =
          .error 301)) := by
  have hdec : decodeElement lib true (t0 :: t1 :: t2 :: t3 :: b0 :: b1 :: b2 :: b3 :: s) =
      readBody lib true
        { tag0 := le16 t0 t1, tag1 := le16 t2 t3,
          desc := (lib.closest (le16 t0 t1) (le16 t2 t3)).title,
          vl := le32 b0 b1 b2 b3, vf := none, seq := [] }
        (lib.closest (le16 t0 t1) (le16 t2 t3)).vr s := by
    simp only [decodeElement, read4_cons, hdelim, if_false, hhit, and_self, if_true, readHeader,
      selectVR, Bool.not_true, hgroup, or_self, htitle, and_false, Bool.false_eq_true]
  refine ⟨hdec, fun h0 hmax => ⟨fun hlen => ?_, fun hlen => ?_⟩⟩
  · rw [hdec]
    simp only [readBody, hvr, false_and, if_false, readValue, h0, hmax, and_self, if_true,
      readN, Nat.not_lt.mpr hlen]
  · rw [hdec]
    simp only [readBody, hvr, false_and, if_false, readValue, h0, hmax, and_self, if_true,
      readN, hlen]



theorem readBody_undefined_sequence (lib : database) (isImplicit : Bool) (temp : Attribute)
    (s : QDataStream) (h : temp.vl = 0xFFFFFFFF) :
    (readSequence lib isImplicit s temp = none →
      readBody lib isImplicit temp (QString.lit "SQ") s = .error 208) ∧
    (∀ temp1 s1, readSequence lib isImplicit s temp = some (temp1, s1) →
      readBody lib isImplicit temp (QString.lit "SQ") s =
        .ok { temp := temp1, VR := QString.lit "SQ", nested := true, rest := s1 }) := by
  unfold readBody
  rw [if_pos ⟨rfl, h⟩]
  constructor
  · intro h1; rw [h1]
  · intro temp1 s1 h1; rw [h1]

/-- C10: for an element decoded while `isImplicit` is true, with a group other than 0x0002,
a tag the dictionary does not hold, and `FF FF FF FF` behind the tag (which is not a valid
VR): the bytes that follow are read by `readSequence`; when that fails `parse` returns 208,
and otherwise the element is a sequence with `vl = 0xFFFFFFFF`, no value array and the
items `readSequence` read, and the stream continues where `readSequence` stopped, so no
value of that length is read. -/
theorem implicit_unknown_tag_undefined_length (lib : database) (t0 t1 t2 t3 : Byte)
    (s : QDataStream)
    (hdelim : ¬(le16 t0 t1 = 0xFFFE ∧ (le16 t2 t3 = 0xE0DD ∨ le16 t2 t3 = 0xE00D)))
    (hgroup : le16 t0 t1 ≠ 0x0002)
    (hmiss : ¬((lib.closest (le16 t0 t1) (le16 t2 t3)).tag0 = le16 t0 t1 ∧
      (lib.closest (le16 t0 t1) (le16 t2 t3)).tag1 = le16 t2 t3))
    (hvalid : QString.ofBytes2 255 255 ∉ lib.validVR) :
    (readSequence lib true s
        { tag0 := le16 t0 t1, tag1 := le16 t2 t3, desc := QString.lit "Unknown Tag",
          vl := 0xFFFFFFFF, vf := none, seq := [] } = none →
      decodeElement lib true (t0 :: t1 :: t2 :: t3 :: 255 :: 255 :: 255 :: 255 :: s) =
        .error 208) ∧
    (∀ temp1 s1,
      readSequence lib true s
        { tag0 := le16 t0 t1, tag1 := le16 t2 t3, desc := QString.lit "Unknown Tag",
          vl := 0xFFFFFFFF, vf := none, seq := [] } = some (temp1, s1) →
      decodeElement lib true (t0 :: t1 :: t2 :: t3 :: 255 :: 255 :: 255 :: 255 :: s) =
        .ok { temp := temp1, VR := QString.lit "SQ", nested := true, rest := s1 }) ∧
    (∀ r, decodeElement lib true (t0 :: t1 :: t2 :: t3 :: 255 :: 255 :: 255 :: 255 :: s) =
        .ok r →
      r.VR = QString.lit "SQ" ∧ r.nested = true ∧ r.temp.vl = 0xFFFFFFFF ∧
      r.temp.vf = none ∧
      r.temp.tag0 = le16 t0 t1 ∧ r.temp.tag1 = le16 t2 t3 ∧
      readSequenceLoop lib true s.length s [] = some (r.temp.seq, r.rest)) := by
  have h32 : le32 255 255 255 255 = 0xFFFFFFFF := by decide
  have hdec : decodeElement lib true (t0 :: t1 :: t2 :: t3 :: 255 :: 255 :: 255 :: 255 :: s) =
      readBody lib true
        { tag0 := le16 t0 t1, tag1 := le16 t2 t3, desc := QString.lit "Unknown Tag",
          vl := 0xFFFFFFFF, vf := none, seq := [] } (QString.lit "SQ") s := by
    simp only [decodeElement, read4_cons, hdelim, if_false, hmiss, readHeader, selectVR,
      Bool.not_true, hgroup, or_self, Bool.false_eq_true, ALLOW_LOOSE_CUSTOM_TAGS, and_self,
      if_true, hvalid, h32, and_false]
  have hbody := readBody_undefined_sequence lib true
    { tag0 := le16 t0 t1, tag1 := le16 t2 t3, desc := QString.lit "Unknown Tag",
      vl := 0xFFFFFFFF, vf := none, seq := [] } s rfl
  rw [hdec]
  refine ⟨hbody.1, hbody.2, ?_⟩
  intro r hr
  cases ha : readSequenceLoop lib true s.length s [] with
  | none =>
    have hn : readSequence lib true s
        { tag0 := le16 t0 t1, tag1 := le16 t2 t3, desc := QString.lit "Unknown Tag",
          vl := 0xFFFFFFFF, vf := none, seq := [] } = none := by
      simp only [readSequence, ha]
    rw [hbody.1 hn] at hr
    cases hr
  | some p =>
    obtain ⟨items, sa⟩ := p
    have hsome : readSequence lib true s
        { tag0 := le16 t0 t1, tag1 := le16 t2 t3, desc := QString.lit "Unknown Tag",
          vl := 0xFFFFFFFF, vf := none, seq := [] } =
        some ({ tag0 := le16 t0 t1, tag1 := le16 t2 t3, desc := QString.lit "Unknown Tag",
                vl := 0xFFFFFFFF, vf := none, seq := items }, sa) := by
      simp only [readSequence, ha]
    rw [hbody.2 _ _ hsome] at hr
    simp only [Except.ok.injEq] at hr
    subst hr
    exact ⟨rfl, rfl, rfl, rfl, rfl, rfl, rfl⟩

/-! ## The claims on example files -/

set_option maxRecDepth 100000

/-- C1 (fails on the code): on `twoElementFile`, whose two elements come in ascending order
of their tags, `parse` returns 0 and leaves the store as `(0010,0010), (0008,0005)`:
the second element is inserted at index 0, before the first, so the store is not sorted. -/
theorem parse_store_not_sorted :
    (parse sampleLib DICOM.new (some twoElementFile)).1 = 0 ∧
    (parse sampleLib DICOM.new (some twoElementFile)).2.1.data.map
        (fun a => (a.tag0, a.tag1)) = [(0x0010, 0x0010), (0x0008, 0x0005)] ∧
    ¬ List.Chain' tagLe (parse sampleLib DICOM.new (some twoElementFile)).2.1.data := by
  have h : (parse sampleLib DICOM.new (some twoElementFile)).2.1.data =
      [ { tag0 := 0x0010, tag1 := 0x0010, desc := QString.lit "Patient Name", vl := 6,
          vf := some (asciiBytes "Doe^J "), seq := [] },
        { tag0 := 0x0008, tag1 := 0x0005, desc := QString.lit "Specific Character Set",
          vl := 10, vf := some (asciiBytes "ISO_IR 100"), seq := [] } ] := by decide
  refine ⟨by decide, by decide, ?_⟩
  rw [h]
  simp [tagLe]

theorem binSearch_returns_position_witness :
    List.Chain' tagLt sampleStore ∧ 1 < sampleStore.length ∧
    binSearch sampleStore 0x0008 0x0008 0 2 = 1 ∧
    binSearchAtt sampleStore 0x0008 0x0008 0 2 = 1 :=
  ⟨by simp [sampleStore, tagLt], by decide,
    binSearch_returns_position sampleStore (by simp [sampleStore, tagLt]) 1 (by decide)⟩

theorem parse_header_codes_witness :
    preamble.length = 132 ∧ preamble.drop 128 = asciiBytes "DICM" ∧
    (parse sampleLib DICOM.new (some preamble)).1 = 0 :=
  ⟨by decide, by decide,
    (parse_header_codes sampleLib DICOM.new preamble).2.2.2 (by decide) (by decide)⟩

theorem parse_minimal_file_witness :
    (parse sampleLib DICOM.new
      (some (List.replicate 128 0 ++ asciiBytes "DICM" ++ [0x08, 0x00, 0x05, 0x00, 67, 83, 10, 0]
        ++ asciiBytes "ISO_IR 100"))).1 = 0 :=
  (parse_minimal_file sampleLib (List.replicate 128 0) 0x08 0x00 0x05 0x00 67 83 10 0
    (asciiBytes "ISO_IR 100") (by decide) (by decide) (by decide) (by decide) (by decide)).1

theorem transfer_syntax_after_uid_witness :
    ∃ self1, parseElement sampleLib DICOM.new implicitSyntaxElement = .ok (self1, []) ∧
      (self1.isImplicit, self1.isBigEndian) = (true, false) :=
  match transfer_syntax_after_uid sampleLib DICOM.new implicitSyntaxElement
      { temp := { tag0 := 0x0002, tag1 := 0x0010, desc := QString.lit "Transfer Syntax UID",
                  vl := 18, vf := some (asciiBytes "1.2.840.10008.1.2" ++ [0]), seq := [] },
        VR := QString.lit "UI", nested := false, rest := [] }
      (asciiBytes "1.2.840.10008.1.2") [] rfl rfl (by decide) (by decide)
      (by decide) with
  | ⟨⟨self1, h1, _, _, h3, _⟩, _⟩ => ⟨self1, h1, h3 rfl⟩

theorem explicit_header_witness :
    ¬(le16 0x08 0x00 = 0xFFFE ∧ (le16 0x05 0x00 = 0xE0DD ∨ le16 0x05 0x00 = 0xE00D)) ∧
    QString.ofBytes2 67 83 ∉ sampleLib.implicitVR ∧
    decodeElement sampleLib false charsetElement =
      .ok { temp := { tag0 := 0x0008, tag1 := 0x0005,
                      desc := QString.lit "Specific Character Set", vl := 10,
                      vf := some (asciiBytes "ISO_IR 100"), seq := [] },
            VR := QString.lit "CS", nested := false, rest := [] } := by
  have h := ((explicit_header sampleLib 0x08 0x00 0x05 0x00 67 83 10 0
    (asciiBytes "ISO_IR 100") (by decide)).2.1 (by decide)).1
  exact ⟨by decide, by decide, h.trans rfl⟩

/-- C7 (fails on the code): in `metaOBFile` the element `(0002,0102)` with VR `OB` follows
the UID of implicit VR little endian.  The decoder takes its length from the two reserved
bytes instead of the 4-byte length field: the element is stored with `vl = 0` and no
value bytes, the length field and the value are then read as the next element, and
`parse` returns 301. -/
theorem meta_group_extended_length_misread :
    decodeElement sampleLib true metaOBElement =
      .ok { temp := { tag0 := 0x0002, tag1 := 0x0102, desc := QString.lit "Unknown Tag",
                      vl := 0, vf := some [], seq := [] },
            VR := QString.lit "OB", nested := false, rest := [4, 0, 0, 0, 1, 2, 3, 4] } ∧
    (parse sampleLib DICOM.new (some metaOBFile)).1 = 301 ∧
    (parse sampleLib DICOM.new (some metaOBFile)).2.1.isImplicit = true ∧
    (parse sampleLib DICOM.new (some metaOBFile)).2.1.data.map
        (fun a => (a.tag0, a.tag1, a.vl)) = [(0x0002, 0x0102, 0), (0x0002, 0x0010, 18)] :=
  ⟨rfl, by decide, by decide, by decide⟩

theorem implicit_known_tag_witness :
    decodeElement sampleLib true patientNameElement =
      .ok { temp := { tag0 := 0x0010, tag1 := 0x0010, desc := QString.lit "Patient Name",
                      vl := 6, vf := some (asciiBytes "Doe^J" ++ [0]), seq := [] },
            VR := QString.lit "PN", nested := false, rest := [] } := by
  have h := ((implicit_known_tag sampleLib 0x10 0x00 0x10 0x00 6 0 0 0
    (asciiBytes "Doe^J" ++ [0]) (by decide) (by decide) (by decide) (by decide)
    (by decide)).2 (by decide) (by decide)).1 (by decide)
  exact h

/-- C9 (fails on the code): `unknownTagFile` is in implicit VR little endian and holds the
element `(3006,0038)`, which `sampleLib` does not know, with length 8.  The decoder takes
the VR `SQ` of the neighbouring entry `(3006,0039)` that the lookup returns, and reads the
eight value bytes as a sequence: the element is stored without value bytes and with one
item, instead of as a leaf of eight bytes. -/
theorem unknown_tag_read_with_neighbour_vr :
    sampleLib.closest 0x3006 0x0038 =
      { tag0 := 0x3006, tag1 := 0x0039, vr := QString.lit "SQ",
        title := QString.lit "ROI Contour Sequence" } ∧
    decodeElement sampleLib true unknownTagElement =
      .ok { temp := { tag0 := 0x3006, tag1 := 0x0038, desc := QString.lit "Unknown Tag",
                      vl := 8, vf := none, seq := [{ vl := 0, vf := [] }] },
            VR := QString.lit "SQ", nested := true, rest := [] } ∧
    (parse sampleLib DICOM.new (some unknownTagFile)).1 = 0 ∧
    (parse sampleLib DICOM.new (some unknownTagFile)).2.1.data =
      [ { tag0 := 0x3006, tag1 := 0x0038, desc := QString.lit "Unknown Tag", vl := 8,
          vf := none, seq := [{ vl := 0, vf := [] }] },
        { tag0 := 0x0002, tag1 := 0x0010, desc := QString.lit "Transfer Syntax UID", vl := 18,
          vf := some (asciiBytes "1.2.840.10008.1.2" ++ [0]), seq := [] } ] :=
  ⟨by decide, rfl, by decide, by decide⟩

theorem implicit_unknown_tag_undefined_length_witness :
    QString.ofBytes2 255 255 ∉ sampleLib.validVR ∧
    decodeElement sampleLib true vendorSequenceElement =
      .ok { temp := { tag0 := 0x3F3F, tag1 := 0x1001, desc := QString.lit "Unknown Tag",
                      vl := 0xFFFFFFFF, vf := none, seq := [] },
            VR := QString.lit "SQ", nested := true, rest := [] } := by
  have h := (implicit_unknown_tag_undefined_length sampleLib 0x3F 0x3F 0x01 0x10
    [0xFE, 0xFF, 0xDD, 0xE0, 0, 0, 0, 0] (by decide) (by decide) (by decide)
    (by decide)).2.1
      { tag0 := 0x3F3F, tag1 := 0x1001, desc := QString.lit "Unknown Tag", vl := 0xFFFFFFFF,
        vf := none, seq := [] } [] (by decide)
  exact ⟨by decide, h⟩


/-! ## Input consumed by `parseSequence`, and its step bound -/

theorem readSequenceHeader_length {lib : database} {isImplicit : Bool} {tag0 tag1 : Nat}
    {s s1 : QDataStream} {VR : QString} {vl : Nat}
    (h : readSequenceHeader lib isImplicit tag0 tag1 s = some (VR, vl, s1)) :
    s1.length ≤ s.length := by
  unfold readSequenceHeader at h
  split at h
  · cases h
  · rename_i VR1 dat sa hA
    have hsa : sa.length ≤ s.length := by
      split_ifs at hA with hc
      · cases hr : read4 s with
        | none => simp [hr] at hA
        | some p =>
          obtain ⟨d, sb⟩ := p
          simp only [hr, Option.some.injEq, Prod.mk.injEq] at hA
          have := read4_length hr
          rw [← hA.2.2]; omega
      · simp only [Option.some.injEq, Prod.mk.injEq] at hA
        rw [← hA.2.2]
    by_cases hB : (tag0 ≠ 0x0002 ∧ isImplicit) ∨ VR1 ∈ lib.implicitVR
    · rw [if_pos hB] at h
      cases hr : read4 sa with
      | none => simp [hr] at h
      | some p =>
        obtain ⟨⟨e0, e1, e2, e3⟩, sb⟩ := p
        simp only [hr, Option.some.injEq, Prod.mk.injEq] at h
        have := read4_length hr
        rw [← h.2.2]; omega
    · rw [if_neg hB] at h
      by_cases hc : isImplicit ∧ tag0 ≠ 0x0002
      · rw [if_pos hc] at h
        cases hr : read4 sa with
        | none => simp [hr] at h
        | some p =>
          obtain ⟨dat1, s2⟩ := p
          have := read4_length hr
          simp only [hr] at h
          split_ifs at h <;>
            (simp only [Option.some.injEq, Prod.mk.injEq] at h
             rw [← h.2.2]; omega)
      · rw [if_neg hc] at h
        simp only [] at h
        split_ifs at h <;>
          (simp only [Option.some.injEq, Prod.mk.injEq] at h
           rw [← h.2.2]; omega)

theorem readSequenceBody_length {lib : database} {isImplicit : Bool} {temp temp1 : Attribute}
    {VR : QString} {s s1 : QDataStream} {nested : Bool}
    (h : readSequenceBody lib isImplicit temp VR s = some (temp1, nested, s1)) :
    s1.length ≤ s.length := by
  unfold readSequenceBody at h
  split_ifs at h with h1 h2
  · unfold readSequence at h
    cases ha : readSequenceLoop lib isImplicit s.length s temp.seq with
    | none => simp [ha] at h
    | some p =>
      obtain ⟨items, sa⟩ := p
      have := readSequenceLoop_length lib isImplicit _ _ _ _ _ ha
      simp only [ha, Option.some.injEq, Prod.mk.injEq] at h
      rw [← h.2.2]; omega
  · unfold readDefinedSequence at h
    cases ha : readDefinedSequenceLoop lib isImplicit s.length s temp.seq temp.vl 0 with
    | none => simp [ha] at h
    | some p =>
      obtain ⟨items, sa⟩ := p
      have := readDefinedSequenceLoop_length lib isImplicit _ _ _ _ _ _ _ ha
      simp only [ha, Option.some.injEq, Prod.mk.injEq] at h
      rw [← h.2.2]; omega
  · simp only [Option.some.injEq, Prod.mk.injEq] at h
    rw [← h.2.2]

theorem decodeSequenceElement_length {lib : database} {isImplicit : Bool} {s : QDataStream}
    {r : Decoded} (h : decodeSequenceElement lib isImplicit s = .ok r) :
    r.rest.length + 4 ≤ s.length := by
  unfold decodeSequenceElement at h
  cases ha : read4 s with
  | none => simp [ha] at h
  | some p =>
    obtain ⟨⟨d0, d1, d2, d3⟩, sa⟩ := p
    have la := read4_length ha
    simp only [ha] at h
    cases hb : readSequenceHeader lib isImplicit (le16 d0 d1) (le16 d2 d3) sa with
    | none => simp [hb] at h
    | some q =>
      obtain ⟨VR, vl, sb⟩ := q
      have lb := readSequenceHeader_length hb
      simp only [hb] at h
      cases hc : readSequenceBody lib isImplicit
          { tag0 := le16 d0 d1, tag1 := le16 d2 d3, desc := [], vl := vl, vf := none,
            seq := [] } VR sb with
      | none => simp [hc] at h
      | some q2 =>
        obtain ⟨temp1, nested, sc⟩ := q2
        have lc := readSequenceBody_length hc
        simp only [hc] at h
        cases nested with
        | true =>
          simp only [if_true, Except.ok.injEq] at h
          subst h
          simp only
          omega
        | false =>
          simp only [Bool.false_eq_true, if_false] at h
          cases hd : readValue (if temp1.vl = 0xFFFFFFFF then 0 else temp1.vl) sc with
          | error e => simp [hd] at h
          | ok q3 =>
            obtain ⟨vf, sd⟩ := q3
            have ld := readValue_length hd
            simp only [hd, Except.ok.injEq] at h
            subst h
            simp only
            omega

theorem parseSequenceLoop_fuel (lib : database) :
    ∀ (fuel : Nat) (self : DICOM) (s : QDataStream) (att : List Attribute), s.length ≤ fuel →
      parseSequenceLoop lib fuel self s att = parseSequenceLoop lib s.length self s att := by
  intro fuel
  induction fuel using Nat.strong_induction_on with
  | _ fuel ih =>
    intro self s att hf
    by_cases hs : s = []
    · subst hs
      cases fuel <;> simp [parseSequenceLoop]
    · have hpos : 0 < s.length := List.length_pos.mpr hs
      obtain ⟨m, hm⟩ : ∃ m, s.length = m + 1 := ⟨s.length - 1, by omega⟩
      cases fuel with
      | zero => omega
      | succ n =>
        rw [hm]
        simp only [parseSequenceLoop, hs, if_false]
        cases ha : decodeSequenceElement lib self.isImplicit s with
        | error e => rfl
        | ok r =>
          have := decodeSequenceElement_length ha
          simp only []
          rw [ih n (by omega) self r.rest _ (by omega), ih m (by omega) self r.rest _ (by omega)]

/-- The method `parseSequence` satisfies the equation of the `while` loop of the source. -/
theorem parseSequence_eq (lib : database) (self : DICOM) (s : QDataStream)
    (att : List Attribute) :
    parseSequence lib self s att =
      if s = [] then (att.length, self, att, s)
      else
        match decodeSequenceElement lib self.isImplicit s with
        | .error e => (e, self, att, s)
        | .ok r => parseSequence lib self r.rest (insertSortedAtt att r.temp) := by
  unfold parseSequence
  by_cases hs : s = []
  · subst hs; simp [parseSequenceLoop]
  · have hpos : 0 < s.length := List.length_pos.mpr hs
    obtain ⟨m, hm⟩ : ∃ m, s.length = m + 1 := ⟨s.length - 1, by omega⟩
    rw [hm]
    simp only [parseSequenceLoop, hs, if_false]
    cases ha : decodeSequenceElement lib self.isImplicit s with
    | error e => rfl
    | ok r =>
      have := decodeSequenceElement_length ha
      simp only []
      rw [parseSequenceLoop_fuel lib m self r.rest _ (by omega)]

/-! ## Claims on runs of the element loop -/

theorem decodeElement_delimiter (lib : database) (isImplicit : Bool) (t0 t1 t2 t3 : Byte)
    (rest : QDataStream)
    (hdelim : le16 t0 t1 = 0xFFFE ∧ (le16 t2 t3 = 0xE0DD ∨ le16 t2 t3 = 0xE00D)) :
    decodeElement lib isImplicit (t0 :: t1 :: t2 :: t3 :: rest) = .error 202 := by
  simp only [decodeElement, read4_cons, hdelim, true_or, or_true, and_self, if_true]

theorem mem_insertSorted {data : List Attribute} {temp a : Attribute}
    (h : a ∈ insertSorted data temp) : a = temp ∨ a ∈ data := by
  unfold insertSorted at h
  simp only [List.mem_append, List.mem_cons] at h
  rcases h with h | h | h
  · exact Or.inr (List.mem_of_mem_take h)
  · exact Or.inl h
  · exact Or.inr (List.mem_of_mem_drop h)

theorem saveTransferUID_data (self : DICOM) (temp : Attribute) :
    (saveTransferUID self temp).data = self.data := by
  unfold saveTransferUID
  split_ifs <;> rfl

theorem saveSliceHeight_data (self : DICOM) (temp : Attribute) :
    (saveSliceHeight self temp).data = self.data := by
  unfold saveSliceHeight
  split_ifs <;> rfl

theorem readBody_leaf_vf {lib : database} {isImplicit : Bool} {temp : Attribute}
    {VR : QString} {s : QDataStream} {r : Decoded}
    (h : readBody lib isImplicit temp VR s = .ok r) (hn : r.nested = false) :
    ∃ vf, r.temp.vf = some vf := by
  unfold readBody at h
  split_ifs at h with h1 h2
  · cases ha : readSequence lib isImplicit s temp with
    | none => simp [ha] at h
    | some p =>
      simp only [ha, Except.ok.injEq] at h
      subst h
      cases hn
  · cases ha : readDefinedSequence lib isImplicit s temp temp.vl with
    | none => simp [ha] at h
    | some p =>
      simp only [ha, Except.ok.injEq] at h
      subst h
      cases hn
  · cases ha : readValue temp.vl s with
    | error e => simp [ha] at h
    | ok p =>
      obtain ⟨vf, sa⟩ := p
      simp only [ha, Except.ok.injEq] at h
      subst h
      exact ⟨vf, rfl⟩

/-- A decoded element comes out of `readBody`, run on an attribute that has neither a
value array nor items. -/
theorem decodeElement_ok_body {lib : database} {isImplicit : Bool} {s : QDataStream}
    {r : Decoded} (h : decodeElement lib isImplicit s = .ok r) :
    ∃ temp VR s2, temp.vf = none ∧ temp.seq = [] ∧
      readBody lib isImplicit temp VR s2 = .ok r := by
  unfold decodeElement at h
  cases ha : read4 s with
  | none => simp [ha] at h
  | some p =>
    obtain ⟨⟨d0, d1, d2, d3⟩, sa⟩ := p
    simp only [ha] at h
    split_ifs at h with h1
    all_goals
      first
      | (cases hb : readHeader lib isImplicit (le16 d0 d1) (le16 d2 d3)
            (lib.closest (le16 d0 d1) (le16 d2 d3)).title sa with
          | error e => simp [hb] at h
          | ok q =>
            obtain ⟨VR, vl, sb⟩ := q
            simp only [hb] at h
            exact ⟨_, VR, sb, rfl, rfl, h⟩)
      | (cases hb : readHeader lib isImplicit (le16 d0 d1) (le16 d2 d3)
            (QString.lit "Unknown Tag") sa with
          | error e => simp [hb] at h
          | ok q =>
            obtain ⟨VR, vl, sb⟩ := q
            simp only [hb] at h
            exact ⟨_, VR, sb, rfl, rfl, h⟩)

/-- What a decoded element looks like: a sequence has no value array, anything else has a
value array and no items. -/
theorem decodeElement_shape {lib : database} {isImplicit : Bool} {s : QDataStream}
    {r : Decoded} (h : decodeElement lib isImplicit s = .ok r) :
    (r.VR = QString.lit "SQ" → r.nested = true ∧ r.temp.vf = none) ∧
    (r.VR ≠ QString.lit "SQ" → r.nested = false ∧ r.temp.seq = [] ∧
      ∃ vf, r.temp.vf = some vf) := by
  obtain ⟨temp, VR, s2, hvf, hseq, hb⟩ := decodeElement_ok_body h
  have hok := readBody_ok hb
  obtain ⟨hVR, -, -, -, -, -, htrue, hfalse⟩ := hok
  constructor
  · intro hsq
    cases hn : r.nested with
    | true => exact ⟨rfl, by rw [(htrue hn).2, hvf]⟩
    | false => exact absurd (hVR ▸ hsq) (hfalse hn).1
  · intro hne
    cases hn : r.nested with
    | true => exact absurd (hVR ▸ (htrue hn).1) hne
    | false => exact ⟨rfl, by rw [(hfalse hn).2, hseq], readBody_leaf_vf hb hn⟩

/-- C17: an element decoded with VR `SQ` is a sequence node without a value array (`vf`
stays `NULL`), an element decoded with any other VR is a leaf with a value array and an
empty item list; and every element of the store that `parse` builds in a fresh object has
no value array or no items, never both. -/
theorem leaf_or_sequence (lib : database) :
    (∀ (isImplicit : Bool) (s : QDataStream) (r : Decoded),
      decodeElement lib isImplicit s = .ok r →
        (r.VR = QString.lit "SQ" → r.nested = true ∧ r.temp.vf = none) ∧
        (r.VR ≠ QString.lit "SQ" → r.nested = false ∧ r.temp.seq = [] ∧
          ∃ vf, r.temp.vf = some vf)) ∧
    (∀ (file : Option (List Byte)) (a : Attribute),
      a ∈ (parse lib DICOM.new file).2.1.data → a.vf = none ∨ a.seq = []) := by
  refine ⟨fun isImplicit s r h => decodeElement_shape h, ?_⟩
  have hloop : ∀ (fuel : Nat) (self : DICOM) (s : QDataStream),
      (∀ a ∈ self.data, a.vf = none ∨ a.seq = []) →
      ∀ a ∈ (parseLoop lib fuel self s).2.1.data, a.vf = none ∨ a.seq = [] := by
    intro fuel
    induction fuel with
    | zero => intro self s hinv; simpa [parseLoop] using hinv
    | succ n ih =>
      intro self s hinv
      simp only [parseLoop]
      split_ifs with hs
      · exact hinv
      · cases ha : parseElement lib self s with
        | error e => exact hinv
        | ok p =>
          obtain ⟨self1, s1⟩ := p
          simp only []
          apply ih
          unfold parseElement at ha
          cases hd : decodeElement lib self.isImplicit s with
          | error e => simp [hd] at ha
          | ok r =>
            simp only [hd, Except.ok.injEq, Prod.mk.injEq] at ha
            obtain ⟨ha1, -⟩ := ha
            subst ha1
            have hshape := decodeElement_shape hd
            intro a hmem
            simp only at hmem
            rcases mem_insertSorted hmem with h | h
            · subst h
              by_cases hsq : r.VR = QString.lit "SQ"
              · exact Or.inl (hshape.1 hsq).2
              · exact Or.inr (hshape.2 hsq).2.1
            · apply hinv
              cases hn : r.nested
              · simpa [hn, saveSliceHeight_data, saveTransferUID_data] using h
              · simpa [hn] using h
  intro file a hmem
  have hnew : ∀ a ∈ DICOM.new.data, a.vf = none ∨ a.seq = [] := by
    intro a ha; cases ha
  unfold parse at hmem
  split at hmem
  · cases hmem
  · split at hmem
    · cases hmem
    · split at hmem
      · cases hmem
      · split_ifs at hmem
        · cases hmem
        · exact hloop _ _ _ hnew a hmem

/-- C20: when `parse` returns 0 the whole stream has been read: the unread rest is empty. -/
theorem parse_success_consumes_all (lib : database) (self : DICOM)
    (file : Option (List Byte)) (h : (parse lib self file).1 = 0) :
    (parse lib self file).2.2 = [] := by
  have hloop : ∀ (fuel : Nat) (self : DICOM) (s : QDataStream), s.length ≤ fuel →
      (parseLoop lib fuel self s).1 = 0 → (parseLoop lib fuel self s).2.2 = [] := by
    intro fuel
    induction fuel with
    | zero =>
      intro self s hf _
      have : s = [] := List.length_eq_zero.mp (by omega)
      subst this
      rfl
    | succ n ih =>
      intro self s hf h0
      simp only [parseLoop] at h0 ⊢
      split_ifs at h0 ⊢ with hs
      · exact hs
      · cases ha : parseElement lib self s with
        | error e =>
          simp only [ha] at h0
          have := parseElement_error ha
          omega
        | ok p =>
          obtain ⟨self1, s1⟩ := p
          simp only [ha] at h0 ⊢
          have := parseElement_length ha
          exact ih self1 s1 (by omega) h0
  cases file with
  | none => simp [parse] at h
  | some bytes =>
    unfold parse at h ⊢
    cases hr : readN 128 bytes with
    | none => simp [hr] at h
    | some p =>
      obtain ⟨pre, s1⟩ := p
      simp only [hr] at h ⊢
      cases hr4 : read4 s1 with
      | none => simp [hr4] at h
      | some q =>
        obtain ⟨⟨d0, d1, d2, d3⟩, s2⟩ := q
        simp only [hr4] at h ⊢
        split_ifs at h ⊢ with hm
        exact hloop _ _ _ (le_refl _) h

theorem saveTransferUID_other (self : DICOM) (temp : Attribute)
    (h : ¬(temp.tag0 = 0x0002 ∧ temp.tag1 = 0x0010)) : saveTransferUID self temp = self := by
  unfold saveTransferUID
  rw [if_neg h]

/-- The transfer syntax that `saveTransferUID` sets for an element `(0002,0010)` does not
depend on the state before. -/
theorem saveTransferUID_fresh (self : DICOM) (temp : Attribute)
    (h : temp.tag0 = 0x0002 ∧ temp.tag1 = 0x0010) :
    (saveTransferUID self temp).isImplicit = (saveTransferUID DICOM.new temp).isImplicit ∧
    (saveTransferUID self temp).isBigEndian = (saveTransferUID DICOM.new temp).isBigEndian := by
  unfold saveTransferUID
  rw [if_pos h, if_pos h]
  split_ifs <;> exact ⟨rfl, rfl⟩

theorem parseElement_ok {lib : database} {self self1 : DICOM} {s s1 : QDataStream}
    (h : parseElement lib self s = .ok (self1, s1)) :
    ∃ r x, decodeElement lib self.isImplicit s = .ok r ∧ s1 = r.rest ∧
      x = (if r.nested then self else saveSliceHeight (saveTransferUID self r.temp) r.temp) ∧
      self1 = ⟨insertSorted x.data r.temp, x.isImplicit, x.isBigEndian, x.z⟩ := by
  unfold parseElement at h
  cases hd : decodeElement lib self.isImplicit s with
  | error e => simp [hd] at h
  | ok r =>
    simp only [hd, Except.ok.injEq, Prod.mk.injEq] at h
    exact ⟨r, _, rfl, h.2.symm, rfl, h.1.symm⟩

theorem mem_insertSorted_self (data : List Attribute) (temp : Attribute) :
    temp ∈ insertSorted data temp := by
  unfold insertSorted
  simp

theorem mem_insertSorted_of_mem {data : List Attribute} {temp a : Attribute} (h : a ∈ data) :
    a ∈ insertSorted data temp := by
  unfold insertSorted
  simp only [List.mem_append, List.mem_cons]
  have := List.take_append_drop
    (if data.length ≠ 0 then binSearch data temp.tag0 temp.tag1 0 ((data.length : Int) - 1)
      else 0).toNat data
  rw [← this] at h
  rcases List.mem_append.mp h with h1 | h1
  · exact Or.inl h1
  · exact Or.inr (Or.inr h1)

/-- One iteration of the loop of `parse` keeps every element of the store and adds the
decoded one. -/
theorem parseElement_data {lib : database} {self self1 : DICOM} {s s1 : QDataStream}
    (h : parseElement lib self s = .ok (self1, s1)) :
    (∀ a ∈ self.data, a ∈ self1.data) ∧
    ∀ r, decodeElement lib self.isImplicit s = .ok r → r.temp ∈ self1.data := by
  obtain ⟨r, x, hd, -, hx, hself⟩ := parseElement_ok h
  subst hself
  constructor
  · intro a ha
    apply mem_insertSorted_of_mem
    rw [hx]
    cases hn : r.nested
    · simpa [saveSliceHeight_data, saveTransferUID_data] using ha
    · simpa using ha
  · intro r1 hd1
    rw [hd] at hd1
    cases hd1
    exact mem_insertSorted_self _ _

theorem parseLoop_data_mono (lib : database) :
    ∀ (fuel : Nat) (self : DICOM) (s : QDataStream),
      ∀ a ∈ self.data, a ∈ (parseLoop lib fuel self s).2.1.data := by
  intro fuel
  induction fuel with
  | zero => intro self s a ha; exact ha
  | succ n ih =>
    intro self s a ha
    simp only [parseLoop]
    split_ifs with hs
    · exact ha
    · cases hp : parseElement lib self s with
      | error e => exact ha
      | ok p =>
        obtain ⟨self1, s1⟩ := p
        exact ih self1 s1 a ((parseElement_data hp).1 a ha)

/-- The effect of one iteration of the loop of `parse` on the transfer syntax: it is left
as it was, or the element is a leaf `(0002,0010)` and sets it from its own value. -/
theorem parseElement_transfer {lib : database} {self self1 : DICOM} {s s1 : QDataStream}
    (h : parseElement lib self s = .ok (self1, s1)) :
    (self1.isImplicit = self.isImplicit ∧ self1.isBigEndian = self.isBigEndian) ∨
    ∃ r, decodeElement lib self.isImplicit s = .ok r ∧ r.nested = false ∧
      r.temp.tag0 = 0x0002 ∧ r.temp.tag1 = 0x0010 ∧
      self1.isImplicit = (saveTransferUID DICOM.new r.temp).isImplicit ∧
      self1.isBigEndian = (saveTransferUID DICOM.new r.temp).isBigEndian := by
  obtain ⟨r, x, hd, -, hx, hself⟩ := parseElement_ok h
  subst hself
  cases hn : r.nested with
  | true =>
    left
    rw [hn, if_pos rfl] at hx
    subst hx
    exact ⟨rfl, rfl⟩
  | false =>
    have hz := saveSliceHeight_frame (saveTransferUID self r.temp) r.temp
    rw [hn] at hx
    simp only [Bool.false_eq_true, if_false] at hx
    subst hx
    by_cases ht : r.temp.tag0 = 0x0002 ∧ r.temp.tag1 = 0x0010
    · right
      have hf := saveTransferUID_fresh self r.temp ht
      exact ⟨r, hd, hn, ht.1, ht.2, hz.1.trans hf.1, hz.2.trans hf.2⟩
    · left
      rw [saveTransferUID_other self r.temp ht] at hz ⊢
      exact hz

/-- The transfer syntax that `saveTransferUID` sets for an element `(0002,0010)`, read off
the value alone: implicit exactly for the UID `1.2.840.10008.1.2`, big endian exactly for
the UID `1.2.840.10008.1.2.2`. -/
theorem saveTransferUID_value (self : DICOM) (temp : Attribute)
    (h : temp.tag0 = 0x0002 ∧ temp.tag1 = 0x0010) :
    ((saveTransferUID self temp).isImplicit = true ↔
      cString (temp.vf.getD []) = QString.lit "1.2.840.10008.1.2") ∧
    ((saveTransferUID self temp).isBigEndian = true ↔
      cString (temp.vf.getD []) = QString.lit "1.2.840.10008.1.2.2") := by
  have n12 : QString.lit "1.2.840.10008.1.2.1" ≠ QString.lit "1.2.840.10008.1.2.2" := by
    decide
  have n13 : QString.lit "1.2.840.10008.1.2.1" ≠ QString.lit "1.2.840.10008.1.2" := by
    decide
  have n23 : QString.lit "1.2.840.10008.1.2.2" ≠ QString.lit "1.2.840.10008.1.2" := by
    decide
  unfold saveTransferUID
  rw [if_pos h]
  split_ifs with h1 h2 h3
  · rw [h1]
    exact ⟨⟨(fun x => by cases x), fun x => absurd x n13⟩,
      ⟨(fun x => by cases x), fun x => absurd x n12⟩⟩
  · rw [h2]
    exact ⟨⟨(fun x => by cases x), fun x => absurd x n23⟩, ⟨fun _ => rfl, fun _ => rfl⟩⟩
  · rw [h3]
    exact ⟨⟨fun _ => rfl, fun _ => rfl⟩,
      ⟨(fun x => by cases x), fun x => absurd x.symm n23⟩⟩
  · exact ⟨⟨(fun x => by cases x), fun x => absurd x h3⟩,
      ⟨(fun x => by cases x), fun x => absurd x h2⟩⟩

/-- The effect of one iteration of the loop of `parse` on the transfer syntax, by the
element decoded: a leaf `(0002,0010)` sets it from its own value, whatever it was before;
any other element leaves it as it was. -/
theorem parseElement_transfer_cases {lib : database} {self self1 : DICOM} {s s1 : QDataStream}
    {r : Decoded} (h : parseElement lib self s = .ok (self1, s1))
    (hd : decodeElement lib self.isImplicit s = .ok r) :
    ((r.nested = false ∧ r.temp.tag0 = 0x0002 ∧ r.temp.tag1 = 0x0010) →
      (self1.isImplicit = true ↔
        cString (r.temp.vf.getD []) = QString.lit "1.2.840.10008.1.2") ∧
      (self1.isBigEndian = true ↔
        cString (r.temp.vf.getD []) = QString.lit "1.2.840.10008.1.2.2") ∧
      self1.isImplicit = (saveTransferUID DICOM.new r.temp).isImplicit ∧
      self1.isBigEndian = (saveTransferUID DICOM.new r.temp).isBigEndian) ∧
    (¬ (r.nested = false ∧ r.temp.tag0 = 0x0002 ∧ r.temp.tag1 = 0x0010) →
      self1.isImplicit = self.isImplicit ∧ self1.isBigEndian = self.isBigEndian) := by
  obtain ⟨r1, x, hd1, -, hx, hself⟩ := parseElement_ok h
  rw [hd] at hd1
  cases hd1
  subst hself
  constructor
  · rintro ⟨hn, ht0, ht1⟩
    have hz := saveSliceHeight_frame (saveTransferUID self r.temp) r.temp
    rw [hn] at hx
    simp only [Bool.false_eq_true, if_false] at hx
    subst hx
    have hv := saveTransferUID_value self r.temp ⟨ht0, ht1⟩
    have hf := saveTransferUID_fresh self r.temp ⟨ht0, ht1⟩
    simp only []
    rw [hz.1, hz.2]
    exact ⟨hv.1, hv.2, hf.1, hf.2⟩
  · intro hne
    cases hn : r.nested with
    | true =>
      rw [hn, if_pos rfl] at hx
      subst hx
      exact ⟨rfl, rfl⟩
    | false =>
      have hz := saveSliceHeight_frame (saveTransferUID self r.temp) r.temp
      rw [hn] at hx
      simp only [Bool.false_eq_true, if_false] at hx
      subst hx
      have ht : ¬ (r.temp.tag0 = 0x0002 ∧ r.temp.tag1 = 0x0010) :=
        fun ht => hne ⟨hn, ht.1, ht.2⟩
      rw [saveTransferUID_other self r.temp ht] at hz ⊢
      exact hz

/-- The loop of `parse` leaves the transfer syntax as it was when the store it ends with
holds no element `(0002,0010)` with a value array. -/
theorem parseLoop_transfer_unchanged (lib : database) :
    ∀ (fuel : Nat) (self : DICOM) (s : QDataStream),
      (∀ a ∈ (parseLoop lib fuel self s).2.1.data,
        ¬ (a.tag0 = 0x0002 ∧ a.tag1 = 0x0010 ∧ ∃ vf, a.vf = some vf)) →
      (parseLoop lib fuel self s).2.1.isImplicit = self.isImplicit ∧
        (parseLoop lib fuel self s).2.1.isBigEndian = self.isBigEndian := by
  intro fuel
  induction fuel with
  | zero => intro self s _; exact ⟨rfl, rfl⟩
  | succ n ih =>
    intro self s
    simp only [parseLoop]
    split_ifs with hs
    · intro _; exact ⟨rfl, rfl⟩
    · cases hp : parseElement lib self s with
      | error e => intro _; exact ⟨rfl, rfl⟩
      | ok p =>
        obtain ⟨self1, s1⟩ := p
        simp only []
        intro hall
        obtain ⟨r, x, hd, -, -, -⟩ := parseElement_ok hp
        have hmem := parseLoop_data_mono lib n self1 s1 _ ((parseElement_data hp).2 r hd)
        have hnot := hall _ hmem
        have hshape := decodeElement_shape hd
        have hcase : ¬ (r.nested = false ∧ r.temp.tag0 = 0x0002 ∧ r.temp.tag1 = 0x0010) := by
          rintro ⟨hn, ht0, ht1⟩
          have hne : r.VR ≠ QString.lit "SQ" := by
            intro hsq
            rw [(hshape.1 hsq).1] at hn
            cases hn
          exact hnot ⟨ht0, ht1, (hshape.2 hne).2.2⟩
        have h1 := (parseElement_transfer_cases hp hd).2 hcase
        have h2 := ih self1 s1 hall
        exact ⟨h2.1.trans h1.1, h2.2.trans h1.2⟩

/-- C18 (as amended): an iteration of the loop of `parse` that decodes a leaf element
`(0002,0010)` sets the transfer syntax from the value of that element alone, whatever it
was before (implicit exactly for the UID `1.2.840.10008.1.2`, big endian exactly for the
UID `1.2.840.10008.1.2.2`), so a second such element sets it again; an iteration that
decodes any other element leaves it as it was.  After the loop the transfer syntax is the
one the loop started with when the store holds no element `(0002,0010)` with a value
array, and in every case it is the one the loop started with or the one that a leaf
element `(0002,0010)` of the store gives. -/
theorem transfer_syntax_changes_only_at_uid (lib : database) :
    (∀ (self self1 : DICOM) (s s1 : QDataStream) (r : Decoded),
      parseElement lib self s = .ok (self1, s1) →
      decodeElement lib self.isImplicit s = .ok r →
        ((r.nested = false ∧ r.temp.tag0 = 0x0002 ∧ r.temp.tag1 = 0x0010) →
          (self1.isImplicit = true ↔
            cString (r.temp.vf.getD []) = QString.lit "1.2.840.10008.1.2") ∧
          (self1.isBigEndian = true ↔
            cString (r.temp.vf.getD []) = QString.lit "1.2.840.10008.1.2.2") ∧
          self1.isImplicit = (saveTransferUID DICOM.new r.temp).isImplicit ∧
          self1.isBigEndian = (saveTransferUID DICOM.new r.temp).isBigEndian) ∧
        (¬ (r.nested = false ∧ r.temp.tag0 = 0x0002 ∧ r.temp.tag1 = 0x0010) →
          self1.isImplicit = self.isImplicit ∧ self1.isBigEndian = self.isBigEndian)) ∧
    (∀ (fuel : Nat) (self : DICOM) (s : QDataStream),
      (∀ a ∈ (parseLoop lib fuel self s).2.1.data,
        ¬ (a.tag0 = 0x0002 ∧ a.tag1 = 0x0010 ∧ ∃ vf, a.vf = some vf)) →
      (parseLoop lib fuel self s).2.1.isImplicit = self.isImplicit ∧
        (parseLoop lib fuel self s).2.1.isBigEndian = self.isBigEndian) ∧
    (∀ (fuel : Nat) (self : DICOM) (s : QDataStream),
      ((parseLoop lib fuel self s).2.1.isImplicit = self.isImplicit ∧
        (parseLoop lib fuel self s).2.1.isBigEndian = self.isBigEndian) ∨
      ∃ a ∈ (parseLoop lib fuel self s).2.1.data,
        a.tag0 = 0x0002 ∧ a.tag1 = 0x0010 ∧ a.seq = [] ∧ (∃ vf, a.vf = some vf) ∧
        (parseLoop lib fuel self s).2.1.isImplicit = (saveTransferUID DICOM.new a).isImplicit ∧
        (parseLoop lib fuel self s).2.1.isBigEndian =
          (saveTransferUID DICOM.new a).isBigEndian) := by
  refine ⟨fun self self1 s s1 r h hd => parseElement_transfer_cases h hd,
    parseLoop_transfer_unchanged lib, ?_⟩
  intro fuel
  induction fuel with
  | zero => intro self s; left; exact ⟨rfl, rfl⟩
  | succ n ih =>
    intro self s
    simp only [parseLoop]
    split_ifs with hs
    · left; exact ⟨rfl, rfl⟩
    · cases hp : parseElement lib self s with
      | error e => left; exact ⟨rfl, rfl⟩
      | ok p =>
        obtain ⟨self1, s1⟩ := p
        simp only []
        rcases ih self1 s1 with h1 | h1
        · rcases parseElement_transfer hp with h2 | ⟨r, hd, hn, ht0, ht1, hi, hb⟩
          · left; exact ⟨h1.1.trans h2.1, h1.2.trans h2.2⟩
          · right
            have hshape := decodeElement_shape hd
            have hne : r.VR ≠ QString.lit "SQ" := by
              intro hsq
              rw [(hshape.1 hsq).1] at hn
              cases hn
            refine ⟨r.temp, parseLoop_data_mono lib n self1 s1 _
              ((parseElement_data hp).2 r hd), ht0, ht1, (hshape.2 hne).2.1,
              (hshape.2 hne).2.2, h1.1.trans hi, h1.2.trans hb⟩
        · right; exact h1

theorem parseSequenceLoop_self (lib : database) :
    ∀ (fuel : Nat) (self : DICOM) (s : QDataStream) (att : List Attribute),
      (parseSequenceLoop lib fuel self s att).2.1 = self := by
  intro fuel
  induction fuel with
  | zero => intro self s att; rfl
  | succ n ih =>
    intro self s att
    simp only [parseSequenceLoop]
    split_ifs with hs
    · rfl
    · cases hd : decodeSequenceElement lib self.isImplicit s with
      | error e => rfl
      | ok r => exact ih self r.rest _

/-- C19: decoding a top-level element that is not a leaf `(0002,0010)` (in particular any
sequence, which is read by `readSequence` or `readDefinedSequence`) leaves `isImplicit`
and `isBigEndian` as they were, and `parseSequence` returns the object as it got it. -/
theorem transfer_syntax_frame (lib : database) (self : DICOM) (s : QDataStream) (r : Decoded)
    (hdec : decodeElement lib self.isImplicit s = .ok r)
    (hother : ¬(r.nested = false ∧ r.temp.tag0 = 0x0002 ∧ r.temp.tag1 = 0x0010)) :
    (∃ self1, parseElement lib self s = .ok (self1, r.rest) ∧
      self1.isImplicit = self.isImplicit ∧ self1.isBigEndian = self.isBigEndian) ∧
    (∀ (s1 : QDataStream) (att : List Attribute),
      (parseSequence lib self s1 att).2.1 = self) := by
  refine ⟨?_, fun s1 att => parseSequenceLoop_self lib _ self s1 att⟩
  cases hp : parseElement lib self s with
  | error e => simp [parseElement, hdec] at hp
  | ok p =>
    obtain ⟨self1, s1⟩ := p
    obtain ⟨r1, x, hd, hs1, hx, hself⟩ := parseElement_ok hp
    rw [hdec] at hd
    cases hd
    subst hs1
    refine ⟨self1, rfl, ?_⟩
    rcases parseElement_transfer hp with h | ⟨r2, hd2, hn, ht0, ht1, -, -⟩
    · exact h
    · rw [hdec] at hd2
      cases hd2
      exact absurd ⟨hn, ht0, ht1⟩ hother

/-! ## The byte patterns that the sequence readers look for -/

theorem le32_inj (a b c d a1 b1 c1 d1 : Byte) :
    le32 a b c d = le32 a1 b1 c1 d1 ↔ a = a1 ∧ b = b1 ∧ c = c1 ∧ d = d1 := by
  unfold le32
  simp only [Fin.ext_iff]
  omega

theorem right_length_le (n : Nat) (buffer : List Byte) : (right n buffer).length ≤ n := by
  unfold right
  simp only [List.length_drop]
  omega

theorem right_suffix (n : Nat) (buffer : List Byte) : right n buffer <:+ buffer :=
  List.drop_suffix _ _

theorem right_append_four (t : List Byte) (a b c d : Byte) :
    right 4 (t ++ [a, b, c, d]) = [a, b, c, d] := by
  unfold right
  simp

/-- The last four bytes of the buffer, read as an `unsigned int`, equal the value of four
given bytes (the last of them not zero) exactly when the buffer ends in these bytes. -/
theorem asUInt_right_eq (buffer : List Byte) (a b c d : Byte) (hd : d ≠ 0) :
    asUInt (right 4 buffer) = le32 a b c d ↔ [a, b, c, d] <:+ buffer := by
  constructor
  · intro h
    have hlen := right_length_le 4 buffer
    have hsuf := right_suffix 4 buffer
    generalize right 4 buffer = w at h hlen hsuf
    unfold asUInt at h
    rw [le32_inj] at h
    obtain ⟨h0, h1, h2, h3⟩ := h
    match w, hlen, h0, h1, h2, h3, hsuf with
    | [], _, _, _, _, h3, _ => exact absurd h3.symm hd
    | [_], _, _, _, _, h3, _ => exact absurd h3.symm hd
    | [_, _], _, _, _, _, h3, _ => exact absurd h3.symm hd
    | [_, _, _], _, _, _, _, h3, _ => exact absurd h3.symm hd
    | [w0, w1, w2, w3], _, h0, h1, h2, h3, hsuf =>
      simp only [List.getD_cons_zero, List.getD_cons_succ] at h0 h1 h2 h3
      subst h0 h1 h2 h3
      exact hsuf
    | _ :: _ :: _ :: _ :: _ :: _, hlen, _, _, _, _, _ => simp at hlen
  · rintro ⟨t, rfl⟩
    rw [right_append_four]
    rfl

theorem le32_undefinedLength : le32 0xFF 0xFF 0xFF 0xFF = 0xFFFFFFFF := by decide

theorem le32_itemDelimiter : le32 0xFE 0xFF 0x0D 0xE0 = 0xE00DFFFE := by decide

theorem le32_sequenceDelimiter : le32 0xFE 0xFF 0xDD 0xE0 = 0xE0DDFFFE := by decide

theorem asUInt_undefinedLength (buffer : List Byte) :
    asUInt (right 4 buffer) = 0xFFFFFFFF ↔ undefinedLength <:+ buffer := by
  rw [← le32_undefinedLength]
  exact asUInt_right_eq buffer _ _ _ _ (by decide)

theorem asUInt_itemDelimiter (buffer : List Byte) :
    asUInt (right 4 buffer) = 0xE00DFFFE ↔ itemDelimiter <:+ buffer := by
  rw [← le32_itemDelimiter]
  exact asUInt_right_eq buffer _ _ _ _ (by decide)

theorem asUInt_sequenceDelimiter (buffer : List Byte) :
    asUInt (right 4 buffer) = 0xE0DDFFFE ↔ sequenceDelimiter <:+ buffer := by
  rw [← le32_sequenceDelimiter]
  exact asUInt_right_eq buffer _ _ _ _ (by decide)

/-- A byte that completes none of the three patterns is appended to the buffer and the
loop goes on with the same depth. -/
theorem readItemBody_cons_plain (lib : database) (isImplicit : Bool) (b : Byte)
    (s buffer : List Byte) (depth : Int)
    (h1 : ¬ undefinedLength <:+ buffer ++ [b]) (h2 : ¬ itemDelimiter <:+ buffer ++ [b])
    (h3 : ¬ sequenceDelimiter <:+ buffer ++ [b]) :
    readItemBody lib isImplicit (b :: s) buffer depth =
      readItemBody lib isImplicit s (buffer ++ [b]) depth := by
  simp only [readItemBody, depthAfterMarker, asUInt_undefinedLength, asUInt_itemDelimiter,
    asUInt_sequenceDelimiter, h1, h2, h3, if_false, false_and]

/-- The byte that completes the item delimiter at depth 0 ends the loop: the delimiter is
taken off the buffer and four more bytes are read. -/
theorem readItemBody_cons_stop (lib : database) (isImplicit : Bool) (b : Byte)
    (s buffer : List Byte) (h : itemDelimiter <:+ buffer ++ [b]) :
    readItemBody lib isImplicit (b :: s) buffer 0 =
      (read4 s).map (fun p => (chop 4 (buffer ++ [b]), (0 : Int), p.2)) := by
  have h1 : ¬ undefinedLength <:+ buffer ++ [b] := by
    intro hu
    have e1 := (asUInt_undefinedLength _).mpr hu
    have e2 := (asUInt_itemDelimiter _).mpr h
    omega
  simp only [readItemBody, depthAfterMarker, asUInt_undefinedLength, asUInt_itemDelimiter,
    h1, h, if_false, and_self, if_true]
  cases read4 s <;> rfl

theorem chop_append_four (t : List Byte) (a b c d : Byte) :
    chop 4 (t ++ [a, b, c, d]) = t := by
  unfold chop
  simp

/-- The accumulation loop on a body without any of the three patterns, followed by the
item delimiter and four more bytes. -/
theorem readItemBody_plain (lib : database) (isImplicit : Bool) :
    ∀ (Q B : List Byte) (z0 z1 z2 z3 : Byte) (rest : List Byte),
      ¬ undefinedLength <:+: B ++ Q → ¬ itemDelimiter <:+: B ++ Q →
      ¬ sequenceDelimiter <:+: B ++ Q →
      readItemBody lib isImplicit (Q ++ itemDelimiter ++ [z0, z1, z2, z3] ++ rest) B 0 =
        some (B ++ Q, 0, rest) := by
  intro Q
  induction Q with
  | nil =>
    intro B z0 z1 z2 z3 rest h1 h2 h3
    simp only [List.append_nil] at h1 h2 h3
    have hstream : [] ++ itemDelimiter ++ [z0, z1, z2, z3] ++ rest =
        0xFE :: 0xFF :: 0x0D :: 0xE0 :: z0 :: z1 :: z2 :: z3 :: rest := rfl
    rw [hstream]
    have n1 : ∀ pat : List Byte, pat.length = 4 → pat.getLast? ≠ some 0xFE →
        ¬ pat <:+ B ++ [0xFE] := by
      intro pat hl hlast hs
      rw [← List.reverse_prefix] at hs
      match pat, hl with
      | [p0, p1, p2, p3], _ =>
        simp at hs hlast
        exact hlast hs.1
    have n2 : ∀ pat : List Byte, pat.length = 4 → pat.getLast? ≠ some 0xFF ∨
        (pat.dropLast).getLast? ≠ some 0xFE → ¬ pat <:+ B ++ [0xFE] ++ [0xFF] := by
      intro pat hl hlast hs
      rw [← List.reverse_prefix] at hs
      match pat, hl with
      | [p0, p1, p2, p3], _ =>
        simp at hs hlast
        rcases hlast with h | h
        · exact h hs.1
        · exact h hs.2.1
    have n3 : ∀ pat : List Byte, pat.length = 4 → pat.getLast? ≠ some 0x0D →
        ¬ pat <:+ B ++ [0xFE] ++ [0xFF] ++ [0x0D] := by
      intro pat hl hlast hs
      rw [← List.reverse_prefix] at hs
      match pat, hl with
      | [p0, p1, p2, p3], _ =>
        simp at hs hlast
        exact hlast hs.1
    rw [readItemBody_cons_plain lib isImplicit _ _ _ _
        (n1 _ rfl (by decide)) (n1 _ rfl (by decide)) (n1 _ rfl (by decide)),
      readItemBody_cons_plain lib isImplicit _ _ _ _
        (n2 _ rfl (by decide)) (n2 _ rfl (by decide)) (n2 _ rfl (by decide)),
      readItemBody_cons_plain lib isImplicit _ _ _ _
        (n3 _ rfl (by decide)) (n3 _ rfl (by decide)) (n3 _ rfl (by decide)),
      readItemBody_cons_stop lib isImplicit _ _ _ ⟨B, by simp [itemDelimiter]⟩]
    have hb : B ++ [0xFE] ++ [0xFF] ++ [0x0D] ++ [0xE0] = B ++ [0xFE, 0xFF, 0x0D, 0xE0] := by
      simp
    rw [hb, chop_append_four, read4_cons]
    simp
  | cons q Q ih =>
    intro B z0 z1 z2 z3 rest h1 h2 h3
    have hpre : B ++ [q] <+: B ++ q :: Q := ⟨Q, by simp⟩
    have hn : ∀ pat : List Byte, ¬ pat <:+: B ++ q :: Q → ¬ pat <:+ B ++ [q] :=
      fun pat h hs => h (hs.isInfix.trans hpre.isInfix)
    have hstream : q :: Q ++ itemDelimiter ++ [z0, z1, z2, z3] ++ rest =
        q :: (Q ++ itemDelimiter ++ [z0, z1, z2, z3] ++ rest) := by simp
    have hB : B ++ q :: Q = B ++ [q] ++ Q := by simp
    rw [hstream, readItemBody_cons_plain lib isImplicit q _ B 0 (hn _ h1) (hn _ h2) (hn _ h3),
      ih (B ++ [q]) z0 z1 z2 z3 rest (hB ▸ h1) (hB ▸ h2) (hB ▸ h3), hB]

/-- C14: an item of undefined length whose body `P` holds none of the patterns
`FF FF FF FF`, `FE FF 0D E0`, `FE FF DD E0` and is followed by the item delimiter and four
more bytes is read as one `SequenceItem` with the bytes `P` and `vl` the length of `P`;
`len(P) + 8` bytes are consumed after the item header.  This holds for the accumulation
loop and for the iteration of `readSequence` and of `readDefinedSequence` that reads the
item. -/
theorem undefined_length_item (lib : database) (isImplicit : Bool) (P : List Byte)
    (z0 z1 z2 z3 : Byte) (rest : List Byte)
    (h1 : ¬ undefinedLength <:+: P) (h2 : ¬ itemDelimiter <:+: P)
    (h3 : ¬ sequenceDelimiter <:+: P) :
    readItemBody lib isImplicit (P ++ itemDelimiter ++ [z0, z1, z2, z3] ++ rest) [] 0 =
      some (P, 0, rest) ∧
    (∀ (t0 t1 t2 t3 : Byte) (fuel : Nat) (items : List SequenceItem),
      le32 t0 t1 t2 t3 ≠ 0xE0DDFFFE →
      readSequenceLoop lib isImplicit (fuel + 1)
          (t0 :: t1 :: t2 :: t3 :: 0xFF :: 0xFF :: 0xFF :: 0xFF ::
            (P ++ itemDelimiter ++ [z0, z1, z2, z3] ++ rest)) items =
        readSequenceLoop lib isImplicit fuel rest (items ++ [{ vl := P.length, vf := P }])) ∧
    (∀ (t0 t1 t2 t3 : Byte) (fuel n : Nat) (items : List SequenceItem), 0 < n →
      readDefinedSequenceLoop lib isImplicit (fuel + 1)
          (t0 :: t1 :: t2 :: t3 :: 0xFF :: 0xFF :: 0xFF :: 0xFF ::
            (P ++ itemDelimiter ++ [z0, z1, z2, z3] ++ rest)) items n 0 =
        readDefinedSequenceLoop lib isImplicit fuel rest
          (items ++ [{ vl := P.length, vf := P }]) (subULong (subULong n 8) P.length) 0) := by
  have hbody := readItemBody_plain lib isImplicit P [] z0 z1 z2 z3 rest
    (by simpa using h1) (by simpa using h2) (by simpa using h3)
  simp only [List.nil_append] at hbody
  refine ⟨hbody, ?_, ?_⟩
  · intro t0 t1 t2 t3 fuel items ht
    simp only [readSequenceLoop, read4_cons, ht, if_false, le32_undefinedLength, ne_eq,
      not_true_eq_false, hbody]
  · intro t0 t1 t2 t3 fuel n items hn
    simp only [readDefinedSequenceLoop, read4_cons, hn, if_true, le32_undefinedLength, ne_eq,
      not_true_eq_false, if_false, hbody, gt_iff_lt]

theorem wireItems_length_cons (it : WireItem) (its : List WireItem) :
    (wireItems (it :: its)).length = 8 + it.payload.length + (wireItems its).length := by
  simp only [wireItems, WireItem.bytes, List.length_append, List.length_cons]
  omega

/-- The loop of `readSequence` on a series of items of defined length followed by the
sequence delimiter and four more bytes, for every bound that is at least the number of
bytes of the series and the delimiter. -/
theorem readSequenceLoop_items (lib : database) (isImplicit : Bool) :
    ∀ (its : List WireItem) (fuel : Nat) (items : List SequenceItem) (z0 z1 z2 z3 : Byte)
      (rest : List Byte),
      (∀ it ∈ its, le32 it.tag.1 it.tag.2.1 it.tag.2.2.1 it.tag.2.2.2 ≠ 0xE0DDFFFE ∧
        le32 it.len.1 it.len.2.1 it.len.2.2.1 it.len.2.2.2 < 2147483648 ∧
        it.payload.length = le32 it.len.1 it.len.2.1 it.len.2.2.1 it.len.2.2.2) →
      (wireItems its).length + 8 ≤ fuel →
      readSequenceLoop lib isImplicit fuel
          (wireItems its ++ sequenceDelimiter ++ [z0, z1, z2, z3] ++ rest) items =
        some (items ++ its.map WireItem.item, rest) := by
  intro its
  induction its with
  | nil =>
    intro fuel items z0 z1 z2 z3 rest _ hf
    obtain ⟨k, rfl⟩ : ∃ k, fuel = k + 1 := ⟨fuel - 1, by omega⟩
    have hstream : wireItems [] ++ sequenceDelimiter ++ [z0, z1, z2, z3] ++ rest =
        0xFE :: 0xFF :: 0xDD :: 0xE0 :: z0 :: z1 :: z2 :: z3 :: rest := rfl
    rw [hstream]
    simp only [readSequenceLoop, read4_cons, le32_sequenceDelimiter, if_true, List.map_nil,
      List.append_nil]
  | cons it its ih =>
    intro fuel items z0 z1 z2 z3 rest hall hf
    have hit := hall it (List.mem_cons_self _ _)
    have hlen := wireItems_length_cons it its
    obtain ⟨k, rfl⟩ : ∃ k, fuel = k + 1 := ⟨fuel - 1, by omega⟩
    have hstream : wireItems (it :: its) ++ sequenceDelimiter ++ [z0, z1, z2, z3] ++ rest =
        it.tag.1 :: it.tag.2.1 :: it.tag.2.2.1 :: it.tag.2.2.2 ::
          it.len.1 :: it.len.2.1 :: it.len.2.2.1 :: it.len.2.2.2 ::
            (it.payload ++ (wireItems its ++ sequenceDelimiter ++ [z0, z1, z2, z3] ++ rest)) := by
      simp [wireItems, WireItem.bytes]
    have hne : le32 it.len.1 it.len.2.1 it.len.2.2.1 it.len.2.2.2 ≠ 0xFFFFFFFF := by omega
    have hlt : ¬ le32 it.len.1 it.len.2.1 it.len.2.2.1 it.len.2.2.2 ≥ 2147483648 := by omega
    have hread : readN (le32 it.len.1 it.len.2.1 it.len.2.2.1 it.len.2.2.2)
        (it.payload ++ (wireItems its ++ sequenceDelimiter ++ [z0, z1, z2, z3] ++ rest)) =
        some (it.payload, wireItems its ++ sequenceDelimiter ++ [z0, z1, z2, z3] ++ rest) := by
      rw [← hit.2.2]; exact readN_append _ _
    rw [hstream]
    simp only [readSequenceLoop, read4_cons, hit.1, if_false, hne, ne_eq, not_false_eq_true,
      if_true, hlt, hread]
    rw [ih k _ z0 z1 z2 z3 rest (fun x hx => hall x (List.mem_cons_of_mem _ hx)) (by omega)]
    simp [WireItem.item]

/-- C13: on a stream of `k ≥ 0` items of defined length (any tag but the sequence
delimiter, a length below `2^31`, and as many value bytes) followed by the sequence
delimiter `FE FF DD E0` and four more bytes, `readSequence` succeeds, appends exactly
these items in their order to the items of the attribute, and stops right behind the four
bytes that follow the delimiter. -/
theorem readSequence_defined_items (lib : database) (isImplicit : Bool) (its : List WireItem)
    (z0 z1 z2 z3 : Byte) (rest : List Byte) (att : Attribute)
    (hall : ∀ it ∈ its, le32 it.tag.1 it.tag.2.1 it.tag.2.2.1 it.tag.2.2.2 ≠ 0xE0DDFFFE ∧
      le32 it.len.1 it.len.2.1 it.len.2.2.1 it.len.2.2.2 < 2147483648 ∧
      it.payload.length = le32 it.len.1 it.len.2.1 it.len.2.2.1 it.len.2.2.2) :
    readSequence lib isImplicit
        (wireItems its ++ sequenceDelimiter ++ [z0, z1, z2, z3] ++ rest) att =
      some ({ att with seq := att.seq ++ its.map WireItem.item }, rest) ∧
    (wireItems its ++ sequenceDelimiter ++ [z0, z1, z2, z3] ++ rest).length =
      (its.map (fun it => 8 + it.payload.length)).sum + 8 + rest.length := by
  constructor
  · unfold readSequence
    rw [readSequenceLoop_items lib isImplicit its _ att.seq z0 z1 z2 z3 rest hall
      (by simp [sequenceDelimiter])]
  · have hsum : ∀ l : List WireItem,
        (wireItems l).length = (l.map (fun it => 8 + it.payload.length)).sum := by
      intro l
      induction l with
      | nil => rfl
      | cons x l ih => rw [wireItems_length_cons, List.map_cons, List.sum_cons, ih]
    simp only [List.length_append, hsum, sequenceDelimiter, List.length_cons, List.length_nil]

/-! ## Claims on values of `INT_MAX` bytes and more -/

/-- On a file with 128 preamble bytes and `DICM`, `parse` is the element loop on the bytes
that follow, bounded by their number. -/
theorem parse_valid_header (lib : database) (self : DICOM) (pre s : List Byte)
    (hpre : pre.length = 128) :
    parse lib self (some (pre ++ asciiBytes "DICM" ++ s)) = parseLoop lib s.length self s := by
  have hfile : pre ++ asciiBytes "DICM" ++ s = pre ++ (68 :: 73 :: 67 :: 77 :: s) := by
    rw [asciiBytes_DICM]; simp
  have hr : readN 128 (pre ++ (68 :: 73 :: 67 :: 77 :: s)) =
      some (pre, 68 :: 73 :: 67 :: 77 :: s) := by
    rw [← hpre]; exact readN_append pre _
  have hmagic : [(68 : Byte).val, (73 : Byte).val, (67 : Byte).val, (77 : Byte).val] =
      QString.lit "DICM" := by decide
  rw [hfile]
  simp only [parse, hr, read4_cons, hmagic, ne_eq, not_true_eq_false, if_false]

/-- The header of an element in explicit encoding whose VR has a 4-byte length. -/
theorem decodeElement_explicit_long (lib : database) (t0 t1 t2 t3 b0 b1 b2 b3 n0 n1 n2 n3 : Byte)
    (s : QDataStream)
    (hdelim : ¬(le16 t0 t1 = 0xFFFE ∧ (le16 t2 t3 = 0xE0DD ∨ le16 t2 t3 = 0xE00D)))
    (hext : QString.ofBytes2 b0 b1 ∈ lib.implicitVR) :
    decodeElement lib false
        (t0 :: t1 :: t2 :: t3 :: b0 :: b1 :: b2 :: b3 :: n0 :: n1 :: n2 :: n3 :: s) =
      readBody lib false
        { tag0 := le16 t0 t1, tag1 := le16 t2 t3,
          desc := if (lib.closest (le16 t0 t1) (le16 t2 t3)).tag0 = le16 t0 t1 ∧
                     (lib.closest (le16 t0 t1) (le16 t2 t3)).tag1 = le16 t2 t3
                  then (lib.closest (le16 t0 t1) (le16 t2 t3)).title
                  else QString.lit "Unknown Tag",
          vl := le32 n0 n1 n2 n3, vf := none, seq := [] }
        (QString.ofBytes2 b0 b1) s := by
  simp only [decodeElement, read4_cons, hdelim, if_false, readHeader, selectVR, Bool.not_false,
    true_or, if_true, hext, and_self]

/-- The read of a value of `size` bytes with `INT_MAX ≤ size < 2 * INT_MAX` takes one chunk
of `INT_MAX` bytes and leaves the other `size - INT_MAX` bytes in the stream. -/
theorem readValue_one_chunk (size : Nat) (s : QDataStream) (h1 : INT_MAX ≤ size)
    (h2 : size < 2 * INT_MAX) (hs : INT_MAX ≤ s.length) :
    readValue size s = .ok (s.take INT_MAX, s.drop INT_MAX) := by
  have hdiv : size / INT_MAX = 1 := by unfold INT_MAX at *; omega
  have hpos : 0 < size := by unfold INT_MAX at h1; omega
  have hread : readN INT_MAX s = some (s.take INT_MAX, s.drop INT_MAX) := by
    unfold readN
    rw [if_neg (by omega)]
  unfold readValue
  rw [if_neg (by omega), if_pos hpos, hdiv]
  simp only [readChunks, hread, List.append_nil]

theorem readBody_leaf (lib : database) (isImplicit : Bool) (temp : Attribute) (VR : QString)
    (s s1 : QDataStream) (vf : List Byte) (hsq : VR ≠ QString.lit "SQ")
    (hv : readValue temp.vl s = .ok (vf, s1)) :
    readBody lib isImplicit temp VR s =
      .ok { temp := { temp with vf := some vf }, VR := VR, nested := false, rest := s1 } := by
  unfold readBody
  rw [if_neg (fun h => hsq h.1), if_neg hsq, hv]

theorem parseLoop_one_byte (lib : database) (fuel : Nat) (self : DICOM) (b : Byte) :
    parseLoop lib (fuel + 1) self [b] = (201, self, [b]) := by
  simp [parseLoop, parseElement, decodeElement, read4]

theorem bigValue_read : readValue 2147483648 (List.replicate 2147483648 (0 : Byte)) =
    .ok (List.replicate 2147483647 0, [0]) := by
  have hmin : min 2147483647 2147483648 = 2147483647 := by omega
  have hsub : 2147483648 - 2147483647 = 1 := by omega
  rw [readValue_one_chunk 2147483648 (List.replicate 2147483648 (0 : Byte))
    (by unfold INT_MAX; omega) (by unfold INT_MAX; omega)
    (by rw [List.length_replicate]; unfold INT_MAX; omega)]
  simp only [INT_MAX, List.take_replicate, List.drop_replicate, hmin, hsub,
    List.replicate_one]

theorem bigValue_header : decodeElement sampleLib false bigValueElement =
    readBody sampleLib false
      { tag0 := 0x7FE0, tag1 := 0x0010, desc := QString.lit "Unknown Tag",
        vl := 2147483648, vf := none, seq := [] }
      (QString.lit "OB") (List.replicate 2147483648 0) := by
  have hlen : le32 0 0 0 0x80 = 2147483648 := by decide
  have h0 : le16 0xE0 0x7F = 0x7FE0 := by decide
  have h1 : le16 0x10 0x00 = 0x0010 := by decide
  have hc : (if (sampleLib.closest 0x7FE0 0x0010).tag0 = 0x7FE0 ∧
      (sampleLib.closest 0x7FE0 0x0010).tag1 = 0x0010
      then (sampleLib.closest 0x7FE0 0x0010).title else QString.lit "Unknown Tag") =
      QString.lit "Unknown Tag" := by decide
  have hv : QString.ofBytes2 79 66 = QString.lit "OB" := by decide
  unfold bigValueElement
  rw [decodeElement_explicit_long sampleLib 0xE0 0x7F 0x10 0x00 79 66 0 0 0 0 0 0x80
    (List.replicate 2147483648 0) (by decide) (by decide), hlen, h0, h1, hc, hv]

theorem bigValue_decode : decodeElement sampleLib false bigValueElement =
    .ok { temp := { tag0 := 0x7FE0, tag1 := 0x0010, desc := QString.lit "Unknown Tag",
                    vl := 2147483648, vf := some (List.replicate 2147483647 0), seq := [] },
          VR := QString.lit "OB", nested := false, rest := [0] } := by
  rw [bigValue_header]
  exact readBody_leaf sampleLib false _ (QString.lit "OB") _ _ _ (by decide) bigValue_read

theorem bigValue_ne : bigValueElement ≠ [] := by
  unfold bigValueElement
  exact List.cons_ne_nil _ _

theorem parseElement_of_decode {lib : database} {self : DICOM} {s : QDataStream}
    {r : Decoded} (h : decodeElement lib self.isImplicit s = .ok r) :
    ∃ self1, parseElement lib self s = .ok (self1, r.rest) := by
  unfold parseElement
  rw [h]
  exact ⟨_, rfl⟩

theorem bigValue_decode_new : decodeElement sampleLib DICOM.new.isImplicit bigValueElement =
    .ok { temp := { tag0 := 0x7FE0, tag1 := 0x0010, desc := QString.lit "Unknown Tag",
                    vl := 2147483648, vf := some (List.replicate 2147483647 0), seq := [] },
          VR := QString.lit "OB", nested := false, rest := [0] } := by
  rw [show DICOM.new.isImplicit = false from rfl]
  exact bigValue_decode

theorem bigValue_parse : (parse sampleLib DICOM.new (some bigValueFile)).1 = 201 := by
  obtain ⟨self1, h⟩ := parseElement_of_decode bigValue_decode_new
  unfold bigValueFile preamble
  rw [parse_valid_header sampleLib DICOM.new _ _ (List.length_replicate 128 0), parseLoop_eq,
    if_neg bigValue_ne, h]
  exact congrArg Prod.fst (parseLoop_one_byte sampleLib 0 self1 0)

/-- C11 (fails on the code): `bigValueElement` has the length `2^31 = INT_MAX + 1` and as
many value bytes.  The chunked read takes `size / INT_MAX = 1` chunk of `INT_MAX` bytes and
never reads the remaining `size % INT_MAX = 1` byte: the element is stored with
`vl = 2^31` and `INT_MAX` value bytes read, the last value byte stays in the stream, and
`parse` then returns 201 on this well-formed file. -/
theorem chunked_read_drops_remainder :
    decodeElement sampleLib false bigValueElement =
      .ok { temp := { tag0 := 0x7FE0, tag1 := 0x0010, desc := QString.lit "Unknown Tag",
                      vl := 2147483648, vf := some (List.replicate 2147483647 0), seq := [] },
            VR := QString.lit "OB", nested := false, rest := [0] } ∧
    (parse sampleLib DICOM.new (some bigValueFile)).1 = 201 :=
  ⟨bigValue_decode, bigValue_parse⟩

/-! ## The claims on example files, continued -/

theorem readSequence_defined_items_witness :
    readSequence sampleLib false
        (wireItems [{ tag := (0xFE, 0xFF, 0x00, 0xE0), len := (2, 0, 0, 0), payload := [1, 2] }]
          ++ sequenceDelimiter ++ [0, 0, 0, 0] ++ [7]) emptyAttribute =
      some ({ emptyAttribute with seq := emptyAttribute.seq ++
        [{ tag := (0xFE, 0xFF, 0x00, 0xE0), len := (2, 0, 0, 0),
           payload := [1, 2] }].map WireItem.item }, [7]) :=
  (readSequence_defined_items sampleLib false
    [{ tag := (0xFE, 0xFF, 0x00, 0xE0), len := (2, 0, 0, 0), payload := [1, 2] }]
    0 0 0 0 [7] emptyAttribute
    (by intro it hit; simp only [List.mem_singleton] at hit; subst hit; decide)).1

theorem undefined_length_item_witness :
    ¬ undefinedLength <:+: [1, 2, 3] ∧ ¬ itemDelimiter <:+: [1, 2, 3] ∧
    ¬ sequenceDelimiter <:+: [1, 2, 3] ∧
    readItemBody sampleLib false ([1, 2, 3] ++ itemDelimiter ++ [0, 0, 0, 0] ++ [7]) [] 0 =
      some ([1, 2, 3], 0, [7]) :=
  ⟨by decide, by decide, by decide,
    (undefined_length_item sampleLib false [1, 2, 3] 0 0 0 0 [7] (by decide) (by decide)
      (by decide)).1⟩

/-- C15 (fails on the code): `nestedSequenceStream` holds one item of undefined length with
a nested sequence of undefined length in explicit encoding (header `S`, `Q`, `00 00`,
`FF FF FF FF`).  The loop compares the four bytes before the marker, read as an `unsigned
int`, with `0x00005351`, the value of the bytes `Q`, `S`, `00`, `00`: at the header `S`,
`Q` it leaves the depth at 0, so the item ends at the delimiter bytes inside the inner
item, after 20 of its 32 bytes, and `readSequence` then fails (`parse` returns 208). -/
theorem nested_sequence_cut_at_inner_delimiter :
    depthAfterMarker sampleLib false (nestedSequenceBody.take 12) 0 = 0 ∧
    readItemBody sampleLib false
        (nestedSequenceBody ++ itemDelimiter ++ [0, 0, 0, 0] ++ sequenceDelimiter ++
          [0, 0, 0, 0]) [] 0 =
      some (nestedSequenceBody.take 20, 0,
        [0, 0, 0, 0] ++ itemDelimiter ++ [0, 0, 0, 0] ++ sequenceDelimiter ++ [0, 0, 0, 0]) ∧
    readSequence sampleLib false nestedSequenceStream emptyAttribute = none ∧
    (parse sampleLib DICOM.new (some nestedSequenceFile)).1 = 208 := by
  decide

/-- C16 (fails on the code): `definedSequenceValue` has 24 bytes: one item of undefined
length with a body of 8 bytes.  `readDefinedSequence` with `n = 24` takes 8 off `n` for the
item header and 8 for the body, but nothing for the 8 bytes of the item delimiter and its
length, so `n` is 8 when the value is read; it goes on, reads the element that follows as
an item header, and returns success with 32 bytes consumed and two items.  In
`definedSequenceFile`, `parse` returns 0 and the element `(7FE0,0000)` is missing. -/
theorem defined_sequence_reads_past_its_length :
    definedSequenceValue.length = 24 ∧
    readDefinedSequence sampleLib true (definedSequenceValue ++ emptyElement) emptyAttribute 24 =
      some ({ emptyAttribute with
              seq := [{ vl := 8, vf := [0x10, 0x00, 0x20, 0x00, 0, 0, 0, 0] },
                      { vl := 0, vf := [] }] }, []) ∧
    (parse sampleLib DICOM.new (some definedSequenceFile)).1 = 0 ∧
    (parse sampleLib DICOM.new (some definedSequenceFile)).2.1.data.map
        (fun a => (a.tag0, a.tag1)) = [(0x3006, 0x0039), (0x0002, 0x0010)] := by
  decide

/-- C18 (fails on the code): `twoSyntaxFile` holds two elements `(0002,0010)`.  The first
sets the transfer syntax to implicit VR little endian, the second sets it again, back to
the initial explicit VR little endian: the state is modified twice in one run. -/
theorem transfer_syntax_set_twice :
    (parse sampleLib DICOM.new (some (preamble ++ implicitSyntaxElement))).1 = 0 ∧
    (parse sampleLib DICOM.new (some (preamble ++ implicitSyntaxElement))).2.1.isImplicit =
      true ∧
    parseElement sampleLib
        (parse sampleLib DICOM.new (some (preamble ++ implicitSyntaxElement))).2.1
        explicitSyntaxElement =
      .ok ((parse sampleLib DICOM.new (some twoSyntaxFile)).2.1, []) ∧
    (parse sampleLib DICOM.new (some twoSyntaxFile)).1 = 0 ∧
    (parse sampleLib DICOM.new (some twoSyntaxFile)).2.1.isImplicit = false ∧
    (parse sampleLib DICOM.new (some twoSyntaxFile)).2.1.isBigEndian = false :=
  ⟨by decide, by decide, rfl, by decide, by decide, by decide⟩

theorem transfer_syntax_frame_witness :
    ∃ self1, parseElement sampleLib DICOM.new charsetElement = .ok (self1, []) ∧
      self1.isImplicit = false ∧ self1.isBigEndian = false :=
  (transfer_syntax_frame sampleLib DICOM.new charsetElement
    { temp := { tag0 := 0x0008, tag1 := 0x0005,
                desc := QString.lit "Specific Character Set", vl := 10,
                vf := some (asciiBytes "ISO_IR 100"), seq := [] },
      VR := QString.lit "CS", nested := false, rest := [] } rfl (by decide)).1

theorem parse_success_consumes_all_witness :
    (parse sampleLib DICOM.new (some twoElementFile)).1 = 0 ∧
    (parse sampleLib DICOM.new (some twoElementFile)).2.2 = [] :=
  ⟨by decide, parse_success_consumes_all sampleLib DICOM.new (some twoElementFile)
    (by decide)⟩

/-! ## Claims on the range of `binSearch` -/

theorem tdiv_two_lt (a b : Int) (h0 : 0 ≤ a) (h : a < b) : (b + a).tdiv 2 < b := by
  rw [Int.tdiv_eq_ediv (by omega) (by decide)]
  omega

theorem binSearchAux_range (data : List Attribute) (one two : Nat) :
    ∀ (fuel : Nat) (min max : Int), 0 ≤ min →
      min ≤ binSearchAux data one two fuel min max ∧
        binSearchAux data one two fuel min max ≤ Max.max min max := by
  intro fuel
  induction fuel with
  | zero => intro min max _; simp [binSearchAux]
  | succ n ih =>
    intro min max h0
    simp only [binSearchAux]
    by_cases hmm : min ≥ max
    · simp [hmm]
    · have hb := tdiv_two_bounds min max (by omega)
      have hlt := tdiv_two_lt min max h0 (by omega)
      have e1 := ih min ((max + min).tdiv 2 - 1) h0
      have e2 := ih ((max + min).tdiv 2 + 1) max (by omega)
      have m1 : Max.max min ((max + min).tdiv 2 - 1) ≤ max := by
        rw [max_le_iff]; omega
      have m2 : Max.max ((max + min).tdiv 2 + 1) max ≤ max := by
        rw [max_le_iff]; omega
      have m3 : max ≤ Max.max min max := le_max_right _ _
      rw [if_neg hmm]
      split_ifs <;> omega

theorem binSearchReads_range (data : List Attribute) (one two : Nat) :
    ∀ (fuel : Nat) (min max : Int), 0 ≤ min →
      ∀ i ∈ binSearchReads data one two fuel min max, min ≤ i ∧ i < max := by
  intro fuel
  induction fuel with
  | zero => intro min max _ i hi; simp [binSearchReads] at hi
  | succ n ih =>
    intro min max h0 i hi
    simp only [binSearchReads] at hi
    by_cases hmm : min ≥ max
    · simp [hmm] at hi
    · have hb := tdiv_two_bounds min max (by omega)
      have hlt := tdiv_two_lt min max h0 (by omega)
      rw [if_neg hmm] at hi
      simp only [List.mem_cons] at hi
      rcases hi with hi | hi
      · omega
      · split_ifs at hi
        · have := ih min _ h0 i hi; omega
        · have := ih _ max (by omega) i hi; omega
        · have := ih min _ h0 i hi; omega
        · have := ih _ max (by omega) i hi; omega
        · simp at hi

/-- C27: on a non-empty store of size `s`, for every key, `binSearch(group, element, 0, s-1)`
needs at most `s-1` nested calls, reads `data[mid]` only at indices `0 ≤ mid ≤ s-1`, and
returns an index between `0` and `s-1`, never `s`; so the insertion of `parse` (lines
474-478) never puts the new element behind the last element of the store: the last
element stays the last one. -/
theorem binSearch_stays_in_store (data : List Attribute) (hne : data ≠ []) :
    (∀ one two : Nat,
      (∀ fuel : Nat, data.length - 1 ≤ fuel →
        binSearchAux data one two fuel 0 ((data.length : Int) - 1) =
          binSearch data one two 0 ((data.length : Int) - 1)) ∧
      (∀ i ∈ binSearchReads data one two (data.length - 1) 0 ((data.length : Int) - 1),
        0 ≤ i ∧ i ≤ (data.length : Int) - 1) ∧
      0 ≤ binSearch data one two 0 ((data.length : Int) - 1) ∧
      binSearch data one two 0 ((data.length : Int) - 1) ≤ (data.length : Int) - 1 ∧
      binSearch data one two 0 ((data.length : Int) - 1) ≠ (data.length : Int)) ∧
    (∀ temp : Attribute, (insertSorted data temp).getLast? = data.getLast?) := by
  have hpos : 0 < data.length := List.length_pos.mpr hne
  have hmax : Max.max (0 : Int) ((data.length : Int) - 1) = (data.length : Int) - 1 :=
    max_eq_right (by omega)
  have hr : ∀ one two : Nat, 0 ≤ binSearch data one two 0 ((data.length : Int) - 1) ∧
      binSearch data one two 0 ((data.length : Int) - 1) ≤ (data.length : Int) - 1 := by
    intro one two
    have h := binSearchAux_range data one two (((data.length : Int) - 1) - 0).toNat 0
      ((data.length : Int) - 1) (le_refl _)
    rw [hmax] at h
    exact h
  constructor
  · intro one two
    refine ⟨?_, ?_, (hr one two).1, (hr one two).2, ?_⟩
    · intro fuel hf
      unfold binSearch
      exact binSearchAux_fuel data one two fuel 0 _ (by omega)
    · intro i hi
      have := binSearchReads_range data one two _ 0 _ (le_refl _) i hi
      omega
    · have := (hr one two).2
      omega
  · intro temp
    unfold insertSorted
    have hne0 : data.length ≠ 0 := by omega
    simp only [hne0, ne_eq, not_false_eq_true, if_true]
    have hi : (binSearch data temp.tag0 temp.tag1 0 ((data.length : Int) - 1)).toNat <
        data.length := by
      have h1 := (hr temp.tag0 temp.tag1).1
      have h2 := (hr temp.tag0 temp.tag1).2
      omega
    rw [List.getLast?_append_of_ne_nil _ (List.cons_ne_nil _ _), List.getLast?_cons,
      List.getLast?_drop, if_neg (by omega), List.getLast?_eq_getLast _ hne, Option.getD_some]

theorem binSearch_stays_in_store_witness :
    sampleStore ≠ [] ∧
    binSearch sampleStore 0x7FE0 0x0010 0 ((sampleStore.length : Int) - 1) ≤
      (sampleStore.length : Int) - 1 ∧
    (insertSorted sampleStore
      { tag0 := 0x7FE0, tag1 := 0x0010, desc := [], vl := 0, vf := some [],
        seq := [] }).getLast? = sampleStore.getLast? :=
  ⟨by decide, ((binSearch_stays_in_store sampleStore (by decide)).1 0x7FE0 0x0010).2.2.2.1,
    (binSearch_stays_in_store sampleStore (by decide)).2 _⟩

/-! ## Claims on the depth counter of the sequence readers -/

theorem readItemBody_depth (lib : database) (isImplicit : Bool) :
    ∀ (s buffer : List Byte) (depth : Int) (b : List Byte) (d : Int) (s1 : QDataStream),
      readItemBody lib isImplicit s buffer depth = some (b, d, s1) → d = 0 := by
  intro s
  induction s with
  | nil => intro buffer depth b d s1 h; simp [readItemBody] at h
  | cons x s ih =>
    intro buffer depth b d s1 h
    simp only [readItemBody] at h
    split_ifs at h with h1 h2
    · cases h4 : read4 s with
      | none => simp [h4] at h
      | some p =>
        obtain ⟨dd, s2⟩ := p
        simp only [h4, Option.some.injEq, Prod.mk.injEq] at h
        rw [← h.2.1]
        exact h1.2
    · exact ih _ _ _ _ _ h
    · exact ih _ _ _ _ _ h

theorem readDefinedSequenceDepths_zero (lib : database) (isImplicit : Bool) :
    ∀ (fuel : Nat) (s : QDataStream) (n : Nat),
      ∀ d ∈ readDefinedSequenceDepths lib isImplicit fuel s n 0, d = 0 := by
  intro fuel
  induction fuel with
  | zero => intro s n d hd; simp [readDefinedSequenceDepths] at hd
  | succ k ih =>
    intro s n d hd
    simp only [readDefinedSequenceDepths] at hd
    split_ifs at hd with h0
    · cases ha : read4 s with
      | none => simp [ha] at hd
      | some p =>
        obtain ⟨dd, sa⟩ := p
        simp only [ha] at hd
        cases hb : read4 sa with
        | none => simp [hb] at hd
        | some q =>
          obtain ⟨⟨z0, z1, z2, z3⟩, sb⟩ := q
          simp only [hb] at hd
          split_ifs at hd with h2 h3
          · simp at hd
          · cases hc : readN (le32 z0 z1 z2 z3) sb with
            | none => simp [hc] at hd
            | some r =>
              obtain ⟨dat, sc⟩ := r
              simp only [hc] at hd
              exact ih _ _ d hd
          · simp only [List.mem_cons] at hd
            rcases hd with hd | hd
            · exact hd
            · cases hc : readItemBody lib isImplicit sb [] 0 with
              | none => simp [hc] at hd
              | some r =>
                obtain ⟨buffer, d1, sc⟩ := r
                simp only [hc] at hd
                have hz := readItemBody_depth lib isImplicit _ _ _ _ _ _ hc
                subst hz
                exact ih _ _ d hd
    · simp at hd

/-- C28: in `readDefinedSequence` the counter `depth` is set once (line 637) and handed
from item to item, and it is 0 each time the loop that accumulates the bytes of an item of
undefined length is entered.  So at an item header with the length `FF FF FF FF` (for
`readSequence`: with a tag that is not the sequence delimiter; for `readDefinedSequence`:
with `n > 0`) both readers run the same accumulation from the same state: when it yields
the buffer `buffer` and the stream `s3`, both append the item `(buffer.size(), buffer)` and
go on at `s3`, `readDefinedSequence` again with `depth = 0`. -/
theorem readDefinedSequence_depth_zero (lib : database) (isImplicit : Bool) (fuel : Nat)
    (t0 t1 t2 t3 z0 z1 z2 z3 : Byte) (s2 s3 : QDataStream) (items itemsD : List SequenceItem)
    (n : Nat) (buffer : List Byte) (d : Int)
    (ht : le32 t0 t1 t2 t3 ≠ 0xE0DDFFFE) (hz : le32 z0 z1 z2 z3 = 0xFFFFFFFF) (hn : 0 < n)
    (hb : readItemBody lib isImplicit s2 [] 0 = some (buffer, d, s3)) :
    (∀ (k : Nat) (s : QDataStream) (m : Nat),
      ∀ x ∈ readDefinedSequenceDepths lib isImplicit k s m 0, x = 0) ∧
    d = 0 ∧
    readSequenceLoop lib isImplicit (fuel + 1)
        (t0 :: t1 :: t2 :: t3 :: z0 :: z1 :: z2 :: z3 :: s2) items =
      readSequenceLoop lib isImplicit fuel s3 (items ++ [⟨buffer.length, buffer⟩]) ∧
    readDefinedSequenceLoop lib isImplicit (fuel + 1)
        (t0 :: t1 :: t2 :: t3 :: z0 :: z1 :: z2 :: z3 :: s2) itemsD n 0 =
      readDefinedSequenceLoop lib isImplicit fuel s3 (itemsD ++ [⟨buffer.length, buffer⟩])
        (subULong (subULong n 8) buffer.length) 0 := by
  have hd := readItemBody_depth lib isImplicit _ _ _ _ _ _ hb
  refine ⟨readDefinedSequenceDepths_zero lib isImplicit, hd, ?_, ?_⟩
  · simp only [readSequenceLoop, read4_cons]
    rw [if_neg ht, if_neg (by rw [hz]; simp), hb]
  · subst hd
    simp only [readDefinedSequenceLoop, read4_cons]
    rw [if_pos hn, if_neg (by rw [hz]; simp), hb]

/-- The trace `itemBodyDepths` follows the loop of `readItemBody`: when the loop yields an
item, the trace has one entry for each byte read before the four bytes behind the
delimiter, and its last entry is the depth 0 at which the loop is left. -/
theorem itemBodyDepths_of_readItemBody (lib : database) (isImplicit : Bool) :
    ∀ (s buffer : List Byte) (depth : Int) (b : List Byte) (d : Int) (s1 : QDataStream),
      readItemBody lib isImplicit s buffer depth = some (b, d, s1) →
        (itemBodyDepths lib isImplicit s buffer depth).length + 4 + s1.length = s.length ∧
        (itemBodyDepths lib isImplicit s buffer depth).getLast? = some 0 := by
  intro s
  induction s with
  | nil => intro buffer depth b d s1 h; simp [readItemBody] at h
  | cons x s ih =>
    intro buffer depth b d s1 h
    rw [readItemBody] at h
    rw [itemBodyDepths]
    split_ifs at h ⊢ with h1 h2
    · cases h4 : read4 s with
      | none => simp [h4] at h
      | some p =>
        obtain ⟨dd, s2⟩ := p
        simp only [h4, Option.some.injEq, Prod.mk.injEq] at h
        have hl := read4_length h4
        rw [← h.2.2]
        constructor
        · simp only [List.length_cons, List.length_nil]; omega
        · simp only [List.getLast?_singleton, h1.2]
    · obtain ⟨i1, i2⟩ := ih _ _ _ _ _ h
      constructor
      · simp only [List.length_cons]; omega
      · rw [List.getLast?_cons, i2]; rfl
    · obtain ⟨i1, i2⟩ := ih _ _ _ _ _ h
      constructor
      · simp only [List.length_cons]; omega
      · rw [List.getLast?_cons, i2]; rfl

theorem readDefinedSequence_depth_zero_witness :
    le32 0xFE 0xFF 0x00 0xE0 ≠ 0xE0DDFFFE ∧ le32 0xFF 0xFF 0xFF 0xFF = 0xFFFFFFFF ∧
    readItemBody sampleLib true ([1, 2] ++ itemDelimiter ++ [0, 0, 0, 0] ++ [7]) [] 0 =
      some ([1, 2], 0, [7]) ∧
    readDefinedSequenceLoop sampleLib true 1
        (0xFE :: 0xFF :: 0x00 :: 0xE0 :: 0xFF :: 0xFF :: 0xFF :: 0xFF ::
          ([1, 2] ++ itemDelimiter ++ [0, 0, 0, 0] ++ [7])) [] 10 0 =
      readDefinedSequenceLoop sampleLib true 0 [7] ([] ++ [⟨2, [1, 2]⟩])
        (subULong (subULong 10 8) 2) 0 :=
  ⟨by decide, by decide, by decide,
    (readDefinedSequence_depth_zero sampleLib true 0 0xFE 0xFF 0x00 0xE0 0xFF 0xFF 0xFF 0xFF
      ([1, 2] ++ itemDelimiter ++ [0, 0, 0, 0] ++ [7]) [7] [] [] 10 [1, 2] 0
      (by decide) (by decide) (by decide) (by decide)).2.2.2⟩

theorem readItemBody_sequenceDelimiter (lib : database) (isImplicit : Bool) (s : QDataStream) :
    readItemBody lib isImplicit (0xFE :: 0xFF :: 0xDD :: 0xE0 :: s) [] 0 =
      readItemBody lib isImplicit s sequenceDelimiter (-1) := by
  have e1 : depthAfterMarker lib isImplicit [0xFE] 0 = 0 := by
    unfold depthAfterMarker; rw [if_neg (by decide)]
  have e2 : depthAfterMarker lib isImplicit [0xFE, 0xFF] 0 = 0 := by
    unfold depthAfterMarker; rw [if_neg (by decide)]
  have e3 : depthAfterMarker lib isImplicit [0xFE, 0xFF, 0xDD] 0 = 0 := by
    unfold depthAfterMarker; rw [if_neg (by decide)]
  have e4 : depthAfterMarker lib isImplicit [0xFE, 0xFF, 0xDD, 0xE0] 0 = 0 := by
    unfold depthAfterMarker; rw [if_neg (by decide)]
  rw [readItemBody]
  simp only [List.nil_append, e1]
  rw [if_neg (by decide), if_neg (by decide), readItemBody]
  simp only [List.cons_append, List.nil_append, e2]
  rw [if_neg (by decide), if_neg (by decide), readItemBody]
  simp only [List.cons_append, List.nil_append, e3]
  rw [if_neg (by decide), if_neg (by decide), readItemBody]
  simp only [List.cons_append, List.nil_append, e4]
  rw [if_neg (by decide), if_pos (by decide)]
  rfl

/-- C26 (fails on the code): the loop decrements `depth` at every occurrence of the bytes
`FE FF DD E0`, whatever its value (lines 621-622 and 759-760).  After the four bytes
`FE FF DD E0` at the start of an item the loop goes on with `depth = -1`, for every
dictionary and encoding.  In `explicitNestedFile`, a file in explicit encoding with a
nested sequence of undefined length, the header `SQ 00 00 FF FF FF FF` does not raise the
depth (the constant `0x00005351` does not match it), so the depth is -1 from the nested
sequence delimiter on (byte 34 of the 38 bytes of the item body) and -2 from the delimiter
of the outer sequence on; the item delimiter in between is not taken as the end of the
item, both readers fail, and `parse` returns 208. -/
theorem depth_negative_at_sequence_delimiter :
    (∀ (lib : database) (isImplicit : Bool) (s : QDataStream),
      readItemBody lib isImplicit (0xFE :: 0xFF :: 0xDD :: 0xE0 :: s) [] 0 =
        readItemBody lib isImplicit s sequenceDelimiter (-1)) ∧
    itemBodyDepths sampleLib false
        (explicitNestedBody ++ itemDelimiter ++ [0, 0, 0, 0] ++ sequenceDelimiter ++
          [0, 0, 0, 0]) [] 0 =
      List.replicate 33 0 ++ List.replicate 16 (-1) ++ List.replicate 5 (-2) ∧
    readSequence sampleLib false (explicitNestedItem ++ sequenceDelimiter ++ [0, 0, 0, 0])
      emptyAttribute = none ∧
    explicitNestedItem.length = 54 ∧
    readDefinedSequence sampleLib false explicitNestedItem emptyAttribute 54 = none ∧
    (parse sampleLib DICOM.new (some explicitNestedFile)).1 = 208 :=
  ⟨readItemBody_sequenceDelimiter, by decide, by decide, by decide, by decide, by decide⟩

/-! ## Claims on `parseSequence` and on tags that occur twice -/

theorem mem_insertSortedAtt {att : List Attribute} {temp a : Attribute}
    (h : a ∈ insertSortedAtt att temp) : a = temp ∨ a ∈ att := by
  unfold insertSortedAtt at h
  simp only [List.mem_append, List.mem_cons] at h
  rcases h with h | h | h
  · exact Or.inr (List.mem_of_mem_take h)
  · exact Or.inl h
  · exact Or.inr (List.mem_of_mem_drop h)

theorem readSequenceBody_vl {lib : database} {isImplicit : Bool} {temp temp1 : Attribute}
    {VR : QString} {s s1 : QDataStream} {nested : Bool}
    (h : readSequenceBody lib isImplicit temp VR s = some (temp1, nested, s1)) :
    temp1.vl = temp.vl := by
  unfold readSequenceBody at h
  split_ifs at h with h1 h2
  · unfold readSequence at h
    cases ha : readSequenceLoop lib isImplicit s.length s temp.seq with
    | none => simp [ha] at h
    | some p =>
      obtain ⟨items, sa⟩ := p
      simp only [ha, Option.some.injEq, Prod.mk.injEq] at h
      rw [← h.1]
  · unfold readDefinedSequence at h
    cases ha : readDefinedSequenceLoop lib isImplicit s.length s temp.seq temp.vl 0 with
    | none => simp [ha] at h
    | some p =>
      obtain ⟨items, sa⟩ := p
      simp only [ha, Option.some.injEq, Prod.mk.injEq] at h
      rw [← h.1]
  · simp only [Option.some.injEq, Prod.mk.injEq] at h
    rw [← h.1]

/-- The length that `parseSequence` stores for an element: the length of its header, with
`0xFFFFFFFF` replaced by 0 (lines 899-901). -/
theorem decodeSequenceElement_vl {lib : database} {isImplicit : Bool} {t0 t1 t2 t3 : Byte}
    {s1 s2 : QDataStream} {VR : QString} {vl : Nat} {r : Decoded}
    (hh : readSequenceHeader lib isImplicit (le16 t0 t1) (le16 t2 t3) s1 = some (VR, vl, s2))
    (h : decodeSequenceElement lib isImplicit (t0 :: t1 :: t2 :: t3 :: s1) = .ok r) :
    r.temp.vl = if vl = 0xFFFFFFFF then 0 else vl := by
  unfold decodeSequenceElement at h
  simp only [read4_cons, hh] at h
  cases hb : readSequenceBody lib isImplicit
      { tag0 := le16 t0 t1, tag1 := le16 t2 t3, desc := [], vl := vl, vf := none,
        seq := [] } VR s2 with
  | none => simp [hb] at h
  | some p =>
    obtain ⟨temp1, nested, s3⟩ := p
    have hv := readSequenceBody_vl hb
    simp only [hb] at h
    simp only [] at hv
    cases nested with
    | true =>
      simp only [if_true, Except.ok.injEq] at h
      subst h
      simp only [hv]
    | false =>
      simp only [Bool.false_eq_true, if_false] at h
      cases hc : readValue (if temp1.vl = 0xFFFFFFFF then 0 else temp1.vl) s3 with
      | error e => simp [hc] at h
      | ok q =>
        obtain ⟨vf, s4⟩ := q
        simp only [hc, Except.ok.injEq] at h
        subst h
        simp only [hv]

theorem decodeSequenceElement_defined {lib : database} {isImplicit : Bool} {s : QDataStream}
    {r : Decoded} (h : decodeSequenceElement lib isImplicit s = .ok r) :
    r.temp.vl ≠ 0xFFFFFFFF := by
  cases ha : read4 s with
  | none => simp [decodeSequenceElement, ha] at h
  | some p =>
    obtain ⟨⟨t0, t1, t2, t3⟩, s1⟩ := p
    have hs := read4_some ha
    simp only [] at hs
    subst hs
    cases hh : readSequenceHeader lib isImplicit (le16 t0 t1) (le16 t2 t3) s1 with
    | none => simp [decodeSequenceElement, read4_cons, hh] at h
    | some q =>
      obtain ⟨VR, vl, s2⟩ := q
      rw [decodeSequenceElement_vl hh h]
      split_ifs with hv
      · decide
      · exact hv

theorem parseSequenceLoop_result (lib : database) :
    ∀ (fuel : Nat) (self : DICOM) (s : QDataStream) (att : List Attribute),
      (∀ a ∈ (parseSequenceLoop lib fuel self s att).2.2.1,
        a ∈ att ∨ a.vl ≠ 0xFFFFFFFF) ∧
      (s.length ≤ fuel → (parseSequenceLoop lib fuel self s att).2.2.2 = [] →
        (parseSequenceLoop lib fuel self s att).1 =
          (parseSequenceLoop lib fuel self s att).2.2.1.length) := by
  intro fuel
  induction fuel with
  | zero =>
    intro self s att
    exact ⟨fun a ha => Or.inl ha, fun _ _ => rfl⟩
  | succ n ih =>
    intro self s att
    simp only [parseSequenceLoop]
    split_ifs with hs
    · exact ⟨fun a ha => Or.inl ha, fun _ _ => rfl⟩
    · cases ha : decodeSequenceElement lib self.isImplicit s with
      | error e =>
        simp only []
        exact ⟨fun a ha => Or.inl ha, fun _ h => absurd h hs⟩
      | ok r =>
        simp only []
        have hl := decodeSequenceElement_length ha
        obtain ⟨i1, i2⟩ := ih self r.rest (insertSortedAtt att r.temp)
        refine ⟨?_, ?_⟩
        · intro a hmem
          rcases i1 a hmem with h1 | h1
          · rcases mem_insertSortedAtt h1 with h2 | h2
            · right; rw [h2]; exact decodeSequenceElement_defined ha
            · left; exact h2
          · right; exact h1
        · intro hf
          exact i2 (by omega)

/-- C23: every element that `parseSequence` adds to the list `*att` has a length other than
`0xFFFFFFFF`; an element whose header gives the length `0xFFFFFFFF` is stored with the
length 0, also when it was read as a sequence; and when the loop ends at the end of the
input (nothing is left unread) the return value is the size of the list. -/
theorem parseSequence_stores_defined_length (lib : database) (self : DICOM) (s : QDataStream)
    (att : List Attribute) :
    (∀ a ∈ (parseSequence lib self s att).2.2.1, a ∈ att ∨ a.vl ≠ 0xFFFFFFFF) ∧
    (∀ (t0 t1 t2 t3 : Byte) (s1 s2 : QDataStream) (VR : QString) (r : Decoded),
      readSequenceHeader lib self.isImplicit (le16 t0 t1) (le16 t2 t3) s1 =
          some (VR, 0xFFFFFFFF, s2) →
        decodeSequenceElement lib self.isImplicit (t0 :: t1 :: t2 :: t3 :: s1) = .ok r →
          r.temp.vl = 0) ∧
    ((parseSequence lib self s att).2.2.2 = [] →
      (parseSequence lib self s att).1 = (parseSequence lib self s att).2.2.1.length) := by
  refine ⟨(parseSequenceLoop_result lib _ self s att).1, ?_,
    (parseSequenceLoop_result lib _ self s att).2 (le_refl _)⟩
  intro t0 t1 t2 t3 s1 s2 VR r hh h
  rw [decodeSequenceElement_vl hh h, if_pos rfl]

theorem insertSorted_perm (data : List Attribute) (temp : Attribute) :
    (insertSorted data temp).Perm (temp :: data) := by
  unfold insertSorted
  simp only []
  refine List.perm_middle.trans ?_
  rw [List.take_append_drop]

/-- C22 (as amended): every element that `parse` decodes adds one element to the store,
whether or not the store holds an element with the same tag already: the store afterwards
is a rearrangement of the new element and the elements held before.  So the tags of the
store are pairwise distinct afterwards exactly when they were before and the new tag was
not among them. -/
theorem parseElement_adds_one_element (lib : database) (self self1 : DICOM)
    (s s1 : QDataStream) (h : parseElement lib self s = .ok (self1, s1)) :
    ∃ r, decodeElement lib self.isImplicit s = .ok r ∧
      self1.data.Perm (r.temp :: self.data) ∧
      self1.data.length = self.data.length + 1 ∧
      ((self1.data.map tagOf).Nodup ↔
        tagOf r.temp ∉ self.data.map tagOf ∧ (self.data.map tagOf).Nodup) := by
  unfold parseElement at h
  cases ha : decodeElement lib self.isImplicit s with
  | error e => simp [ha] at h
  | ok r =>
    simp only [ha, Except.ok.injEq, Prod.mk.injEq] at h
    obtain ⟨h1, _⟩ := h
    have hd : self1.data = insertSorted self.data r.temp := by
      rw [← h1]
      cases r.nested <;> simp [saveSliceHeight_data, saveTransferUID_data]
    have hp : self1.data.Perm (r.temp :: self.data) := by
      rw [hd]; exact insertSorted_perm _ _
    refine ⟨r, rfl, hp, ?_, ?_⟩
    · rw [hp.length_eq]; rfl
    · rw [(hp.map tagOf).nodup_iff, List.map_cons, List.nodup_cons]

/-- What `decodeElement` does behind the tag: the header, then the value. -/
theorem decodeElement_cons_ok {lib : database} {isImplicit : Bool} {t0 t1 t2 t3 : Byte}
    {s1 : QDataStream} {r : Decoded}
    (h : decodeElement lib isImplicit (t0 :: t1 :: t2 :: t3 :: s1) = .ok r) :
    ∃ VR vl s2,
      readHeader lib isImplicit (le16 t0 t1) (le16 t2 t3)
        (if (lib.closest (le16 t0 t1) (le16 t2 t3)).tag0 = le16 t0 t1 ∧
            (lib.closest (le16 t0 t1) (le16 t2 t3)).tag1 = le16 t2 t3
          then (lib.closest (le16 t0 t1) (le16 t2 t3)).title
          else QString.lit "Unknown Tag") s1 = .ok (VR, vl, s2) ∧
      readBody lib isImplicit
        { tag0 := le16 t0 t1, tag1 := le16 t2 t3,
          desc := (if (lib.closest (le16 t0 t1) (le16 t2 t3)).tag0 = le16 t0 t1 ∧
            (lib.closest (le16 t0 t1) (le16 t2 t3)).tag1 = le16 t2 t3
          then (lib.closest (le16 t0 t1) (le16 t2 t3)).title
          else QString.lit "Unknown Tag"), vl := vl, vf := none, seq := [] } VR s2 = .ok r := by
  simp only [decodeElement, read4_cons] at h
  by_cases hd : le16 t0 t1 = 0xFFFE ∧ (le16 t2 t3 = 0xE0DD ∨ le16 t2 t3 = 0xE00D)
  · rw [if_pos hd] at h
    cases h
  · rw [if_neg hd] at h
    generalize (if (lib.closest (le16 t0 t1) (le16 t2 t3)).tag0 = le16 t0 t1 ∧
            (lib.closest (le16 t0 t1) (le16 t2 t3)).tag1 = le16 t2 t3
          then (lib.closest (le16 t0 t1) (le16 t2 t3)).title
          else QString.lit "Unknown Tag") = desc at h ⊢
    cases hb : readHeader lib isImplicit (le16 t0 t1) (le16 t2 t3) desc s1 with
    | error e => rw [hb] at h; cases h
    | ok q =>
      obtain ⟨VR, vl, s2⟩ := q
      rw [hb] at h
      exact ⟨VR, vl, s2, rfl, h⟩

theorem readSequenceHeader_of_readHeader {lib : database} {isImplicit : Bool}
    {tag0 tag1 : Nat} {desc : QString} {b0 b1 b2 b3 : Byte} {rest s2 : QDataStream}
    {VR : QString} {vl : Nat}
    (hc : (isImplicit = false ∧
          (QString.ofBytes2 b0 b1 ∈ lib.validVR ∨
            QString.ofBytes2 b0 b1 ∈ lib.implicitVR)) ∨
        (isImplicit = true ∧ tag0 = 0x0002 ∧ QString.ofBytes2 b0 b1 ∈ lib.validVR ∧
          QString.ofBytes2 b0 b1 ∉ lib.implicitVR) ∨
        (isImplicit = true ∧ tag0 ≠ 0x0002 ∧ desc ≠ QString.lit "Unknown Tag"))
    (h : readHeader lib isImplicit tag0 tag1 desc (b0 :: b1 :: b2 :: b3 :: rest) =
      .ok (VR, vl, s2)) :
    readSequenceHeader lib isImplicit tag0 tag1 (b0 :: b1 :: b2 :: b3 :: rest) =
      some (VR, vl, s2) := by
  rcases hc with ⟨hi, hv⟩ | ⟨hi, ht, hv, hn⟩ | ⟨hi, ht, hd⟩
  · subst hi
    simp only [readHeader, selectVR, read4_cons, Bool.not_false, true_or, if_true,
      and_true] at h
    simp only [readSequenceHeader, read4_cons, Bool.not_false, true_or, if_true,
      Bool.false_eq_true, and_false, false_or, false_and, if_false]
    by_cases hx : QString.ofBytes2 b0 b1 ∈ lib.implicitVR
    · rw [if_pos hx] at h
      rw [if_pos hx]
      cases hr : read4 rest with
      | none => rw [hr] at h; cases h
      | some p =>
        obtain ⟨⟨e0, e1, e2, e3⟩, s3⟩ := p
        rw [hr] at h
        simp only [Except.ok.injEq] at h
        simp only [h]
    · rw [if_neg hx] at h
      rw [if_neg hx]
      have hv1 : QString.ofBytes2 b0 b1 ∈ lib.validVR := by
        rcases hv with hv | hv
        · exact hv
        · exact absurd hv hx
      simp only [Except.ok.injEq] at h
      rw [if_pos hv1]
      simp only [h]
  · subst hi
    subst ht
    simp only [readHeader, selectVR, read4_cons, Bool.not_true, or_true, if_true,
      and_false, if_false, Bool.false_eq_true] at h
    simp only [readSequenceHeader, read4_cons, Bool.not_true, or_true, if_true,
      ne_eq, not_true_eq_false, false_and, false_or, and_false, if_false, hn, hv]
    simp only [Except.ok.injEq] at h
    simp only [h]
  · subst hi
    have hsel : selectVR lib true tag0 tag1 desc (b0, b1, b2, b3) =
        ((lib.closest tag0 tag1).vr, false) := by
      simp only [selectVR, Bool.not_true, Bool.false_eq_true, false_or, ht, if_false, hd,
        and_false]
    simp only [readHeader, read4_cons, hsel, Bool.not_true, Bool.false_eq_true, and_false,
      if_false, Except.ok.injEq] at h
    simp only [readSequenceHeader, Bool.not_true, Bool.false_eq_true, false_or, ht, if_false,
      ne_eq, not_false_eq_true, and_self, true_or, if_true, read4_cons]
    simp only [h]

/-- The value of an element as `parseSequence` reads it (lines 844-937), from the value as
`parse` reads it (lines 290-326), for an element that is a sequence or has a length other
than `0xFFFFFFFF`. -/
theorem decodeSequenceElement_of_readBody {lib : database} {isImplicit : Bool}
    {t0 t1 t2 t3 : Byte} {s1 s2 : QDataStream} {VR desc : QString} {vl : Nat} {r : Decoded}
    (hdesc : desc = if (lib.closest (le16 t0 t1) (le16 t2 t3)).tag0 = le16 t0 t1 ∧
            (lib.closest (le16 t0 t1) (le16 t2 t3)).tag1 = le16 t2 t3
          then (lib.closest (le16 t0 t1) (le16 t2 t3)).title
          else QString.lit "Unknown Tag")
    (hh : readSequenceHeader lib isImplicit (le16 t0 t1) (le16 t2 t3) s1 = some (VR, vl, s2))
    (hb : readBody lib isImplicit
        { tag0 := le16 t0 t1, tag1 := le16 t2 t3, desc := desc, vl := vl, vf := none,
          seq := [] } VR s2 = .ok r)
    (hv : r.nested = true ∨ r.temp.vl ≠ 0xFFFFFFFF) :
    decodeSequenceElement lib isImplicit (t0 :: t1 :: t2 :: t3 :: s1) =
      .ok { r with temp :=
        { r.temp with vl := if r.temp.vl = 0xFFFFFFFF then 0 else r.temp.vl } } := by
  have hok := readBody_ok hb
  simp only [decodeSequenceElement, read4_cons, hh]
  unfold readBody at hb
  unfold readSequenceBody
  by_cases h1 : VR = QString.lit "SQ" ∧ vl = 0xFFFFFFFF
  · rw [if_pos h1] at hb
    rw [if_pos h1]
    unfold readSequence at hb ⊢
    simp only [] at hb ⊢
    cases hl : readSequenceLoop lib isImplicit s2.length s2 [] with
    | none => rw [hl] at hb; cases hb
    | some p =>
      obtain ⟨items, s3⟩ := p
      rw [hl] at hb
      simp only [Except.ok.injEq] at hb
      subst hb
      simp only [if_true, ← hdesc]
  · rw [if_neg h1] at hb
    rw [if_neg h1]
    by_cases h2 : VR = QString.lit "SQ"
    · rw [if_pos h2] at hb
      rw [if_pos h2]
      unfold readDefinedSequence at hb ⊢
      simp only [] at hb ⊢
      cases hl : readDefinedSequenceLoop lib isImplicit s2.length s2 [] vl 0 with
      | none => rw [hl] at hb; cases hb
      | some p =>
        obtain ⟨items, s3⟩ := p
        rw [hl] at hb
        simp only [Except.ok.injEq] at hb
        subst hb
        simp only [if_true, ← hdesc]
    · rw [if_neg h2] at hb
      rw [if_neg h2]
      simp only [] at hb ⊢
      cases hl : readValue vl s2 with
      | error e => rw [hl] at hb; cases hb
      | ok p =>
        obtain ⟨vf, s3⟩ := p
        rw [hl] at hb
        simp only [Except.ok.injEq] at hb
        subst hb
        simp only [Bool.false_eq_true, false_or, ne_eq] at hv
        simp only [Bool.false_eq_true, if_false, hv, hl, ← hdesc]

/-- C24 (as amended): in explicit encoding when the two VR bytes are in `validVR` or in
`implicitVR`, in group `0002` under implicit encoding when they are in `validVR` and not
in `implicitVR`, and under implicit encoding outside group `0002` when the description
found for the tag is not `Unknown Tag`: an element that `parse` decodes, and that is a
sequence or has a length other than `0xFFFFFFFF`, is decoded by `parseSequence` with the
same tag, the same header (same VR, same length on the wire, same number of header bytes),
the same flag `nested`, the same value and the same unread rest; the stored length is the
one of `parse` with `0xFFFFFFFF` replaced by 0. -/
theorem parseSequence_frames_like_parse (lib : database) (isImplicit : Bool)
    (t0 t1 t2 t3 b0 b1 b2 b3 : Byte) (rest : QDataStream) (r : Decoded)
    (hc : (isImplicit = false ∧
          (QString.ofBytes2 b0 b1 ∈ lib.validVR ∨
            QString.ofBytes2 b0 b1 ∈ lib.implicitVR)) ∨
        (isImplicit = true ∧ le16 t0 t1 = 0x0002 ∧ QString.ofBytes2 b0 b1 ∈ lib.validVR ∧
          QString.ofBytes2 b0 b1 ∉ lib.implicitVR) ∨
        (isImplicit = true ∧ le16 t0 t1 ≠ 0x0002 ∧
          (if (lib.closest (le16 t0 t1) (le16 t2 t3)).tag0 = le16 t0 t1 ∧
              (lib.closest (le16 t0 t1) (le16 t2 t3)).tag1 = le16 t2 t3
            then (lib.closest (le16 t0 t1) (le16 t2 t3)).title
            else QString.lit "Unknown Tag") ≠ QString.lit "Unknown Tag"))
    (h : decodeElement lib isImplicit (t0 :: t1 :: t2 :: t3 :: b0 :: b1 :: b2 :: b3 :: rest) =
      .ok r)
    (hv : r.nested = true ∨ r.temp.vl ≠ 0xFFFFFFFF) :
    (∃ s2,
      readHeader lib isImplicit (le16 t0 t1) (le16 t2 t3) r.temp.desc
        (b0 :: b1 :: b2 :: b3 :: rest) = .ok (r.VR, r.temp.vl, s2) ∧
      readSequenceHeader lib isImplicit (le16 t0 t1) (le16 t2 t3)
        (b0 :: b1 :: b2 :: b3 :: rest) = some (r.VR, r.temp.vl, s2)) ∧
    r.temp.tag0 = le16 t0 t1 ∧ r.temp.tag1 = le16 t2 t3 ∧
    decodeSequenceElement lib isImplicit
        (t0 :: t1 :: t2 :: t3 :: b0 :: b1 :: b2 :: b3 :: rest) =
      .ok { r with temp :=
        { r.temp with vl := if r.temp.vl = 0xFFFFFFFF then 0 else r.temp.vl } } := by
  obtain ⟨VR, vl, s2, hh, hb⟩ := decodeElement_cons_ok h
  have hs := readSequenceHeader_of_readHeader hc hh
  obtain ⟨e1, e2, e3, e4, e5, -⟩ := readBody_ok hb
  simp only [] at e2 e3 e4 e5
  refine ⟨⟨s2, ?_, ?_⟩, e2, e3, decodeSequenceElement_of_readBody rfl hs hb hv⟩
  · rw [e1, e4, e5]; exact hh
  · rw [e1, e5]; exact hs

/-- C24 (fails on the code): `privateSequenceElement` holds the tag `(0009,1001)`, which the
dictionary does not hold, with the length `FF FF FF FF`, in implicit encoding; the lookup
returns the entry `(0010,0010)` of the table, with the VR `PN`.  `parse` takes the element
for a sequence of undefined length (lines 234-236) and reads up to the sequence delimiter;
`parseSequence` has no such case: it takes the VR `PN` of the entry the lookup returns,
stores the length 0 and reads no value, so the eight bytes of the delimiter are left as
the next element. -/
theorem parseSequence_reads_private_sequence_as_leaf :
    (sampleLib.closest 0x0009 0x1001 ∈ sampleLib.lib ∧
      (sampleLib.closest 0x0009 0x1001).tag0 = 0x0010 ∧
      (sampleLib.closest 0x0009 0x1001).tag1 = 0x0010 ∧
      (sampleLib.closest 0x0009 0x1001).vr = QString.lit "PN") ∧
    decodeElement sampleLib true privateSequenceElement =
      .ok { temp := { tag0 := 0x0009, tag1 := 0x1001, desc := QString.lit "Unknown Tag",
                      vl := 0xFFFFFFFF, vf := none, seq := [] },
            VR := QString.lit "SQ", nested := true, rest := [] } ∧
    decodeSequenceElement sampleLib true privateSequenceElement =
      .ok { temp := { tag0 := 0x0009, tag1 := 0x1001, desc := QString.lit "Unknown Tag",
                      vl := 0, vf := some [], seq := [] },
            VR := QString.lit "PN", nested := false,
            rest := sequenceDelimiter ++ [0, 0, 0, 0] } :=
  ⟨by decide, rfl, rfl⟩

theorem parseSequence_frames_like_parse_witness :
    decodeElement sampleLib true
        (0x10 :: 0x00 :: 0x10 :: 0x00 :: 6 :: 0 :: 0 :: 0 :: (asciiBytes "Doe^J" ++ [0])) =
      .ok { temp := { tag0 := 0x0010, tag1 := 0x0010, desc := QString.lit "Patient Name",
                      vl := 6, vf := some (asciiBytes "Doe^J" ++ [0]), seq := [] },
            VR := QString.lit "PN", nested := false, rest := [] } ∧
    decodeSequenceElement sampleLib true
        (0x10 :: 0x00 :: 0x10 :: 0x00 :: 6 :: 0 :: 0 :: 0 :: (asciiBytes "Doe^J" ++ [0])) =
      .ok { temp := { tag0 := 0x0010, tag1 := 0x0010, desc := QString.lit "Patient Name",
                      vl := 6, vf := some (asciiBytes "Doe^J" ++ [0]), seq := [] },
            VR := QString.lit "PN", nested := false, rest := [] } :=
  ⟨rfl,
    (parseSequence_frames_like_parse sampleLib true 0x10 0x00 0x10 0x00 6 0 0 0
      (asciiBytes "Doe^J" ++ [0])
      { temp := { tag0 := 0x0010, tag1 := 0x0010, desc := QString.lit "Patient Name",
                  vl := 6, vf := some (asciiBytes "Doe^J" ++ [0]), seq := [] },
        VR := QString.lit "PN", nested := false, rest := [] }
      (Or.inr (Or.inr ⟨rfl, by decide, by decide⟩)) (by rfl) (Or.inr (by decide))).2.2.2⟩

/-- C22 (fails on the code): `twoSyntaxFile` holds two elements with the tag `(0002,0010)`.
`parse` returns 0 and the store holds both of them: `data.insert(i, temp)` (line 478) adds
an element whatever the store holds at index `i`. -/
theorem store_holds_tag_twice :
    (parse sampleLib DICOM.new (some twoSyntaxFile)).1 = 0 ∧
    (parse sampleLib DICOM.new (some twoSyntaxFile)).2.1.data.map tagOf =
      [(0x0002, 0x0010), (0x0002, 0x0010)] ∧
    ¬ ((parse sampleLib DICOM.new (some twoSyntaxFile)).2.1.data.map tagOf).Nodup := by
  decide

theorem parseElement_adds_one_element_witness :
    ∃ r, decodeElement sampleLib
          (parse sampleLib DICOM.new (some (preamble ++ implicitSyntaxElement))).2.1.isImplicit
          explicitSyntaxElement = .ok r ∧
      (parse sampleLib DICOM.new (some twoSyntaxFile)).2.1.data.Perm
        (r.temp :: (parse sampleLib DICOM.new
          (some (preamble ++ implicitSyntaxElement))).2.1.data) ∧
      (parse sampleLib DICOM.new (some twoSyntaxFile)).2.1.data.length =
        (parse sampleLib DICOM.new
          (some (preamble ++ implicitSyntaxElement))).2.1.data.length + 1 ∧
      (((parse sampleLib DICOM.new (some twoSyntaxFile)).2.1.data.map tagOf).Nodup ↔
        tagOf r.temp ∉ (parse sampleLib DICOM.new
            (some (preamble ++ implicitSyntaxElement))).2.1.data.map tagOf ∧
          ((parse sampleLib DICOM.new
            (some (preamble ++ implicitSyntaxElement))).2.1.data.map tagOf).Nodup) :=
  parseElement_adds_one_element sampleLib
    (parse sampleLib DICOM.new (some (preamble ++ implicitSyntaxElement))).2.1
    (parse sampleLib DICOM.new (some twoSyntaxFile)).2.1 explicitSyntaxElement [] rfl

/-! ## The depth counter at a nested sequence in implicit encoding -/

theorem suffix_snoc_one {a b c d x : Byte} {B : List Byte} (h : [a, b, c, d] <:+ B ++ [x]) :
    d = x := by
  rw [← List.reverse_prefix] at h
  simp at h
  exact h.1

theorem suffix_snoc_two {a b c d x y : Byte} {B : List Byte}
    (h : [a, b, c, d] <:+ B ++ [x, y]) : c = x ∧ d = y := by
  rw [← List.reverse_prefix] at h
  simp at h
  exact ⟨h.2.1, h.1⟩

theorem suffix_snoc_three {a b c d x y z : Byte} {B : List Byte}
    (h : [a, b, c, d] <:+ B ++ [x, y, z]) : b = x ∧ c = y ∧ d = z := by
  rw [← List.reverse_prefix] at h
  simp at h
  exact ⟨h.2.2.1, h.2.1, h.1⟩

theorem suffix_snoc_four {a b c d w x y z : Byte} {B : List Byte}
    (h : [a, b, c, d] <:+ B ++ [w, x, y, z]) : a = w ∧ b = x ∧ c = y ∧ d = z := by
  rw [← List.reverse_prefix] at h
  simp at h
  exact ⟨h.2.2.2, h.2.2.1, h.2.1, h.1⟩

theorem suffix_short {a b c d : Byte} {l : List Byte} (hl : l.length < 4) :
    ¬ [a, b, c, d] <:+ l := by
  intro h
  have := h.length_le
  simp at this
  omega

/-- A byte that completes neither the marker `FF FF FF FF` nor the sequence delimiter, nor
the item delimiter while the depth is 0, is appended to the buffer and the loop goes on
with the same depth. -/
theorem readItemBody_cons_skip (lib : database) (isImplicit : Bool) (b : Byte)
    (s buffer : List Byte) (depth : Int)
    (h1 : ¬ undefinedLength <:+ buffer ++ [b]) (h3 : ¬ sequenceDelimiter <:+ buffer ++ [b])
    (h2 : depth = 0 → ¬ itemDelimiter <:+ buffer ++ [b]) :
    readItemBody lib isImplicit (b :: s) buffer depth =
      readItemBody lib isImplicit s (buffer ++ [b]) depth := by
  have h4 : ¬ (itemDelimiter <:+ buffer ++ [b] ∧ depth = 0) := fun h => h2 h.2 h.1
  simp only [readItemBody, depthAfterMarker, asUInt_undefinedLength, asUInt_itemDelimiter,
    asUInt_sequenceDelimiter, h1, h3, h4, if_false]

/-- The byte that completes the sequence delimiter lowers the depth by one. -/
theorem readItemBody_cons_sequenceDelimiter (lib : database) (isImplicit : Bool) (b : Byte)
    (s buffer : List Byte) (depth : Int) (h : sequenceDelimiter <:+ buffer ++ [b]) :
    readItemBody lib isImplicit (b :: s) buffer depth =
      readItemBody lib isImplicit s (buffer ++ [b]) (depth - 1) := by
  have h1 : ¬ undefinedLength <:+ buffer ++ [b] := by
    intro hu
    have e1 := (asUInt_undefinedLength _).mpr hu
    have e2 := (asUInt_sequenceDelimiter _).mpr h
    omega
  have h2 : ¬ itemDelimiter <:+ buffer ++ [b] := by
    intro hu
    have e1 := (asUInt_itemDelimiter _).mpr hu
    have e2 := (asUInt_sequenceDelimiter _).mpr h
    omega
  simp only [readItemBody, depthAfterMarker, asUInt_undefinedLength, asUInt_itemDelimiter,
    asUInt_sequenceDelimiter, h1, h2, h, if_false, false_and, if_true]

/-- Under implicit encoding, the byte that completes `FF FF FF FF` right behind the four
bytes of a tag that the dictionary holds with the VR `SQ` raises the depth by one. -/
theorem readItemBody_cons_marker (lib : database) (t0 t1 t2 t3 : Byte) (s : List Byte)
    (depth : Int)
    (hhit : (lib.closest (le16 t0 t1) (le16 t2 t3)).tag0 = le16 t0 t1 ∧
      (lib.closest (le16 t0 t1) (le16 t2 t3)).tag1 = le16 t2 t3)
    (hvr : (lib.closest (le16 t0 t1) (le16 t2 t3)).vr = QString.lit "SQ") :
    readItemBody lib true (0xFF :: s) [t0, t1, t2, t3, 0xFF, 0xFF, 0xFF] depth =
      readItemBody lib true s [t0, t1, t2, t3, 0xFF, 0xFF, 0xFF, 0xFF] (depth + 1) := by
  have hb : [t0, t1, t2, t3, 0xFF, 0xFF, 0xFF] ++ [(0xFF : Byte)] =
      [t0, t1, t2, t3] ++ [0xFF, 0xFF, 0xFF, 0xFF] := rfl
  have hu : undefinedLength <:+ [t0, t1, t2, t3, 0xFF, 0xFF, 0xFF] ++ [(0xFF : Byte)] :=
    ⟨[t0, t1, t2, t3], rfl⟩
  have h2 : ¬ itemDelimiter <:+ [t0, t1, t2, t3, 0xFF, 0xFF, 0xFF] ++ [(0xFF : Byte)] := by
    intro h
    have := suffix_snoc_one h
    revert this; decide
  have h3 : ¬ sequenceDelimiter <:+ [t0, t1, t2, t3, 0xFF, 0xFF, 0xFF] ++ [(0xFF : Byte)] := by
    intro h
    have := suffix_snoc_one h
    revert this; decide
  have hd : depthAfterMarker lib true ([t0, t1, t2, t3, 0xFF, 0xFF, 0xFF] ++ [(0xFF : Byte)])
      depth = depth + 1 := by
    unfold depthAfterMarker
    rw [if_pos ((asUInt_undefinedLength _).mpr hu)]
    have e0 : asUShort (left 2 (right 8 ([t0, t1, t2, t3, 0xFF, 0xFF, 0xFF] ++ [(0xFF : Byte)])))
        = le16 t0 t1 := rfl
    have e1 : asUShort (left 2 (right 6 ([t0, t1, t2, t3, 0xFF, 0xFF, 0xFF] ++ [(0xFF : Byte)])))
        = le16 t2 t3 := rfl
    simp only [e0, e1, Bool.not_true, Bool.false_eq_true, if_false, hhit, and_self, if_true,
      hvr]
  rw [readItemBody]
  simp only [hd]
  rw [if_neg (fun h => h2 ((asUInt_itemDelimiter _).mp h.1)),
    if_neg (fun h => h3 ((asUInt_sequenceDelimiter _).mp h))]
  rfl

/-- The loop over a run of bytes none of which completes the marker or the sequence
delimiter, nor the item delimiter while the depth is 0. -/
theorem readItemBody_skip (lib : database) (isImplicit : Bool) (depth : Int) :
    ∀ (Q B s : List Byte),
      (∀ k, k < Q.length →
        ¬ undefinedLength <:+ B ++ Q.take (k + 1) ∧
        ¬ sequenceDelimiter <:+ B ++ Q.take (k + 1) ∧
        (depth = 0 → ¬ itemDelimiter <:+ B ++ Q.take (k + 1))) →
      readItemBody lib isImplicit (Q ++ s) B depth =
        readItemBody lib isImplicit s (B ++ Q) depth := by
  intro Q
  induction Q with
  | nil => intro B s _; simp
  | cons q Q ih =>
    intro B s h
    have h0 := h 0 (by simp)
    simp only [List.take_succ_cons, List.take_zero] at h0
    rw [List.cons_append, readItemBody_cons_skip lib isImplicit q _ B depth h0.1 h0.2.1 h0.2.2,
      ih (B ++ [q]) s ?_]
    · simp
    · intro k hk
      have hk1 := h (k + 1) (by simpa using hk)
      simpa using hk1

theorem no_pattern_in_payload (pat : List Byte)
    (hpat : pat = undefinedLength ∨ pat = sequenceDelimiter) (B : List Byte)
    (l0 l1 l2 l3 : Byte) (hl : l3.val < 128) (P : List Byte) (hP : ¬ pat <:+: P) (k : Nat)
    (hk : k < P.length) : ¬ pat <:+ (B ++ [l0, l1, l2, l3]) ++ P.take (k + 1) := by
  intro hs
  have hlen : pat.length = 4 := by rcases hpat with h | h <;> rw [h] <;> rfl
  have htl : (P.take (k + 1)).length = k + 1 := by
    rw [List.length_take]; omega
  by_cases h4 : 4 ≤ k + 1
  · have h1 : pat <:+ P.take (k + 1) :=
      List.suffix_of_suffix_length_le hs (List.suffix_append _ _) (by omega)
    exact hP (h1.isInfix.trans (List.IsPrefix.isInfix ( List.take_prefix _ _)))
  · generalize P.take (k + 1) = W at hs htl
    match W, htl with
    | [w1], _ =>
      rcases hpat with h | h <;> subst h
      · have := (suffix_snoc_four (B := B ++ [l0]) (by simpa using hs)).2.2.1
        rw [← this] at hl; revert hl; decide
      · have := (suffix_snoc_four (B := B ++ [l0]) (by simpa using hs)).2.2.1
        rw [← this] at hl; revert hl; decide
    | [w1, w2], _ =>
      rcases hpat with h | h <;> subst h
      · have := (suffix_snoc_four (B := B ++ [l0, l1]) (by simpa using hs)).2.1
        rw [← this] at hl; revert hl; decide
      · have := (suffix_snoc_four (B := B ++ [l0, l1]) (by simpa using hs)).2.1
        rw [← this] at hl; revert hl; decide
    | [w1, w2, w3], _ =>
      rcases hpat with h | h <;> subst h
      · have := (suffix_snoc_four (B := B ++ [l0, l1, l2]) (by simpa using hs)).1
        rw [← this] at hl; revert hl; decide
      · have := (suffix_snoc_four (B := B ++ [l0, l1, l2]) (by simpa using hs)).1
        rw [← this] at hl; revert hl; decide
    | [], h => simp at h
    | _ :: _ :: _ :: _ :: _, h => simp at h; omega

/-- The first seven bytes of an item body that starts with a tag (last byte not `FF`, group
not `FFFE`) and the length `FF FF FF FF` complete none of the three patterns. -/
theorem readItemBody_tag_start (lib : database) (isImplicit : Bool) (t0 t1 t2 t3 : Byte)
    (s : List Byte) (ht : t3 ≠ 0xFF) (hg : le16 t0 t1 ≠ 0xFFFE) :
    readItemBody lib isImplicit ([t0, t1, t2, t3, 0xFF, 0xFF, 0xFF] ++ s) [] 0 =
      readItemBody lib isImplicit s [t0, t1, t2, t3, 0xFF, 0xFF, 0xFF] 0 := by
  have hgroup : ∀ c d : Byte, ¬ [0xFE, 0xFF, c, d] <:+ [t0, t1, t2, t3] := by
    intro c d h
    have h4 := suffix_snoc_four (B := []) h
    apply hg
    rw [← h4.1, ← h4.2.1]
    rfl
  rw [readItemBody_skip lib isImplicit 0 [t0, t1, t2, t3, 0xFF, 0xFF, 0xFF] [] s]
  · rfl
  · intro k hk
    simp only [List.length_cons, List.length_nil] at hk
    interval_cases k
    · exact ⟨suffix_short (by simp), suffix_short (by simp), fun _ => suffix_short (by simp)⟩
    · exact ⟨suffix_short (by simp), suffix_short (by simp), fun _ => suffix_short (by simp)⟩
    · exact ⟨suffix_short (by simp), suffix_short (by simp), fun _ => suffix_short (by simp)⟩
    · exact ⟨fun h => ht (suffix_snoc_four (B := []) h).2.2.2.symm, hgroup _ _,
        fun _ => hgroup _ _⟩
    · exact ⟨fun h => ht (suffix_snoc_four (B := [t0]) h).2.2.1.symm,
        fun h => absurd (suffix_snoc_one (B := [t0, t1, t2, t3]) h) (by decide),
        fun _ h => absurd (suffix_snoc_one (B := [t0, t1, t2, t3]) h) (by decide)⟩
    · exact ⟨fun h => ht (suffix_snoc_four (B := [t0, t1]) h).2.1.symm,
        fun h => absurd (suffix_snoc_one (B := [t0, t1, t2, t3, 0xFF]) h) (by decide),
        fun _ h => absurd (suffix_snoc_one (B := [t0, t1, t2, t3, 0xFF]) h) (by decide)⟩
    · exact ⟨fun h => ht (suffix_snoc_four (B := [t0, t1, t2]) h).1.symm,
        fun h => absurd (suffix_snoc_one (B := [t0, t1, t2, t3, 0xFF, 0xFF]) h) (by decide),
        fun _ h =>
          absurd (suffix_snoc_one (B := [t0, t1, t2, t3, 0xFF, 0xFF]) h) (by decide)⟩

/-- At a depth other than 0, the header of an item of defined length (length below `2^31`),
a payload without the patterns `FF FF FF FF` and `FE FF DD E0`, and the first three bytes
of the sequence delimiter leave the depth as it is. -/
theorem readItemBody_inner_item (lib : database) (isImplicit : Bool) (B : List Byte)
    (l0 l1 l2 l3 : Byte) (P s : List Byte) (depth : Int) (hd : depth ≠ 0)
    (hl : l3.val < 128) (hP1 : ¬ undefinedLength <:+: P) (hP2 : ¬ sequenceDelimiter <:+: P) :
    readItemBody lib isImplicit
        ([0xFE, 0xFF, 0x00, 0xE0, l0, l1, l2, l3] ++ (P ++ ([0xFE, 0xFF, 0xDD] ++ s)))
        (B ++ [0xFF]) depth =
      readItemBody lib isImplicit s
        (B ++ [0xFF] ++ [0xFE, 0xFF, 0x00, 0xE0, l0, l1, l2, l3] ++ P ++ [0xFE, 0xFF, 0xDD])
        depth := by
  have hl1 : l3 ≠ 0xFF := by intro h; rw [h] at hl; revert hl; decide
  have hl2 : l3 ≠ 0xE0 := by intro h; rw [h] at hl; revert hl; decide
  rw [readItemBody_skip lib isImplicit depth [0xFE, 0xFF, 0x00, 0xE0, l0, l1, l2, l3]
      (B ++ [0xFF]) _ ?_,
    readItemBody_skip lib isImplicit depth P _ _ ?_,
    readItemBody_skip lib isImplicit depth [0xFE, 0xFF, 0xDD] _ s ?_]
  · intro k hk
    simp only [List.length_cons, List.length_nil] at hk
    interval_cases k <;> refine ⟨fun h => ?_, fun h => ?_, fun h0 => absurd h0 hd⟩ <;>
      (rw [← List.reverse_prefix] at h
       simp [undefinedLength, sequenceDelimiter] at h)
  · intro k hk
    have hb : B ++ [0xFF] ++ [0xFE, 0xFF, 0x00, 0xE0, l0, l1, l2, l3] =
        (B ++ [0xFF, 0xFE, 0xFF, 0x00, 0xE0]) ++ [l0, l1, l2, l3] := by simp
    rw [hb]
    exact ⟨no_pattern_in_payload _ (Or.inl rfl) _ l0 l1 l2 l3 hl P hP1 k hk,
      no_pattern_in_payload _ (Or.inr rfl) _ l0 l1 l2 l3 hl P hP2 k hk,
      fun h0 => absurd h0 hd⟩
  · intro k hk
    simp only [List.length_cons, List.length_nil] at hk
    interval_cases k <;> refine ⟨fun h => ?_, fun h => ?_, fun h0 => absurd h0 hd⟩ <;>
      (rw [← List.reverse_prefix] at h
       simp [undefinedLength, sequenceDelimiter, hl1, hl1.symm, hl2, hl2.symm] at h)

/-- At depth 0, four zero bytes and the first three bytes of the item delimiter complete
none of the three patterns. -/
theorem readItemBody_delimiter_tail (lib : database) (isImplicit : Bool) (B s : List Byte) :
    readItemBody lib isImplicit ([0, 0, 0, 0, 0xFE, 0xFF, 0x0D] ++ s) B 0 =
      readItemBody lib isImplicit s (B ++ [0, 0, 0, 0, 0xFE, 0xFF, 0x0D]) 0 := by
  rw [readItemBody_skip lib isImplicit 0 [0, 0, 0, 0, 0xFE, 0xFF, 0x0D] B s ?_]
  intro k hk
  simp only [List.length_cons, List.length_nil] at hk
  interval_cases k <;> refine ⟨fun h => ?_, fun h => ?_, fun _ h => ?_⟩ <;>
    (rw [← List.reverse_prefix] at h
     simp [undefinedLength, sequenceDelimiter, itemDelimiter] at h)

/-- C25 (as amended): under implicit encoding, take an item of undefined length whose body
is: a tag that the dictionary holds with the VR `SQ` (its last byte not `FF`, its group not
`FFFE`), the length `FF FF FF FF`, one item with a length below `2^31` whose payload holds
neither `FF FF FF FF` nor `FE FF DD E0` (it may hold the item delimiter `FE FF 0D E0`), and
the sequence delimiter with a length field of zero.  Then the loop has `depth = 1` behind
the nested header, goes through the inner item and the first three bytes of the sequence
delimiter at `depth = 1`, has `depth = 0` behind the sequence delimiter, and ends at the
item delimiter that follows the body: it yields the whole body and the stream behind the
four bytes after the delimiter, and `readSequence` appends one item with these bytes. -/
theorem implicit_nested_sequence_item (lib : database)
    (t0 t1 t2 t3 l0 l1 l2 l3 z0 z1 z2 z3 : Byte) (P rest : List Byte)
    (hhit : (lib.closest (le16 t0 t1) (le16 t2 t3)).tag0 = le16 t0 t1 ∧
      (lib.closest (le16 t0 t1) (le16 t2 t3)).tag1 = le16 t2 t3)
    (hvr : (lib.closest (le16 t0 t1) (le16 t2 t3)).vr = QString.lit "SQ")
    (ht : t3 ≠ 0xFF) (hg : le16 t0 t1 ≠ 0xFFFE) (hl : l3.val < 128)
    (hP1 : ¬ undefinedLength <:+: P) (hP2 : ¬ sequenceDelimiter <:+: P) :
    readItemBody lib true
        (implicitNestedBody t0 t1 t2 t3 l0 l1 l2 l3 P ++ itemDelimiter ++ [z0, z1, z2, z3] ++
          rest) [] 0 =
      readItemBody lib true
        (itemTag ++ [l0, l1, l2, l3] ++ P ++ sequenceDelimiter ++ [0, 0, 0, 0] ++
          itemDelimiter ++ [z0, z1, z2, z3] ++ rest)
        ([t0, t1, t2, t3] ++ undefinedLength) 1 ∧
    readItemBody lib true
        (itemTag ++ [l0, l1, l2, l3] ++ P ++ sequenceDelimiter ++ [0, 0, 0, 0] ++
          itemDelimiter ++ [z0, z1, z2, z3] ++ rest)
        ([t0, t1, t2, t3] ++ undefinedLength) 1 =
      readItemBody lib true ([0, 0, 0, 0] ++ itemDelimiter ++ [z0, z1, z2, z3] ++ rest)
        ([t0, t1, t2, t3] ++ undefinedLength ++ itemTag ++ [l0, l1, l2, l3] ++ P ++
          sequenceDelimiter) 0 ∧
    readItemBody lib true
        (implicitNestedBody t0 t1 t2 t3 l0 l1 l2 l3 P ++ itemDelimiter ++ [z0, z1, z2, z3] ++
          rest) [] 0 =
      some (implicitNestedBody t0 t1 t2 t3 l0 l1 l2 l3 P, 0, rest) ∧
    (∀ (i0 i1 i2 i3 : Byte) (fuel : Nat) (items : List SequenceItem),
      le32 i0 i1 i2 i3 ≠ 0xE0DDFFFE →
      readSequenceLoop lib true (fuel + 1)
          (i0 :: i1 :: i2 :: i3 :: 0xFF :: 0xFF :: 0xFF :: 0xFF ::
            (implicitNestedBody t0 t1 t2 t3 l0 l1 l2 l3 P ++ itemDelimiter ++
              [z0, z1, z2, z3] ++ rest)) items =
        readSequenceLoop lib true fuel rest
          (items ++ [{ vl := (implicitNestedBody t0 t1 t2 t3 l0 l1 l2 l3 P).length,
                       vf := implicitNestedBody t0 t1 t2 t3 l0 l1 l2 l3 P }])) := by
  have hA : readItemBody lib true
      (implicitNestedBody t0 t1 t2 t3 l0 l1 l2 l3 P ++ itemDelimiter ++ [z0, z1, z2, z3] ++
        rest) [] 0 =
      readItemBody lib true
        (itemTag ++ [l0, l1, l2, l3] ++ P ++ sequenceDelimiter ++ [0, 0, 0, 0] ++
          itemDelimiter ++ [z0, z1, z2, z3] ++ rest)
        ([t0, t1, t2, t3] ++ undefinedLength) 1 := by
    have hs : implicitNestedBody t0 t1 t2 t3 l0 l1 l2 l3 P ++ itemDelimiter ++
        [z0, z1, z2, z3] ++ rest =
        [t0, t1, t2, t3, 0xFF, 0xFF, 0xFF] ++ (0xFF ::
          (itemTag ++ [l0, l1, l2, l3] ++ P ++ sequenceDelimiter ++ [0, 0, 0, 0] ++
            itemDelimiter ++ [z0, z1, z2, z3] ++ rest)) := by
      simp [implicitNestedBody, undefinedLength]
    rw [hs, readItemBody_tag_start lib true t0 t1 t2 t3 _ ht hg,
      readItemBody_cons_marker lib t0 t1 t2 t3 _ 0 hhit hvr]
    rfl
  have hB : readItemBody lib true
      (itemTag ++ [l0, l1, l2, l3] ++ P ++ sequenceDelimiter ++ [0, 0, 0, 0] ++
        itemDelimiter ++ [z0, z1, z2, z3] ++ rest)
      ([t0, t1, t2, t3] ++ undefinedLength) 1 =
      readItemBody lib true ([0, 0, 0, 0] ++ itemDelimiter ++ [z0, z1, z2, z3] ++ rest)
        ([t0, t1, t2, t3] ++ undefinedLength ++ itemTag ++ [l0, l1, l2, l3] ++ P ++
          sequenceDelimiter) 0 := by
    have hs : itemTag ++ [l0, l1, l2, l3] ++ P ++ sequenceDelimiter ++ [0, 0, 0, 0] ++
        itemDelimiter ++ [z0, z1, z2, z3] ++ rest =
        [0xFE, 0xFF, 0x00, 0xE0, l0, l1, l2, l3] ++ (P ++ ([0xFE, 0xFF, 0xDD] ++
          (0xE0 :: ([0, 0, 0, 0] ++ itemDelimiter ++ [z0, z1, z2, z3] ++ rest)))) := by
      simp [itemTag, sequenceDelimiter]
    have hb : [t0, t1, t2, t3] ++ undefinedLength =
        [t0, t1, t2, t3, 0xFF, 0xFF, 0xFF] ++ [0xFF] := rfl
    rw [hs, hb, readItemBody_inner_item lib true _ l0 l1 l2 l3 P _ 1 (by decide) hl hP1 hP2,
      readItemBody_cons_sequenceDelimiter lib true 0xE0 _ _ 1
        ⟨[t0, t1, t2, t3, 0xFF, 0xFF, 0xFF] ++ [0xFF] ++
          [0xFE, 0xFF, 0x00, 0xE0, l0, l1, l2, l3] ++ P, by simp [sequenceDelimiter]⟩]
    have hbuf : [t0, t1, t2, t3, 0xFF, 0xFF, 0xFF] ++ [0xFF] ++
        [0xFE, 0xFF, 0x00, 0xE0, l0, l1, l2, l3] ++ P ++ [0xFE, 0xFF, 0xDD] ++ [0xE0] =
        [t0, t1, t2, t3] ++ undefinedLength ++ itemTag ++ [l0, l1, l2, l3] ++ P ++
          sequenceDelimiter := by
      simp [undefinedLength, itemTag, sequenceDelimiter]
    rw [hbuf]
    rfl
  have hC : readItemBody lib true ([0, 0, 0, 0] ++ itemDelimiter ++ [z0, z1, z2, z3] ++ rest)
      ([t0, t1, t2, t3] ++ undefinedLength ++ itemTag ++ [l0, l1, l2, l3] ++ P ++
        sequenceDelimiter) 0 =
      some (implicitNestedBody t0 t1 t2 t3 l0 l1 l2 l3 P, 0, rest) := by
    have hs : [0, 0, 0, 0] ++ itemDelimiter ++ [z0, z1, z2, z3] ++ rest =
        [0, 0, 0, 0, 0xFE, 0xFF, 0x0D] ++ (0xE0 :: z0 :: z1 :: z2 :: z3 :: rest) := rfl
    rw [hs, readItemBody_delimiter_tail,
      readItemBody_cons_stop lib true 0xE0 _ _
        ⟨[t0, t1, t2, t3] ++ undefinedLength ++ itemTag ++ [l0, l1, l2, l3] ++ P ++
          sequenceDelimiter ++ [0, 0, 0, 0], by simp [itemDelimiter]⟩, read4_cons]
    have hbuf : [t0, t1, t2, t3] ++ undefinedLength ++ itemTag ++ [l0, l1, l2, l3] ++ P ++
        sequenceDelimiter ++ [0, 0, 0, 0, 0xFE, 0xFF, 0x0D] ++ [0xE0] =
        implicitNestedBody t0 t1 t2 t3 l0 l1 l2 l3 P ++ [0xFE, 0xFF, 0x0D, 0xE0] := by
      simp [implicitNestedBody]
    rw [hbuf, chop_append_four]
    rfl
  have hD := hA.trans (hB.trans hC)
  refine ⟨hA, hB, hD, ?_⟩
  intro i0 i1 i2 i3 fuel items hi
  simp only [readSequenceLoop, read4_cons, hi, if_false, le32_undefinedLength, ne_eq,
    not_true_eq_false, hD]

/-- C25 (fails on the code): with the tag `(FFFA,FFFA)`, which `signatureLib` holds with the
VR `SQ`, the body starts with `FA FF FA FF FF FF FF FF`.  The buffer ends in `FF FF FF FF`
already after seven bytes; the loop then looks up the bytes `FA FF`, `FF FA` (the buffer
has fewer than eight bytes), finds no entry and raises the depth as for an unknown tag; one
byte later it finds `(FFFA,FFFA)` and raises it again.  So the depth is 2 behind the nested
header and 1 behind the nested sequence delimiter, the item delimiter behind the body does
not end the item, and no item is emitted. -/
theorem tag_ending_in_FF_raises_depth_twice :
    ((signatureLib.closest 0xFFFA 0xFFFA).tag0 = 0xFFFA ∧
      (signatureLib.closest 0xFFFA 0xFFFA).tag1 = 0xFFFA ∧
      (signatureLib.closest 0xFFFA 0xFFFA).vr = QString.lit "SQ") ∧
    (¬ undefinedLength <:+: itemDelimiter ∧ ¬ sequenceDelimiter <:+: itemDelimiter) ∧
    itemBodyDepths signatureLib true
        (implicitNestedBody 0xFA 0xFF 0xFA 0xFF 4 0 0 0 itemDelimiter ++ itemDelimiter ++
          [0, 0, 0, 0]) [] 0 =
      List.replicate 6 0 ++ [1] ++ List.replicate 16 2 ++ List.replicate 13 1 ∧
    readItemBody signatureLib true
        (implicitNestedBody 0xFA 0xFF 0xFA 0xFF 4 0 0 0 itemDelimiter ++ itemDelimiter ++
          [0, 0, 0, 0]) [] 0 = none := by
  decide

theorem implicit_nested_sequence_item_witness :
    ¬ undefinedLength <:+: itemDelimiter ∧ ¬ sequenceDelimiter <:+: itemDelimiter ∧
    readItemBody sampleLib true
        (implicitNestedBody 0x06 0x30 0x39 0x00 4 0 0 0 itemDelimiter ++ itemDelimiter ++
          [0, 0, 0, 0] ++ [7]) [] 0 =
      some (implicitNestedBody 0x06 0x30 0x39 0x00 4 0 0 0 itemDelimiter, 0, [7]) :=
  ⟨by decide, by decide,
    (implicit_nested_sequence_item sampleLib 0x06 0x30 0x39 0x00 4 0 0 0 0 0 0 0
      itemDelimiter [7] (by decide) (by decide) (by decide) (by decide) (by decide)
      (by decide) (by decide)).2.2.1⟩

/-! ## The readers look only at the bytes they consume -/

theorem read4_local {s s1 : QDataStream} {d : Byte × Byte × Byte × Byte}
    (h : read4 s = some (d, s1)) :
    ∃ c, s = c ++ s1 ∧ ∀ t, read4 (c ++ t) = some (d, t) :=
  ⟨[d.1, d.2.1, d.2.2.1, d.2.2.2], read4_some h, fun _ => rfl⟩

theorem readN_local {n : Nat} {s s1 : QDataStream} {x : List Byte}
    (h : readN n s = some (x, s1)) : s = x ++ s1 ∧ ∀ t, readN n (x ++ t) = some (x, t) := by
  obtain ⟨h1, h2, h3⟩ := readN_some h
  have hx : x.length = n := by rw [h1, List.length_take]; omega
  constructor
  · rw [h1, h2, List.take_append_drop]
  · intro t
    rw [← hx]
    exact readN_append x t

theorem readChunks_local :
    ∀ (k : Nat) (s : QDataStream) (x : List Byte) (s1 : QDataStream),
      readChunks k s = some (x, s1) →
        s = x ++ s1 ∧ ∀ t, readChunks k (x ++ t) = some (x, t) := by
  intro k
  induction k with
  | zero =>
    intro s x s1 h
    simp only [readChunks, Option.some.injEq, Prod.mk.injEq] at h
    obtain ⟨h1, h2⟩ := h
    subst h1 h2
    exact ⟨rfl, fun t => rfl⟩
  | succ k ih =>
    intro s x s1 h
    simp only [readChunks] at h
    cases ha : readN INT_MAX s with
    | none => simp [ha] at h
    | some p =>
      obtain ⟨c, sa⟩ := p
      simp only [ha] at h
      cases hb : readChunks k sa with
      | none => simp [hb] at h
      | some q =>
        obtain ⟨cs, sb⟩ := q
        simp only [hb, Option.some.injEq, Prod.mk.injEq] at h
        obtain ⟨h1, h2⟩ := h
        subst h1 h2
        obtain ⟨e1, l1⟩ := readN_local ha
        obtain ⟨e2, l2⟩ := ih _ _ _ hb
        constructor
        · rw [e1, e2, List.append_assoc]
        · intro t
          simp only [readChunks, List.append_assoc, l1, l2]

theorem readValue_local {size : Nat} {s s1 : QDataStream} {x : List Byte}
    (h : readValue size s = .ok (x, s1)) :
    s = x ++ s1 ∧ ∀ t, readValue size (x ++ t) = .ok (x, t) := by
  unfold readValue at h
  split_ifs at h with h1 h2
  · cases ha : readN size s with
    | none => simp [ha] at h
    | some p =>
      obtain ⟨c, sa⟩ := p
      simp only [ha, Except.ok.injEq, Prod.mk.injEq] at h
      obtain ⟨e1, e2⟩ := h
      subst e1 e2
      obtain ⟨e, l⟩ := readN_local ha
      refine ⟨e, fun t => ?_⟩
      rw [readValue, if_pos h1, l]
  · cases ha : readChunks (size / INT_MAX) s with
    | none => simp [ha] at h
    | some p =>
      obtain ⟨c, sa⟩ := p
      simp only [ha, Except.ok.injEq, Prod.mk.injEq] at h
      obtain ⟨e1, e2⟩ := h
      subst e1 e2
      obtain ⟨e, l⟩ := readChunks_local _ _ _ _ ha
      refine ⟨e, fun t => ?_⟩
      rw [readValue, if_neg h1, if_pos h2, l]
  · simp only [Except.ok.injEq, Prod.mk.injEq] at h
    obtain ⟨e1, e2⟩ := h
    subst e1 e2
    refine ⟨rfl, fun t => ?_⟩
    rw [readValue, if_neg h1, if_neg h2]
    rfl

theorem readItemBody_local (lib : database) (isImplicit : Bool) :
    ∀ (s buffer : List Byte) (depth : Int) (b : List Byte) (d : Int) (s1 : QDataStream),
      readItemBody lib isImplicit s buffer depth = some (b, d, s1) →
        ∃ c, s = c ++ s1 ∧
          ∀ t, readItemBody lib isImplicit (c ++ t) buffer depth = some (b, d, t) := by
  intro s
  induction s with
  | nil => intro buffer depth b d s1 h; simp [readItemBody] at h
  | cons x s ih =>
    intro buffer depth b d s1 h
    simp only [readItemBody] at h
    split_ifs at h with h1 h2
    · cases h4 : read4 s with
      | none => simp [h4] at h
      | some p =>
        obtain ⟨dd, s2⟩ := p
        simp only [h4, Option.some.injEq, Prod.mk.injEq] at h
        obtain ⟨e1, e2, e3⟩ := h
        subst e1 e2 e3
        obtain ⟨c, ec, lc⟩ := read4_local h4
        refine ⟨x :: c, by rw [ec]; rfl, fun t => ?_⟩
        rw [List.cons_append, readItemBody, if_pos h1, lc]
    · obtain ⟨c, ec, lc⟩ := ih _ _ _ _ _ h
      refine ⟨x :: c, by rw [ec]; rfl, fun t => ?_⟩
      rw [List.cons_append, readItemBody, if_neg h1, if_pos h2, lc]
    · obtain ⟨c, ec, lc⟩ := ih _ _ _ _ _ h
      refine ⟨x :: c, by rw [ec]; rfl, fun t => ?_⟩
      rw [List.cons_append, readItemBody, if_neg h1, if_neg h2, lc]

theorem readSequenceLoop_local (lib : database) (isImplicit : Bool) :
    ∀ (fuel : Nat) (s : QDataStream) (items items1 : List SequenceItem) (s1 : QDataStream),
      readSequenceLoop lib isImplicit fuel s items = some (items1, s1) →
        ∃ c, s = c ++ s1 ∧ ∀ (t : QDataStream) (fuel1 : Nat), fuel ≤ fuel1 →
          readSequenceLoop lib isImplicit fuel1 (c ++ t) items = some (items1, t) := by
  intro fuel
  induction fuel with
  | zero => intro s items items1 s1 h; simp [readSequenceLoop] at h
  | succ n ih =>
    intro s items items1 s1 h
    rw [readSequenceLoop] at h
    cases ha : read4 s with
    | none => simp [ha] at h
    | some p =>
      obtain ⟨⟨t0, t1, t2, t3⟩, sa⟩ := p
      simp only [ha] at h
      cases hb : read4 sa with
      | none => simp [hb] at h
      | some q =>
        obtain ⟨⟨z0, z1, z2, z3⟩, sb⟩ := q
        simp only [hb] at h
        obtain ⟨ca, ea, la⟩ := read4_local ha
        obtain ⟨cb, eb, lb⟩ := read4_local hb
        split_ifs at h with h1 h2 h3
        · simp only [Option.some.injEq, Prod.mk.injEq] at h
          obtain ⟨e1, e2⟩ := h
          subst e1 e2
          refine ⟨ca ++ cb, by rw [ea, eb, List.append_assoc], fun t fuel1 hf => ?_⟩
          obtain ⟨m, rfl⟩ : ∃ m, fuel1 = m + 1 := ⟨fuel1 - 1, by omega⟩
          rw [readSequenceLoop, List.append_assoc, la]
          simp only [lb]
          rw [if_pos h1]
        · cases hc : readN (le32 z0 z1 z2 z3) sb with
          | none => simp [hc] at h
          | some r =>
            obtain ⟨dat, sc⟩ := r
            simp only [hc] at h
            obtain ⟨ec, lc⟩ := readN_local hc
            obtain ⟨cd, ed, ld⟩ := ih _ _ _ _ h
            refine ⟨ca ++ cb ++ dat ++ cd,
              by rw [ea, eb, ec, ed]; simp only [List.append_assoc], fun t fuel1 hf => ?_⟩
            obtain ⟨m, rfl⟩ : ∃ m, fuel1 = m + 1 := ⟨fuel1 - 1, by omega⟩
            rw [readSequenceLoop]
            simp only [List.append_assoc, la, lb]
            rw [if_neg h1, if_pos h2, if_neg h3]
            simp only [lc]
            exact ld t m (by omega)
        · cases hc : readItemBody lib isImplicit sb [] 0 with
          | none => simp [hc] at h
          | some r =>
            obtain ⟨buffer, dd, sc⟩ := r
            simp only [hc] at h
            obtain ⟨cc, ec, lc⟩ := readItemBody_local lib isImplicit _ _ _ _ _ _ hc
            obtain ⟨cd, ed, ld⟩ := ih _ _ _ _ h
            refine ⟨ca ++ cb ++ cc ++ cd,
              by rw [ea, eb, ec, ed]; simp only [List.append_assoc], fun t fuel1 hf => ?_⟩
            obtain ⟨m, rfl⟩ : ∃ m, fuel1 = m + 1 := ⟨fuel1 - 1, by omega⟩
            rw [readSequenceLoop]
            simp only [List.append_assoc, la, lb]
            rw [if_neg h1, if_neg h2]
            simp only [lc]
            exact ld t m (by omega)

theorem readDefinedSequenceLoop_local (lib : database) (isImplicit : Bool) :
    ∀ (fuel : Nat) (s : QDataStream) (items : List SequenceItem) (n : Nat) (depth : Int)
      (items1 : List SequenceItem) (s1 : QDataStream),
      readDefinedSequenceLoop lib isImplicit fuel s items n depth = some (items1, s1) →
        ∃ c, s = c ++ s1 ∧ ∀ (t : QDataStream) (fuel1 : Nat), fuel ≤ fuel1 →
          readDefinedSequenceLoop lib isImplicit fuel1 (c ++ t) items n depth =
            some (items1, t) := by
  intro fuel
  induction fuel with
  | zero =>
    intro s items n depth items1 s1 h
    rw [readDefinedSequenceLoop] at h
    split_ifs at h with h0
    simp only [Option.some.injEq, Prod.mk.injEq] at h
    obtain ⟨e1, e2⟩ := h
    subst e1 e2
    refine ⟨[], rfl, fun t fuel1 _ => ?_⟩
    cases fuel1 with
    | zero => rw [readDefinedSequenceLoop, if_neg h0]; rfl
    | succ m => rw [readDefinedSequenceLoop, if_neg h0]; rfl
  | succ k ih =>
    intro s items n depth items1 s1 h
    rw [readDefinedSequenceLoop] at h
    split_ifs at h with h0
    · cases ha : read4 s with
      | none => simp [ha] at h
      | some p =>
        obtain ⟨tt, sa⟩ := p
        simp only [ha] at h
        cases hb : read4 sa with
        | none => simp [hb] at h
        | some q =>
          obtain ⟨⟨z0, z1, z2, z3⟩, sb⟩ := q
          simp only [hb] at h
          obtain ⟨ca, ea, la⟩ := read4_local ha
          obtain ⟨cb, eb, lb⟩ := read4_local hb
          split_ifs at h with h2 h3
          · cases hc : readN (le32 z0 z1 z2 z3) sb with
            | none => simp [hc] at h
            | some r =>
              obtain ⟨dat, sc⟩ := r
              simp only [hc] at h
              obtain ⟨ec, lc⟩ := readN_local hc
              obtain ⟨cd, ed, ld⟩ := ih _ _ _ _ _ _ h
              refine ⟨ca ++ cb ++ dat ++ cd,
                by rw [ea, eb, ec, ed]; simp only [List.append_assoc], fun t fuel1 hf => ?_⟩
              obtain ⟨m, rfl⟩ : ∃ m, fuel1 = m + 1 := ⟨fuel1 - 1, by omega⟩
              rw [readDefinedSequenceLoop, if_pos h0]
              simp only [List.append_assoc, la, lb]
              rw [if_pos h2, if_neg h3]
              simp only [lc]
              exact ld t m (by omega)
          · cases hc : readItemBody lib isImplicit sb [] depth with
            | none => simp [hc] at h
            | some r =>
              obtain ⟨buffer, d1, sc⟩ := r
              simp only [hc] at h
              obtain ⟨cc, ec, lc⟩ := readItemBody_local lib isImplicit _ _ _ _ _ _ hc
              obtain ⟨cd, ed, ld⟩ := ih _ _ _ _ _ _ h
              refine ⟨ca ++ cb ++ cc ++ cd,
                by rw [ea, eb, ec, ed]; simp only [List.append_assoc], fun t fuel1 hf => ?_⟩
              obtain ⟨m, rfl⟩ : ∃ m, fuel1 = m + 1 := ⟨fuel1 - 1, by omega⟩
              rw [readDefinedSequenceLoop, if_pos h0]
              simp only [List.append_assoc, la, lb]
              rw [if_neg h2]
              simp only [lc]
              exact ld t m (by omega)
    · simp only [Option.some.injEq, Prod.mk.injEq] at h
      obtain ⟨e1, e2⟩ := h
      subst e1 e2
      refine ⟨[], rfl, fun t fuel1 _ => ?_⟩
      cases fuel1 with
      | zero => rw [readDefinedSequenceLoop, if_neg h0]; rfl
      | succ m => rw [readDefinedSequenceLoop, if_neg h0]; rfl

theorem readSequence_local {lib : database} {isImplicit : Bool} {s s1 : QDataStream}
    {att att1 : Attribute} (h : readSequence lib isImplicit s att = some (att1, s1)) :
    ∃ c, s = c ++ s1 ∧ ∀ t, readSequence lib isImplicit (c ++ t) att = some (att1, t) := by
  unfold readSequence at h
  cases ha : readSequenceLoop lib isImplicit s.length s att.seq with
  | none => simp [ha] at h
  | some p =>
    obtain ⟨items, sa⟩ := p
    simp only [ha, Option.some.injEq, Prod.mk.injEq] at h
    obtain ⟨e1, e2⟩ := h
    subst e1 e2
    obtain ⟨c, ec, lc⟩ := readSequenceLoop_local lib isImplicit _ _ _ _ _ ha
    refine ⟨c, ec, fun t => ?_⟩
    have key : readSequenceLoop lib isImplicit (c ++ t).length (c ++ t) att.seq =
        some (items, t) := by
      rcases le_total s.length (c ++ t).length with hle | hle
      · exact lc t _ hle
      · rw [← readSequenceLoop_fuel lib isImplicit s.length (c ++ t) att.seq hle]
        exact lc t _ (le_refl _)
    unfold readSequence
    rw [key]

theorem readDefinedSequence_local {lib : database} {isImplicit : Bool} {s s1 : QDataStream}
    {att att1 : Attribute} {n : Nat}
    (h : readDefinedSequence lib isImplicit s att n = some (att1, s1)) :
    ∃ c, s = c ++ s1 ∧
      ∀ t, readDefinedSequence lib isImplicit (c ++ t) att n = some (att1, t) := by
  unfold readDefinedSequence at h
  cases ha : readDefinedSequenceLoop lib isImplicit s.length s att.seq n 0 with
  | none => simp [ha] at h
  | some p =>
    obtain ⟨items, sa⟩ := p
    simp only [ha, Option.some.injEq, Prod.mk.injEq] at h
    obtain ⟨e1, e2⟩ := h
    subst e1 e2
    obtain ⟨c, ec, lc⟩ := readDefinedSequenceLoop_local lib isImplicit _ _ _ _ _ _ _ ha
    refine ⟨c, ec, fun t => ?_⟩
    have key : readDefinedSequenceLoop lib isImplicit (c ++ t).length (c ++ t) att.seq n 0 =
        some (items, t) := by
      rcases le_total s.length (c ++ t).length with hle | hle
      · exact lc t _ hle
      · rw [← readDefinedSequenceLoop_fuel lib isImplicit s.length (c ++ t) att.seq n 0 hle]
        exact lc t _ (le_refl _)
    unfold readDefinedSequence
    rw [key]

theorem readHeader_local {lib : database} {isImplicit : Bool} {tag0 tag1 : Nat}
    {desc : QString} {s s1 : QDataStream} {VR : QString} {vl : Nat}
    (h : readHeader lib isImplicit tag0 tag1 desc s = .ok (VR, vl, s1)) :
    ∃ c, s = c ++ s1 ∧
      ∀ t, readHeader lib isImplicit tag0 tag1 desc (c ++ t) = .ok (VR, vl, t) := by
  unfold readHeader at h
  cases ha : read4 s with
  | none => simp [ha] at h
  | some p =>
    obtain ⟨dat, sa⟩ := p
    obtain ⟨ca, ea, la⟩ := read4_local ha
    simp only [ha] at h
    split_ifs at h with h1 h2
    · cases hb : read4 sa with
      | none => simp [hb] at h
      | some q =>
        obtain ⟨⟨e0, e1, e2, e3⟩, sb⟩ := q
        obtain ⟨cb, eb, lb⟩ := read4_local hb
        simp only [hb, Except.ok.injEq, Prod.mk.injEq] at h
        obtain ⟨x1, x2, x3⟩ := h
        subst x1 x2 x3
        refine ⟨ca ++ cb, by rw [ea, eb, List.append_assoc], fun t => ?_⟩
        unfold readHeader
        simp only [List.append_assoc, la]
        rw [if_pos h1]
        simp only [lb]
    · simp only [Except.ok.injEq, Prod.mk.injEq] at h
      obtain ⟨x1, x2, x3⟩ := h
      subst x1 x2 x3
      refine ⟨ca, ea, fun t => ?_⟩
      unfold readHeader
      simp only [la]
      rw [if_neg h1, if_pos h2]
    · simp only [Except.ok.injEq, Prod.mk.injEq] at h
      obtain ⟨x1, x2, x3⟩ := h
      subst x1 x2 x3
      refine ⟨ca, ea, fun t => ?_⟩
      unfold readHeader
      simp only [la]
      rw [if_neg h1, if_neg h2]

theorem readBody_local {lib : database} {isImplicit : Bool} {temp : Attribute} {VR : QString}
    {s : QDataStream} {r : Decoded} (h : readBody lib isImplicit temp VR s = .ok r) :
    ∃ c, s = c ++ r.rest ∧
      ∀ t, readBody lib isImplicit temp VR (c ++ t) = .ok { r with rest := t } := by
  unfold readBody at h
  split_ifs at h with h1 h2
  · cases ha : readSequence lib isImplicit s temp with
    | none => simp [ha] at h
    | some p =>
      obtain ⟨temp1, sa⟩ := p
      simp only [ha, Except.ok.injEq] at h
      subst h
      obtain ⟨c, ec, lc⟩ := readSequence_local ha
      refine ⟨c, ec, fun t => ?_⟩
      unfold readBody
      rw [if_pos h1, lc]
  · cases ha : readDefinedSequence lib isImplicit s temp temp.vl with
    | none => simp [ha] at h
    | some p =>
      obtain ⟨temp1, sa⟩ := p
      simp only [ha, Except.ok.injEq] at h
      subst h
      obtain ⟨c, ec, lc⟩ := readDefinedSequence_local ha
      refine ⟨c, ec, fun t => ?_⟩
      unfold readBody
      rw [if_neg h1, if_pos h2, lc]
  · cases ha : readValue temp.vl s with
    | error e => simp [ha] at h
    | ok p =>
      obtain ⟨vf, sa⟩ := p
      simp only [ha, Except.ok.injEq] at h
      subst h
      obtain ⟨ec, lc⟩ := readValue_local ha
      refine ⟨vf, ec, fun t => ?_⟩
      unfold readBody
      rw [if_neg h1, if_neg h2, lc]

theorem decodeElement_local {lib : database} {isImplicit : Bool} {s : QDataStream}
    {r : Decoded} (h : decodeElement lib isImplicit s = .ok r) :
    ∃ c, s = c ++ r.rest ∧ c ≠ [] ∧
      ∀ t, decodeElement lib isImplicit (c ++ t) = .ok { r with rest := t } := by
  cases ha : read4 s with
  | none => simp [decodeElement, ha] at h
  | some p =>
    obtain ⟨⟨d0, d1, d2, d3⟩, s1⟩ := p
    have hs := read4_some ha
    simp only [] at hs
    subst hs
    have hd : ¬ (le16 d0 d1 = 0xFFFE ∧ (le16 d2 d3 = 0xE0DD ∨ le16 d2 d3 = 0xE00D)) := by
      intro hd
      rw [decodeElement_delimiter lib isImplicit d0 d1 d2 d3 s1 hd] at h
      cases h
    obtain ⟨VR, vl, s2, hh, hb⟩ := decodeElement_cons_ok h
    obtain ⟨ch, eh, lh⟩ := readHeader_local hh
    obtain ⟨cb, eb, lb⟩ := readBody_local hb
    refine ⟨d0 :: d1 :: d2 :: d3 :: (ch ++ cb), ?_, List.cons_ne_nil _ _, fun t => ?_⟩
    · rw [eh, eb]; simp
    · have e : (d0 :: d1 :: d2 :: d3 :: (ch ++ cb)) ++ t =
          d0 :: d1 :: d2 :: d3 :: (ch ++ (cb ++ t)) := by simp
      rw [e]
      simp only [decodeElement, read4_cons]
      rw [if_neg hd]
      simp only [lh, lb]

theorem parseElement_local {lib : database} {self self1 : DICOM} {s s1 : QDataStream}
    (h : parseElement lib self s = .ok (self1, s1)) :
    ∃ c, s = c ++ s1 ∧ c ≠ [] ∧ ∀ t, parseElement lib self (c ++ t) = .ok (self1, t) := by
  unfold parseElement at h
  cases ha : decodeElement lib self.isImplicit s with
  | error e => simp [ha] at h
  | ok r =>
    simp only [ha, Except.ok.injEq, Prod.mk.injEq] at h
    obtain ⟨h1, h2⟩ := h
    obtain ⟨c, ec, hne, lc⟩ := decodeElement_local ha
    refine ⟨c, by rw [← h2]; exact ec, hne, fun t => ?_⟩
    unfold parseElement
    rw [lc]
    simp only [h1]

/-- Where the loop of `parse` stops, the bytes read so far are a stream on which the loop
runs to the end with the code 0 and the same state of the object; and the element at which
a nonzero code arose is the one that fails at the start of the unread rest. -/
theorem parseLoop_local (lib : database) :
    ∀ (fuel : Nat) (self : DICOM) (s : QDataStream) (e : Nat) (self1 : DICOM)
      (s1 : QDataStream), parseLoop lib fuel self s = (e, self1, s1) →
        ∃ c, s = c ++ s1 ∧ parseLoop lib c.length self c = (0, self1, []) ∧
          (e ≠ 0 → parseElement lib self1 s1 = .error e) := by
  intro fuel
  induction fuel with
  | zero =>
    intro self s e self1 s1 h
    simp only [parseLoop, Prod.mk.injEq] at h
    obtain ⟨e1, e2, e3⟩ := h
    subst e1 e2 e3
    exact ⟨[], rfl, rfl, fun h => absurd rfl h⟩
  | succ n ih =>
    intro self s e self1 s1 h
    rw [parseLoop] at h
    split_ifs at h with hs
    · simp only [Prod.mk.injEq] at h
      obtain ⟨e1, e2, e3⟩ := h
      subst e1 e2 e3
      exact ⟨[], by rw [hs]; rfl, rfl, fun h => absurd rfl h⟩
    · cases ha : parseElement lib self s with
      | error e0 =>
        simp only [ha, Prod.mk.injEq] at h
        obtain ⟨e1, e2, e3⟩ := h
        subst e1 e2 e3
        exact ⟨[], rfl, rfl, fun _ => ha⟩
      | ok p =>
        obtain ⟨selfa, sa⟩ := p
        simp only [ha] at h
        obtain ⟨c1, ec1, hne, l1⟩ := parseElement_local ha
        obtain ⟨c2, ec2, hl, he⟩ := ih _ _ _ _ _ h
        refine ⟨c1 ++ c2, by rw [ec1, ec2, List.append_assoc], ?_, he⟩
        rw [parseLoop_eq, if_neg (by simp [hne]), l1]
        exact hl

/-- C21: when `parse` returns a nonzero code, then either the code is 101, 102, 103 (or 501)
and the object, hence its store, is as it was before the call (empty for a fresh object);
or the file splits into the bytes read before the failing element and the unread rest,
`parse` on a file that ends where the rest begins returns 0 with exactly the state (store
included) that the failed run has left, and the element at the start of the rest is the
one whose decoding gives the code: it never reached the insertion. -/
theorem parse_failure_keeps_decoded_elements (lib : database) (self : DICOM)
    (file : Option (List Byte)) (h : (parse lib self file).1 ≠ 0) :
    (((parse lib self file).1 = 101 ∨ (parse lib self file).1 = 102 ∨
        (parse lib self file).1 = 103 ∨ (parse lib self file).1 = 501) →
      (parse lib self file).2.1 = self) ∧
    (¬ ((parse lib self file).1 = 101 ∨ (parse lib self file).1 = 102 ∨
        (parse lib self file).1 = 103 ∨ (parse lib self file).1 = 501) →
      ∃ bytes c, file = some bytes ∧ bytes = c ++ (parse lib self file).2.2 ∧
        parse lib self (some c) = (0, (parse lib self file).2.1, []) ∧
        parseElement lib (parse lib self file).2.1 (parse lib self file).2.2 =
          .error (parse lib self file).1) := by
  cases file with
  | none => exact ⟨fun _ => rfl, fun hn => absurd (Or.inr (Or.inr (Or.inr rfl))) hn⟩
  | some bytes =>
    cases ha : readN 128 bytes with
    | none =>
      have hp : parse lib self (some bytes) = (101, self, []) := by
        simp only [parse, ha]
      rw [hp]
      exact ⟨fun _ => rfl, fun hn => absurd (Or.inl rfl) hn⟩
    | some p =>
      obtain ⟨pre, sA⟩ := p
      cases hb : read4 sA with
      | none =>
        have hp : parse lib self (some bytes) = (102, self, []) := by
          simp only [parse, ha, hb]
        rw [hp]
        exact ⟨fun _ => rfl, fun hn => absurd (Or.inr (Or.inl rfl)) hn⟩
      | some q =>
        obtain ⟨⟨d0, d1, d2, d3⟩, sB⟩ := q
        by_cases hm : [d0.val, d1.val, d2.val, d3.val] ≠ QString.lit "DICM"
        · have hp : parse lib self (some bytes) = (103, self, sB) := by
            simp only [parse, ha, hb]
            rw [if_pos hm]
          rw [hp]
          exact ⟨fun _ => rfl, fun hn => absurd (Or.inr (Or.inr (Or.inl rfl))) hn⟩
        · have hp : parse lib self (some bytes) = parseLoop lib sB.length self sB := by
            simp only [parse, ha, hb]
            rw [if_neg hm]
          rw [hp] at h ⊢
          have hcode := parseLoop_code lib sB.length self sB
          generalize hR : parseLoop lib sB.length self sB = R at h hcode ⊢
          obtain ⟨e, self1, s1⟩ := R
          simp only [] at h hcode ⊢
          constructor
          · intro h1
            omega
          · intro _
            obtain ⟨c, ec, hl, he⟩ := parseLoop_local lib sB.length self sB e self1 s1 hR
            obtain ⟨ea, la⟩ := readN_local ha
            have eb := read4_some hb
            simp only [] at eb
            refine ⟨bytes, pre ++ (d0 :: d1 :: d2 :: d3 :: c), rfl, ?_, ?_, he h⟩
            · rw [ea, eb, ec]; simp
            · simp only [parse, la, read4_cons]
              rw [if_neg hm]
              exact hl

theorem parse_failure_keeps_decoded_elements_witness :
    (parse sampleLib DICOM.new (some (List.replicate 128 0 ++ asciiBytes "XXXX"))).1 = 103 ∧
    (parse sampleLib DICOM.new (some (List.replicate 128 0 ++ asciiBytes "XXXX"))).2.1 =
      DICOM.new ∧
    (parse sampleLib DICOM.new (some (preamble ++ charsetElement ++ [0x10, 0x00]))).1 = 201 ∧
    ∃ bytes c, some (preamble ++ charsetElement ++ [0x10, 0x00]) = some bytes ∧
      bytes = c ++ (parse sampleLib DICOM.new
        (some (preamble ++ charsetElement ++ [0x10, 0x00]))).2.2 ∧
      parse sampleLib DICOM.new (some c) =
        (0, (parse sampleLib DICOM.new
          (some (preamble ++ charsetElement ++ [0x10, 0x00]))).2.1, []) ∧
      parseElement sampleLib
          (parse sampleLib DICOM.new (some (preamble ++ charsetElement ++ [0x10, 0x00]))).2.1
          (parse sampleLib DICOM.new (some (preamble ++ charsetElement ++ [0x10, 0x00]))).2.2 =
        .error (parse sampleLib DICOM.new
          (some (preamble ++ charsetElement ++ [0x10, 0x00]))).1 :=
  ⟨by decide,
    (parse_failure_keeps_decoded_elements sampleLib DICOM.new
      (some (List.replicate 128 0 ++ asciiBytes "XXXX")) (by decide)).1 (by decide),
    by decide,
    (parse_failure_keeps_decoded_elements sampleLib DICOM.new
      (some (preamble ++ charsetElement ++ [0x10, 0x00])) (by decide)).2 (by decide)⟩

end DICOM
